import Mathlib

/-!
Verification of the ft_irc server (an RFC-1459-style IRC server) against its
natural-language specification.  The C++ sources under src/ are shallowly
embedded below: std::string becomes List Char, std::map becomes a sorted
association list, exceptions become Except, and each command handler is
translated statement by statement from src/src/protocol/CommandHandler.cpp,
src/src/protocol/Parser.cpp, src/src/protocol/Message.cpp,
src/src/network/Client.cpp, src/src/network/Channel.cpp and
src/src/network/Server.cpp.
-/

namespace IRC

/-- Byte strings of the C++ code are embedded as lists of characters. -/
abbrev Str := List Char

/-- Helper to write string literals as Str. -/
def str (x : String) : Str := x.data

/-- std::string::find(char): index of the first occurrence, none for npos. -/
def strFind (l : Str) (c : Char) : Option Nat :=
  match l with
  | [] => none
  | x :: xs => if x = c then some 0 else (strFind xs c).map (· + 1)

/-- Whether pat occurs at the very start of l (used by substring search). -/
def isPfxOf (pat l : Str) : Bool :=
  match pat, l with
  | [], _ => true
  | _ :: _, [] => false
  | p :: ps, x :: xs => p = x && isPfxOf ps xs

/-- std::string::find(substring): index of the first occurrence, none for npos. -/
def findSub (l pat : Str) : Option Nat :=
  match l with
  | [] => if pat.isEmpty then some 0 else none
  | _ :: xs => if isPfxOf pat l then some 0 else (findSub xs pat).map (· + 1)

theorem strFind_lt {l : Str} {c : Char} {i : Nat} (h : strFind l c = some i) :
    i < l.length := by
  induction l generalizing i with
  | nil => simp [strFind] at h
  | cons x xs ih =>
    simp only [strFind] at h
    by_cases hx : x = c
    · simp only [if_pos hx, Option.some.injEq] at h
      subst h
      simp
    · simp only [if_neg hx, Option.map_eq_some'] at h
      obtain ⟨j, hj, hi⟩ := h
      subst hi
      simpa using Nat.succ_lt_succ (ih hj)

/-- strFind finds exactly the first occurrence: searching a ++ c :: b where a
is free of c yields the length of a. -/
theorem strFind_append_cons {a : Str} {c : Char} (b : Str) (ha : c ∉ a) :
    strFind (a ++ c :: b) c = some a.length := by
  induction a with
  | nil => simp [strFind]
  | cons x xs ih =>
    simp only [List.mem_cons, not_or] at ha
    simp [strFind, ih ha.2, Ne.symm ha.1]

theorem strFind_eq_none {l : Str} {c : Char} (h : c ∉ l) :
    strFind l c = none := by
  induction l with
  | nil => rfl
  | cons x xs ih =>
    simp only [List.mem_cons, not_or] at h
    simp [strFind, Ne.symm h.1, ih h.2]

end IRC

namespace IRC

/-! ## MessageCodec: structured messages (inc/protocol/Message.hpp)

The C++ struct Message has fields prefix, command, params, trailing.  The
first field is called pfx here because of a naming clash in the proof
environment; it embeds the same std::string member. -/

structure Msg where
  pfx : Str
  command : Str
  params : List Str
  trailing : Str
deriving Repr, DecidableEq

/-! ## MessageCodec: parser (src/src/protocol/Parser.cpp) -/

/-- Parser::stripCRLF: remove a final "\r\n" if present. -/
def stripCRLF (s : Str) : Str :=
  if s.length < 2 then s
  else if s.drop (s.length - 2) = ['\r', '\n'] then s.take (s.length - 2)
  else s

/-- Parser::extractPrefix: if the line starts with a colon, split off the
source annotation up to the first space (returned without the colon), and
return the remainder of the line.  Embeds the C++ in-place mutation of line
as a pair (annotation, rest). -/
def extractPfx (line : Str) : Str × Str :=
  if line.head? ≠ some ':' then ([], line)
  else match strFind line ' ' with
    | none => (line.drop 1, [])
    | some sp => ((line.drop 1).take (sp - 1), line.drop (sp + 1))

/-- Parser::extractCommand: the first space-delimited token; the C++ throws
std::invalid_argument when no command is present, embedded as none. -/
def extractCommand (line : Str) : Option (Str × Str) :=
  if line.isEmpty then none
  else
    let pr : Str × Str :=
      match strFind line ' ' with
      | none => (line, [])
      | some sp => (line.take sp, line.drop (sp + 1))
    if pr.1.isEmpty then none else some pr

/-- Parser::extractParams: split the remainder into space-delimited tokens
until a token starting with a colon begins the trailing parameter.  The
C++ while loop consumes at least one byte per iteration; it is embedded
with a fuel argument bounded by the line length so that the definition
computes by structural recursion (extractParams_cons below recovers the
natural recurrence). -/
def extractParamsF : Nat → Str → List Str × Str
  | 0, _ => ([], [])
  | fuel + 1, line =>
    match line with
    | [] => ([], [])
    | c :: rest =>
      if c = ':' then ([], rest)
      else
        match strFind (c :: rest) ' ' with
        | none => ([c :: rest], [])
        | some sp =>
          let pr := extractParamsF fuel ((c :: rest).drop (sp + 1))
          ((c :: rest).take sp :: pr.1, pr.2)

def extractParams (line : Str) : List Str × Str :=
  extractParamsF line.length line

/-- The fuel argument is irrelevant as long as it covers the line length. -/
theorem extractParamsF_irrel :
    ∀ (f1 f2 : Nat) (line : Str), line.length ≤ f1 → line.length ≤ f2 →
      extractParamsF f1 line = extractParamsF f2 line := by
  intro f1
  induction f1 with
  | zero =>
    intro f2 line h1 _
    have : line = [] := List.eq_nil_of_length_eq_zero (Nat.le_zero.mp h1)
    subst this
    cases f2 <;> rfl
  | succ f ih =>
    intro f2 line h1 h2
    match line with
    | [] => cases f2 <;> rfl
    | c :: rest =>
      have hl1 : rest.length + 1 ≤ f + 1 := by simpa using h1
      have hlen : rest.length + 1 ≤ f2 := by simpa using h2
      match f2, hlen with
      | g + 1, hlen =>
        show extractParamsF (f + 1) (c :: rest) = extractParamsF (g + 1) (c :: rest)
        simp only [extractParamsF]
        by_cases hc : c = ':'
        · simp [hc]
        · simp only [if_neg hc]
          match hsp : strFind (c :: rest) ' ' with
          | none => rfl
          | some sp =>
            have hd : ((c :: rest).drop (sp + 1)).length ≤ f := by
              simp only [List.length_drop, List.length_cons]
              omega
            have hd2 : ((c :: rest).drop (sp + 1)).length ≤ g := by
              simp only [List.length_drop, List.length_cons]
              omega
            simp only [ih g ((c :: rest).drop (sp + 1)) hd hd2]

/-- The natural recurrence of extractParams, i.e. the C++ loop body. -/
theorem extractParams_cons (c : Char) (rest : Str) :
    extractParams (c :: rest) =
      (if c = ':' then (([] : List Str), rest)
       else
        match strFind (c :: rest) ' ' with
        | none => ([c :: rest], [])
        | some sp =>
          let pr := extractParams ((c :: rest).drop (sp + 1))
          ((c :: rest).take sp :: pr.1, pr.2)) := by
  show extractParamsF (rest.length + 1) (c :: rest) = _
  simp only [extractParamsF]
  by_cases hc : c = ':'
  · simp [hc]
  · simp only [if_neg hc]
    match hsp : strFind (c :: rest) ' ' with
    | none => rfl
    | some sp =>
      have hd : ((c :: rest).drop (sp + 1)).length ≤ rest.length := by
        simp only [List.length_drop, List.length_cons]
        omega
      simp only [extractParams]
      simp only [extractParamsF_irrel rest.length ((c :: rest).drop (sp + 1)).length
        ((c :: rest).drop (sp + 1)) hd le_rfl]

/-- Parser::parse: strip the terminator, take prefix, command (required),
then parameters and trailing. -/
def parse (raw : Str) : Option Msg :=
  let line := stripCRLF raw
  let pl := extractPfx line
  match extractCommand pl.2 with
  | none => none
  | some (cmd, rest) =>
    let pt := extractParams rest
    some ⟨pl.1, cmd, pt.1, pt.2⟩

/-! ## MessageCodec: builder (src/src/protocol/Message.cpp)

MessageBuilder validates every built message against a 512-byte ceiling and
throws std::length_error beyond it; the throw is embedded as Except.error.
The repository declares the builder twice (inc/protocol/Message.hpp names
the functions buildCommand/buildError, inc/protocol/MessageBuilder.hpp names
the identical functions buildCommandMessage/buildErrorReply); the bodies in
Message.cpp are embedded once under the names the command handlers use. -/

/-- MessageBuilder::formatCode: zero-pad a numeric code to width 3. -/
def formatCode (code : Nat) : Str :=
  let ds := Nat.toDigits 10 code
  List.replicate (3 - ds.length) '0' ++ ds

/-- RFC 1459 maximum message length, from MessageBuilder::validateLength. -/
def MAX_MESSAGE_LENGTH : Nat := 512

/-- MessageBuilder::validateLength as a predicate: true iff the message
does not exceed 512 bytes (false embeds the std::length_error throw). -/
def validateLength (message : Str) : Bool :=
  decide (message.length ≤ MAX_MESSAGE_LENGTH)

/-- MessageBuilder::buildNumericReply:
":server code target :message\r\n", checked against the 512-byte ceiling. -/
def buildNumericReply (server : Str) (code : Nat) (target message : Str) :
    Except Unit Str :=
  let result := ':' :: server ++ ' ' :: formatCode code ++ ' ' :: target
      ++ ' ' :: ':' :: message ++ ['\r', '\n']
  if validateLength result then .ok result else .error ()

/-- MessageBuilder::buildError / buildErrorReply:
":server code target param :message\r\n", with the same length check. -/
def buildErrorReply (server : Str) (code : Nat) (target param message : Str) :
    Except Unit Str :=
  let result := ':' :: server ++ ' ' :: formatCode code ++ ' ' :: target
      ++ ' ' :: param ++ ' ' :: ':' :: message ++ ['\r', '\n']
  if validateLength result then .ok result else .error ()

/-! ## Client input framing (src/src/network/Client.cpp) -/

/-- Client::hasCompleteCmd: a complete command is present when the input
buffer contains "\r\n" or a bare '\n'. -/
def hasCompleteCmd (inbuf : Str) : Bool :=
  (findSub inbuf ['\r', '\n']).isSome || (strFind inbuf '\n').isSome

/-- Client::extractNextCmd: search the input buffer for "\r\n" first and
fall back to a bare '\n'; return the extracted line together with the input
buffer that remains (the C++ erases the line and delimiter in place).  When
neither occurs, the C++ returns "" leaving the buffer unchanged. -/
def extractNextCmd (inbuf : Str) : Str × Str :=
  match findSub inbuf ['\r', '\n'] with
  | some pos => (inbuf.take pos, inbuf.drop (pos + 2))
  | none =>
    match strFind inbuf '\n' with
    | some pos =>
      let line := inbuf.take pos
      let line := if line.getLast? = some '\r' then line.dropLast else line
      (line, inbuf.drop (pos + 1))
    | none => ([], inbuf)

theorem findSub_lt {l pat : Str} {i : Nat} (hp : pat ≠ []) (h : findSub l pat = some i) :
    i < l.length := by
  induction l generalizing i with
  | nil => simp [findSub, List.isEmpty_iff, hp] at h
  | cons x xs ih =>
    simp only [findSub] at h
    by_cases hx : isPfxOf pat (x :: xs) = true
    · simp only [if_pos hx, Option.some.injEq] at h
      subst h
      simp
    · simp only [if_neg hx, Option.map_eq_some'] at h
      obtain ⟨j, hj, hi⟩ := h
      subst hi
      simpa using Nat.succ_lt_succ (ih hj)

/-- Extraction shrinks a buffer that holds a complete command. -/
theorem extractNextCmd_shrinks {inbuf : Str} (h : hasCompleteCmd inbuf = true) :
    (extractNextCmd inbuf).2.length < inbuf.length := by
  unfold hasCompleteCmd at h
  unfold extractNextCmd
  cases hcr : findSub inbuf ['\r', '\n'] with
  | some pos =>
    have := findSub_lt (by simp) hcr
    simp only [List.length_drop]
    omega
  | none =>
    cases hlf : strFind inbuf '\n' with
    | some pos =>
      have := strFind_lt hlf
      simp only [List.length_drop]
      omega
    | none => simp [hcr, hlf] at h

/-- The framing loop of Server::receiveData: repeatedly extract complete
lines from the input buffer while any remains, collecting the lines handed
to the dispatcher in order; returns the lines and the leftover buffer.
Each extraction consumes at least the terminator byte, so the loop is
embedded with a fuel argument bounded by the buffer length (drainLines_eq
below recovers the while loop). -/
def drainLinesF : Nat → Str → List Str × Str
  | 0, buf => ([], buf)
  | fuel + 1, buf =>
    if hasCompleteCmd buf then
      let lr := extractNextCmd buf
      let pr := drainLinesF fuel lr.2
      (lr.1 :: pr.1, pr.2)
    else ([], buf)

def drainLines (inbuf : Str) : List Str × Str :=
  drainLinesF inbuf.length inbuf

/-- The fuel argument is irrelevant once it covers the buffer length. -/
theorem drainLinesF_irrel :
    ∀ (f1 f2 : Nat) (buf : Str), buf.length ≤ f1 → buf.length ≤ f2 →
      drainLinesF f1 buf = drainLinesF f2 buf := by
  intro f1
  induction f1 with
  | zero =>
    intro f2 buf h1 _
    have : buf = [] := List.eq_nil_of_length_eq_zero (Nat.le_zero.mp h1)
    subst this
    cases f2 with
    | zero => rfl
    | succ g =>
      show ([], []) = drainLinesF (g + 1) []
      simp [drainLinesF, hasCompleteCmd, findSub, strFind]
  | succ f ih =>
    intro f2 buf h1 h2
    by_cases hc : hasCompleteCmd buf
    · have hne : buf ≠ [] := by
        intro h
        subst h
        simp [hasCompleteCmd, findSub, strFind] at hc
      have hlen1 : 1 ≤ buf.length := by
        cases buf with
        | nil => exact absurd rfl hne
        | cons a l => simp
      match f2, Nat.le_trans hlen1 h2 with
      | g + 1, _ =>
        show drainLinesF (f + 1) buf = drainLinesF (g + 1) buf
        simp only [drainLinesF, if_pos hc]
        have hs := extractNextCmd_shrinks hc
        have hd1 : (extractNextCmd buf).2.length ≤ f := by omega
        have hd2 : (extractNextCmd buf).2.length ≤ g := by omega
        simp only [ih g (extractNextCmd buf).2 hd1 hd2]
    · cases f2 with
      | zero =>
        have : buf = [] := List.eq_nil_of_length_eq_zero (Nat.le_zero.mp h2)
        subst this
        simp [drainLinesF, hc]
      | succ g => simp [drainLinesF, hc]

/-- The while loop of the framing step: one extraction, then the rest. -/
theorem drainLines_eq (buf : Str) :
    drainLines buf =
      (if hasCompleteCmd buf then
        let lr := extractNextCmd buf
        let pr := drainLines lr.2
        (lr.1 :: pr.1, pr.2)
      else ([], buf)) := by
  by_cases hc : hasCompleteCmd buf
  · have hne : buf ≠ [] := by
      intro h
      subst h
      simp [hasCompleteCmd, findSub, strFind] at hc
    have hlen1 : 1 ≤ buf.length := by
      cases buf with
      | nil => exact absurd rfl hne
      | cons a l => simp
    obtain ⟨n, hb⟩ : ∃ n, buf.length = n + 1 := ⟨buf.length - 1, by omega⟩
    have hs := extractNextCmd_shrinks hc
    rw [hb] at hs
    have hd1 : (extractNextCmd buf).2.length ≤ n := by omega
    unfold drainLines
    rw [hb]
    simp only [drainLinesF, if_pos hc, hc, if_true]
    rw [drainLinesF_irrel n (extractNextCmd buf).2.length
      (extractNextCmd buf).2 hd1 le_rfl]
  · simp only [hc, if_false, Bool.false_eq_true]
    unfold drainLines
    cases hb : buf.length with
    | zero => rfl
    | succ n => simp [drainLinesF, hc]

/-- MessageBuilder::buildCommand / buildCommandMessage:
":prefix command params... [:trailing]\r\n", with the same length check. -/
def buildCommandMessage (pfx command : Str) (params : List Str)
    (trailing : Str) : Except Unit Str :=
  let result := ':' :: pfx ++ ' ' :: command
      ++ params.flatMap (fun p => ' ' :: p)
      ++ (if trailing.isEmpty then [] else ' ' :: ':' :: trailing)
      ++ ['\r', '\n']
  if validateLength result then .ok result else .error ()

/-! ## Connection state (src/src/network/Client.cpp)

The C++ class Client carries the per-connection state.  Its input-framing
members were embedded above as pure functions on the inbuf field. -/

structure Client where
  fd : Int
  inbuf : Str
  outbuf : Str
  nickname : Str
  username : Str
  realname : Str
  authenticated : Bool
  registered : Bool
  peerClosed : Bool
  shouldDisconnect : Bool
  quitReason : Str
  userModes : Str
deriving Repr, DecidableEq

/-- Client::Client(int fd): fresh connection state. -/
def Client.init (fd : Int) : Client :=
  ⟨fd, [], [], [], [], [], false, false, false, false, [], []⟩

/-- Client::setUserMode: append the mode character if absent (add) or erase
its first occurrence (remove). -/
def Client.setUserModeC (c : Client) (mode : Char) (add : Bool) : Client :=
  if add then
    if mode ∈ c.userModes then c else { c with userModes := c.userModes ++ [mode] }
  else
    match strFind c.userModes mode with
    | none => c
    | some pos => { c with userModes := c.userModes.take pos ++ c.userModes.drop (pos + 1) }

/-- Client::hasUserMode. -/
def Client.hasUserMode (c : Client) (mode : Char) : Bool := mode ∈ c.userModes

/-! ## Channel state (src/src/network/Channel.cpp)

std::map<int, Client*> m_members and std::set<int> m_operators/m_invited are
embedded as ascending lists of connection ids; the stored Client* pointers
always denote the Registry-owned objects, so dereferences become Registry
lookups at the use sites. -/

/-- Ordered-set insertion, mirroring std::set / std::map key insertion. -/
def setInsert (fd : Int) : List Int → List Int
  | [] => [fd]
  | x :: xs =>
    if fd < x then fd :: x :: xs
    else if fd = x then x :: xs
    else x :: setInsert fd xs

/-- std::set::erase / std::map::erase by key. -/
def setErase (fd : Int) (s : List Int) : List Int := s.filter (· ≠ fd)

structure Channel where
  name : Str
  topic : Str
  key : Str
  members : List Int
  operators : List Int
  invited : List Int
  inviteOnly : Bool
  topicProtected : Bool
  userLimit : Int
deriving Repr, DecidableEq

/-- Channel::Channel(): default constructor; every field empty or off.  In
particular m_name is value-initialised to the empty string. -/
def Channel.init : Channel := ⟨[], [], [], [], [], [], false, false, 0⟩

def Channel.addMember (ch : Channel) (fd : Int) : Channel :=
  { ch with members := setInsert fd ch.members }

/-- Channel::removeMember also strips operator status. -/
def Channel.removeMember (ch : Channel) (fd : Int) : Channel :=
  { ch with members := setErase fd ch.members,
            operators := setErase fd ch.operators }

def Channel.isMember (ch : Channel) (fd : Int) : Bool := decide (fd ∈ ch.members)

def Channel.chanIsEmpty (ch : Channel) : Bool := ch.members.isEmpty

def Channel.addOperator (ch : Channel) (fd : Int) : Channel :=
  { ch with operators := setInsert fd ch.operators }

def Channel.removeOperator (ch : Channel) (fd : Int) : Channel :=
  { ch with operators := setErase fd ch.operators }

def Channel.isOperator (ch : Channel) (fd : Int) : Bool := decide (fd ∈ ch.operators)

def Channel.setUserLimit (ch : Channel) (limit : Int) : Channel :=
  { ch with userLimit := limit }

def Channel.setInviteOnly (ch : Channel) (enable : Bool) : Channel :=
  { ch with inviteOnly := enable }

def Channel.setTopicProtected (ch : Channel) (enable : Bool) : Channel :=
  { ch with topicProtected := enable }

def Channel.setKey (ch : Channel) (k : Str) : Channel := { ch with key := k }

def Channel.removeKey (ch : Channel) : Channel := { ch with key := [] }

def Channel.hasKey (ch : Channel) : Bool := !ch.key.isEmpty

def Channel.setTopic (ch : Channel) (t : Str) : Channel := { ch with topic := t }

def Channel.hasTopic (ch : Channel) : Bool := !ch.topic.isEmpty

def Channel.addInvited (ch : Channel) (fd : Int) : Channel :=
  { ch with invited := setInsert fd ch.invited }

def Channel.isInvited (ch : Channel) (fd : Int) : Bool := decide (fd ∈ ch.invited)

def Channel.removeInvited (ch : Channel) (fd : Int) : Channel :=
  { ch with invited := setErase fd ch.invited }

/-! ## Registry and poll interest list (src/src/network/Server.cpp) -/

/-- One entry of the std::vector<pollfd> interest list; events is split into
its POLLIN and POLLOUT bits, the only ones the server manipulates. -/
structure Pollfd where
  fd : Int
  pollin : Bool
  pollout : Bool
deriving Repr, DecidableEq

/-- Association-list lookup, first match (map keys are unique). -/
def lookupA {α β : Type} [DecidableEq α] (k : α) : List (α × β) → Option β
  | [] => none
  | (k', v) :: rest => if k = k' then some v else lookupA k rest

/-- Update the first entry with the given key. -/
def updateA {α β : Type} [DecidableEq α] (k : α) (f : β → β) :
    List (α × β) → List (α × β)
  | [] => []
  | (k', v) :: rest =>
    if k = k' then (k', f v) :: rest else (k', v) :: updateA k f rest

/-- Erase the first entry with the given key (std::map::erase). -/
def eraseA {α β : Type} [DecidableEq α] (k : α) : List (α × β) → List (α × β)
  | [] => []
  | (k', v) :: rest => if k = k' then rest else (k', v) :: eraseA k rest

/-- Insert keyed by connection id in ascending order, mirroring
std::map<int, ...>::emplace: iteration stays sorted and an existing entry is
kept, not overwritten. -/
def insertClient (fd : Int) (c : Client) : List (Int × Client) → List (Int × Client)
  | [] => [(fd, c)]
  | (k, v) :: rest =>
    if fd < k then (fd, c) :: (k, v) :: rest
    else if fd = k then (k, v) :: rest
    else (k, v) :: insertClient fd c rest

/-- The whole server state: Registry maps, poll interest list, password. -/
structure Server where
  clients : List (Int × Client)
  channels : List (Str × Channel)
  pollfds : List Pollfd
  password : Str
deriving Repr, DecidableEq

/-- The constant m_server_name of CommandHandler. -/
def serverName : Str := str "ircserv"

def Server.findChannel (st : Server) (name : Str) : Option Channel :=
  lookupA name st.channels

/-- Server::findClientByNickname: scan clients in ascending id order. -/
def Server.findClientByNickname (st : Server) (nickname : Str) : Option Client :=
  (st.clients.find? fun p => decide (p.2.nickname = nickname)).map (·.2)

/-- Server::createChannel: keep an existing channel, else insert a
default-constructed one under the given key (the name is only the key). -/
def Server.createChannel (st : Server) (name : Str) : Server :=
  match lookupA name st.channels with
  | some _ => st
  | none => { st with channels := st.channels ++ [(name, Channel.init)] }

def Server.removeChannel (st : Server) (name : Str) : Server :=
  { st with channels := eraseA name st.channels }

/-- Mutation of the Registry-owned Client object with the given id. -/
def updClient (st : Server) (fd : Int) (f : Client → Client) : Server :=
  { st with clients := updateA fd f st.clients }

/-- Mutation of the Registry-owned Channel object with the given name. -/
def updChan (st : Server) (name : Str) (f : Channel → Channel) : Server :=
  { st with channels := updateA name f st.channels }

/-- Client::appendToOutBuf applied through the Registry. -/
def appendOut (st : Server) (fd : Int) (data : Str) : Server :=
  updClient st fd (fun c => { c with outbuf := c.outbuf ++ data })

/-- Server::enablePolloutForFD: set the POLLOUT bit on the first interest
entry with the given id, if any. -/
def enablePolloutForFD (st : Server) (fd : Int) : Server :=
  { st with pollfds := go st.pollfds }
where
  go : List Pollfd → List Pollfd
  | [] => []
  | p :: ps => if p.fd = fd then { p with pollout := true } :: ps else p :: go ps

/-- Server::disconnectClient: drop the poll entry, close the socket and
erase the Client from the Registry.  Channel membership is not touched. -/
def disconnectClient (st : Server) (fd : Int) : Server :=
  { st with pollfds := go st.pollfds, clients := eraseA fd st.clients }
where
  go : List Pollfd → List Pollfd
  | [] => []
  | p :: ps => if p.fd = fd then ps else p :: go ps

/-- Server::acceptClient, for a single pending connection with a fresh id:
non-blocking setup, a POLLIN-only poll entry, a fresh Client in the map. -/
def acceptConn (st : Server) (fd : Int) : Server :=
  { st with pollfds := st.pollfds ++ [⟨fd, true, false⟩],
            clients := insertClient fd (Client.init fd) st.clients }

/-- Channel::broadcast: append the message to the outbuf of every member
except exclude_fd (default -1 = nobody).  The C++ writes through the stored
Client*, i.e. into the Registry-owned objects. -/
def broadcastMembers (st : Server) (members : List Int) (message : Str)
    (excludeFd : Int) : Server :=
  members.foldl
    (fun acc m => if m = excludeFd then acc else appendOut acc m message) st

/-- CommandHandler::broadcastToChannel: Channel::broadcast plus POLLOUT
enabling for every recipient except exclude_fd. -/
def broadcastToChannel (st : Server) (members : List Int) (message : Str)
    (excludeFd : Int) : Server :=
  let st1 := broadcastMembers st members message excludeFd
  members.foldl
    (fun acc m => if m = excludeFd then acc else enablePolloutForFD acc m) st1

/-- CommandHandler::sendReply aimed at the client with the given id:
append to its outbuf, then enable POLLOUT for it. -/
def sendReplyTo (st : Server) (fd : Int) (reply : Str) : Server :=
  enablePolloutForFD (appendOut st fd reply) fd

/-- CommandHandler::sendError: error replies address the nickname, or "*"
before one is set.  A std::length_error from the builder escapes to the
dispatcher's catch block, so nothing is appended in that case. -/
def sendError (st : Server) (fd : Int) (code : Nat) (param message : Str) :
    Server :=
  match lookupA fd st.clients with
  | none => st
  | some c =>
    let target := if c.nickname.isEmpty then str "*" else c.nickname
    match buildErrorReply serverName code target param message with
    | .error _ => st
    | .ok r => sendReplyTo st fd r

/-- CommandHandler::sendNumeric, with the same exception embedding. -/
def sendNumeric (st : Server) (fd : Int) (code : Nat) (message : Str) :
    Server :=
  match lookupA fd st.clients with
  | none => st
  | some c =>
    match buildNumericReply serverName code c.nickname message with
    | .error _ => st
    | .ok r => sendReplyTo st fd r

/-! ## CommandHandler validation helpers
(src/src/protocol/CommandHandler.cpp) -/

/-- The RFC 1459 special characters accepted in nicknames; the sixth one is
the backquote, written by code point. -/
def nickSpecials : List Char :=
  ['[', ']', '\\', Char.ofNat 96, '_', '^', '{', '|', '}']

/-- CommandHandler::isValidNickname: 1-9 characters, first a letter or a
special, the rest alphanumeric or special. -/
def isValidNickname (nickname : Str) : Bool :=
  if nickname.isEmpty || nickname.length > 9 then false
  else
    match nickname with
    | [] => false
    | first :: rest =>
      (first.isAlpha || decide (first ∈ nickSpecials)) &&
      rest.all (fun c => c.isAlphanum || decide (c ∈ nickSpecials))

/-- CommandHandler::isNicknameInUse: any other client holds the nickname. -/
def isNicknameInUse (st : Server) (nickname : Str) (excludeFd : Int) : Bool :=
  st.clients.any (fun p => decide (p.1 ≠ excludeFd ∧ p.2.nickname = nickname))

/-- CommandHandler::isValidChannelName: 2-50 bytes, leading '#' or '&', no
space, comma, bell or NUL anywhere. -/
def isValidChannelName (name : Str) : Bool :=
  if name.length < 2 then false
  else if name.length > 50 then false
  else
    match name with
    | [] => false
    | c0 :: _ =>
      (c0 = '#' || c0 = '&') &&
      name.all (fun c =>
        !(c = ' ' || c = ',' || c = Char.ofNat 7 || c = Char.ofNat 0))

/-! ## CommandHandler reply helpers -/

/-- The four RPL_WELCOME..RPL_MYINFO message texts of sendWelcome. -/
def welcomeText1 (c : Client) : Str :=
  str "Welcome to the Internet Relay Network " ++ c.nickname ++ ['!']
    ++ c.username ++ str "@localhost"

def welcomeText2 : Str :=
  str "Your host is " ++ serverName ++ str ", running version 1.0"

def welcomeText3 : Str := str "This server was created 2025-12-21"

def welcomeText4 : Str := serverName ++ str " 1.0 io itkol"

/-- CommandHandler::sendWelcome: the burst of numerics 001,002,003,004.  A
builder std::length_error aborts the remaining replies (the exception
unwinds to the dispatcher catch), so each step guards the rest. -/
def sendWelcome (st : Server) (fd : Int) : Server :=
  match lookupA fd st.clients with
  | none => st
  | some c =>
    match buildNumericReply serverName 1 c.nickname (welcomeText1 c) with
    | .error _ => st
    | .ok r1 =>
      let st := sendReplyTo st fd r1
      match buildNumericReply serverName 2 c.nickname welcomeText2 with
      | .error _ => st
      | .ok r2 =>
        let st := sendReplyTo st fd r2
        match buildNumericReply serverName 3 c.nickname welcomeText3 with
        | .error _ => st
        | .ok r3 =>
          let st := sendReplyTo st fd r3
          match buildNumericReply serverName 4 c.nickname welcomeText4 with
          | .error _ => st
          | .ok r4 => sendReplyTo st fd r4

/-- The registration check block repeated verbatim at the end of
handlePass, handleNick and handleUser: when the client is not yet
registered but is authenticated with nickname and username set, mark it
registered and send the welcome burst. -/
def checkRegistration (st : Server) (fd : Int) : Server :=
  match lookupA fd st.clients with
  | none => st
  | some c =>
    if !c.registered && c.authenticated && !c.nickname.isEmpty
        && !c.username.isEmpty then
      sendWelcome (updClient st fd (fun c => { c with registered := true })) fd
    else st

/-! ## Command handlers -/

/-- CommandHandler::handlePass. -/
def handlePass (st : Server) (fd : Int) (msg : Msg) : Server :=
  match lookupA fd st.clients with
  | none => st
  | some c =>
    if c.registered then
      sendError st fd 462 [] (str "You may not reregister")
    else if msg.params.isEmpty && msg.trailing.isEmpty then
      sendError st fd 461 (str "PASS") (str "Not enough parameters")
    else
      let password := match msg.params with
        | [] => msg.trailing
        | p :: _ => p
      if password = st.password then
        checkRegistration
          (updClient st fd (fun c => { c with authenticated := true })) fd
      else
        sendError st fd 464 [] (str "Password incorrect")

/-- CommandHandler::handleNick. -/
def handleNick (st : Server) (fd : Int) (msg : Msg) : Server :=
  match lookupA fd st.clients with
  | none => st
  | some c =>
    if msg.params.isEmpty && msg.trailing.isEmpty then
      sendError st fd 431 [] (str "No nickname given")
    else
      let newNick := match msg.params with
        | [] => msg.trailing
        | p :: _ => p
      if !isValidNickname newNick then
        sendError st fd 432 newNick (str "Erroneous nickname")
      else if isNicknameInUse st newNick fd then
        sendError st fd 433 newNick (str "Nickname is already in use")
      else
        let oldNick := c.nickname
        let st := updClient st fd (fun c => { c with nickname := newNick })
        let st :=
          if c.registered then
            let nickChange := ':' :: oldNick ++ '!' :: c.username
              ++ str "@localhost NICK :" ++ newNick ++ ['\r', '\n']
            let st := sendReplyTo st fd nickChange
            st.channels.foldl
              (fun acc nc =>
                if nc.2.isMember fd then
                  broadcastToChannel acc nc.2.members nickChange fd
                else acc) st
          else st
        checkRegistration st fd

/-- CommandHandler::handleUser. -/
def handleUser (st : Server) (fd : Int) (msg : Msg) : Server :=
  match lookupA fd st.clients with
  | none => st
  | some c =>
    if c.registered then
      sendError st fd 462 [] (str "You may not reregister")
    else if msg.params.length < 3 || msg.trailing.isEmpty then
      sendError st fd 461 (str "USER") (str "Not enough parameters")
    else
      let username := (msg.params[0]?).getD []
      checkRegistration
        (updClient st fd
          (fun c => { c with username := username, realname := msg.trailing }))
        fd

/-- CommandHandler::handlePing. -/
def handlePing (st : Server) (fd : Int) (msg : Msg) : Server :=
  match lookupA fd st.clients with
  | none => st
  | some c =>
    if !c.registered then
      sendError st fd 451 [] (str "You have not registered")
    else
      let token :=
        if !msg.params.isEmpty then (msg.params[0]?).getD []
        else if !msg.trailing.isEmpty then msg.trailing
        else serverName
      match buildCommandMessage serverName (str "PONG") [serverName] token with
      | .error _ => st
      | .ok r => sendReplyTo st fd r

/-- CommandHandler::handleQuit.  When registered, broadcast the QUIT notice
to every channel the client belongs to (broadcastToChannel with the default
exclude of -1, so the quitting client receives it as well), remove the
membership, then erase the channels left empty; finally mark the client for
disconnection.  A builder error aborts everything (including the mark). -/
def handleQuit (st : Server) (fd : Int) (msg : Msg) : Server :=
  match lookupA fd st.clients with
  | none => st
  | some c =>
    let reason := if msg.trailing.isEmpty then str "Client exited" else msg.trailing
    let proceed : Server → Server := fun st =>
      updClient st fd
        (fun c => { c with shouldDisconnect := true, quitReason := reason })
    if c.registered then
      let pfx := c.nickname ++ '!' :: c.username ++ str "@localhost"
      match buildCommandMessage pfx (str "QUIT") [] reason with
      | .error _ => st
      | .ok quitMsg =>
        let acc0 : Server × List Str := (st, [])
        let acc := st.channels.foldl
          (fun (acc : Server × List Str) nc =>
            if nc.2.isMember fd then
              let st1 := broadcastToChannel acc.1 nc.2.members quitMsg (-1)
              let st1 := updChan st1 nc.1 (fun ch => ch.removeMember fd)
              let newMembers := setErase fd nc.2.members
              if newMembers.isEmpty then (st1, acc.2 ++ [nc.1]) else (st1, acc.2)
            else acc) acc0
        proceed (acc.2.foldl (fun s n => s.removeChannel n) acc.1)
    else proceed st

/-- CommandHandler::handlePrivmsg.  The channel branch is taken exactly
when the target begins with '#'. -/
def handlePrivmsg (st : Server) (fd : Int) (msg : Msg) : Server :=
  match lookupA fd st.clients with
  | none => st
  | some c =>
    if !c.registered then
      sendError st fd 451 [] (str "You have not registered")
    else if msg.params.isEmpty then
      sendError st fd 411 [] (str "No recipient given (PRIVMSG)")
    else if msg.trailing.isEmpty then
      sendError st fd 412 [] (str "No text to send")
    else
      let target := (msg.params[0]?).getD []
      let message := msg.trailing
      let pfx := c.nickname ++ '!' :: c.username ++ str "@localhost"
      if target.head? = some '#' then
        match st.findChannel target with
        | none => sendError st fd 403 target (str "No such channel")
        | some chan =>
          if !chan.isMember fd then
            sendError st fd 404 target (str "Cannot send to channel")
          else
            match buildCommandMessage pfx (str "PRIVMSG") [target] message with
            | .error _ => st
            | .ok pm => broadcastToChannel st chan.members pm fd
      else
        match st.findClientByNickname target with
        | none => sendError st fd 401 target (str "No such nick/channel")
        | some tc =>
          match buildCommandMessage pfx (str "PRIVMSG") [target] message with
          | .error _ => st
          | .ok pm => sendReplyTo st tc.fd pm

/-- CommandHandler::handleNotice: the same routing as handlePrivmsg, with
every failure silently dropped, and with the channel delivery done through
Channel::broadcast directly (no POLLOUT enabling for the recipients). -/
def handleNotice (st : Server) (fd : Int) (msg : Msg) : Server :=
  match lookupA fd st.clients with
  | none => st
  | some c =>
    if !c.registered then st
    else if msg.params.isEmpty then st
    else if msg.trailing.isEmpty then st
    else
      let target := (msg.params[0]?).getD []
      let message := msg.trailing
      let pfx := c.nickname ++ '!' :: c.username ++ str "@localhost"
      if target.head? = some '#' then
        match st.findChannel target with
        | none => st
        | some chan =>
          if !chan.isMember fd then st
          else
            match buildCommandMessage pfx (str "NOTICE") [target] message with
            | .error _ => st
            | .ok nm => broadcastMembers st chan.members nm fd
      else
        match st.findClientByNickname target with
        | none => st
        | some tc =>
          match buildCommandMessage pfx (str "NOTICE") [target] message with
          | .error _ => st
          | .ok nm => sendReplyTo st tc.fd nm

/-- The RPL_NAMREPLY member list of handleJoin: nicknames in ascending id
order, operators prefixed with '@', separated by single spaces. -/
def namesListOf (st : Server) (ch : Channel) : Str :=
  (ch.members.foldl
    (fun (acc : Str × Bool) m =>
      let nick := match lookupA m st.clients with
        | some c => c.nickname
        | none => []
      let pre := if acc.2 then acc.1 ++ [' '] else acc.1
      let pre := if ch.isOperator m then pre ++ ['@'] else pre
      (pre ++ nick, true)) ([], false)).1

/-- The tail of CommandHandler::handleJoin after the mode checks passed:
membership insertion, invite consumption, JOIN broadcast, names list and
topic replies.  c is the joining client as read at handler entry. -/
def joinSteps (st : Server) (fd : Int) (channelName : Str) (c : Client) :
    Server :=
  let st := updChan st channelName (fun ch => ch.addMember fd)
  let st := updChan st channelName
    (fun ch => if ch.isInvited fd then ch.removeInvited fd else ch)
  let pfx := c.nickname ++ '!' :: c.username ++ str "@localhost"
  match buildCommandMessage pfx (str "JOIN") [] channelName with
  | .error _ => st
  | .ok jm =>
    match st.findChannel channelName with
    | none => st
    | some chan2 =>
      let st := broadcastToChannel st chan2.members jm (-1)
      let namesReply := ':' :: serverName ++ str " 353 " ++ c.nickname
        ++ str " = " ++ channelName ++ str " :" ++ namesListOf st chan2
        ++ ['\r', '\n']
      let st := sendReplyTo st fd namesReply
      let endOfNames := ':' :: serverName ++ str " 366 " ++ c.nickname
        ++ ' ' :: channelName ++ str " :End of /NAMES list" ++ ['\r', '\n']
      let st := sendReplyTo st fd endOfNames
      if chan2.hasTopic then
        sendReplyTo st fd (':' :: serverName ++ str " 332 " ++ c.nickname
          ++ ' ' :: channelName ++ str " :" ++ chan2.topic ++ ['\r', '\n'])
      else
        sendReplyTo st fd (':' :: serverName ++ str " 331 " ++ c.nickname
          ++ ' ' :: channelName ++ str " :No topic is set" ++ ['\r', '\n'])

/-- CommandHandler::handleJoin. -/
def handleJoin (st : Server) (fd : Int) (msg : Msg) : Server :=
  match lookupA fd st.clients with
  | none => st
  | some c =>
    if !c.registered then
      sendError st fd 451 [] (str "You have not registered")
    else if msg.params.isEmpty then
      sendError st fd 461 (str "JOIN") (str "Not enough parameters")
    else
      let channelName := (msg.params[0]?).getD []
      let key := (msg.params[1]?).getD []
      if !isValidChannelName channelName then
        sendError st fd 403 channelName (str "Invalid channel name")
      else
        match st.findChannel channelName with
        | none =>
          let st := st.createChannel channelName
          let st := updChan st channelName (fun ch => ch.addOperator fd)
          joinSteps st fd channelName c
        | some chan =>
          if chan.inviteOnly && !chan.isInvited fd then
            sendError st fd 473 channelName (str "Cannot join channel (+i)")
          else if chan.hasKey && decide (key ≠ chan.key) then
            sendError st fd 475 channelName (str "Cannot join channel (+k)")
          else if chan.userLimit > 0
              && decide ((chan.members.length : Int) ≥ chan.userLimit) then
            sendError st fd 471 channelName (str "Cannot join channel (+l)")
          else joinSteps st fd channelName c

/-- CommandHandler::handlePart. -/
def handlePart (st : Server) (fd : Int) (msg : Msg) : Server :=
  match lookupA fd st.clients with
  | none => st
  | some c =>
    if !c.registered then
      sendError st fd 451 [] (str "You have not registered")
    else if msg.params.isEmpty then
      sendError st fd 461 (str "PART") (str "Not enough parameters")
    else
      let channelName := (msg.params[0]?).getD []
      let reason := msg.trailing
      match st.findChannel channelName with
      | none => sendError st fd 403 channelName (str "No such channel")
      | some chan =>
        if !chan.isMember fd then
          sendError st fd 442 channelName (str "You're not on that channel")
        else
          let pfx := c.nickname ++ '!' :: c.username ++ str "@localhost"
          match buildCommandMessage pfx (str "PART") [channelName] reason with
          | .error _ => st
          | .ok pm =>
            let st := broadcastToChannel st chan.members pm (-1)
            let st := updChan st channelName (fun ch => ch.removeMember fd)
            if (setErase fd chan.members).isEmpty then
              st.removeChannel channelName
            else st

/-- The member scan shared by handleKick, handleInvite and the MODE o case:
the first channel member (in ascending id order) whose Registry-owned
Client carries the nickname. -/
def findMemberByNick (st : Server) (members : List Int) (nick : Str) :
    Option Int :=
  members.find? (fun m => decide ((lookupA m st.clients).map Client.nickname = some nick))

/-- CommandHandler::handleKick. -/
def handleKick (st : Server) (fd : Int) (msg : Msg) : Server :=
  match lookupA fd st.clients with
  | none => st
  | some c =>
    if !c.registered then
      sendError st fd 451 [] (str "You have not registered")
    else if msg.params.length < 2 then
      sendError st fd 461 (str "KICK") (str "Not enough parameters")
    else
      let channelName := (msg.params[0]?).getD []
      let targetNick := (msg.params[1]?).getD []
      let reason := if msg.trailing.isEmpty then c.nickname else msg.trailing
      match st.findChannel channelName with
      | none => sendError st fd 403 channelName (str "No such channel")
      | some chan =>
        if !chan.isMember fd then
          sendError st fd 442 channelName (str "You're not on that channel")
        else if !chan.isOperator fd then
          sendError st fd 482 channelName (str "You're not channel operator")
        else
          match findMemberByNick st chan.members targetNick with
          | none =>
            sendError st fd 441 (targetNick ++ ' ' :: channelName)
              (str "They aren't on that channel")
          | some targetFd =>
            let pfx := c.nickname ++ '!' :: c.username ++ str "@localhost"
            match buildCommandMessage pfx (str "KICK")
                [channelName, targetNick] reason with
            | .error _ => st
            | .ok km =>
              let st := broadcastToChannel st chan.members km (-1)
              let st := updChan st channelName (fun ch => ch.removeMember targetFd)
              if (setErase targetFd chan.members).isEmpty then
                st.removeChannel channelName
              else st

/-- CommandHandler::handleInvite. -/
def handleInvite (st : Server) (fd : Int) (msg : Msg) : Server :=
  match lookupA fd st.clients with
  | none => st
  | some c =>
    if !c.registered then
      sendError st fd 451 [] (str "You have not registered")
    else if msg.params.length < 2 then
      sendError st fd 461 (str "INVITE") (str "Not enough parameters")
    else
      let targetNick := (msg.params[0]?).getD []
      let channelName := (msg.params[1]?).getD []
      match st.findChannel channelName with
      | none => sendError st fd 403 channelName (str "No such channel")
      | some chan =>
        if !chan.isMember fd then
          sendError st fd 442 channelName (str "You're not on that channel")
        else if chan.inviteOnly && !chan.isOperator fd then
          sendError st fd 482 channelName (str "You're not channel operator")
        else
          let found := match findMemberByNick st chan.members targetNick with
            | some tfd => some tfd
            | none => (st.findClientByNickname targetNick).map Client.fd
          match found with
          | none => sendError st fd 401 targetNick (str "No such nick/channel")
          | some targetFd =>
            if chan.isMember targetFd then
              sendError st fd 443 (targetNick ++ ' ' :: channelName)
                (str "is already on channel")
            else
              let st := updChan st channelName (fun ch => ch.addInvited targetFd)
              let pfx := c.nickname ++ '!' :: c.username ++ str "@localhost"
              match buildCommandMessage pfx (str "INVITE")
                  [targetNick] channelName with
              | .error _ => st
              | .ok im =>
                let st := sendReplyTo st targetFd im
                sendNumeric st fd 341 (targetNick ++ ' ' :: channelName)

/-- CommandHandler::handleTopic. -/
def handleTopic (st : Server) (fd : Int) (msg : Msg) : Server :=
  match lookupA fd st.clients with
  | none => st
  | some c =>
    if !c.registered then
      sendError st fd 451 [] (str "You have not registered")
    else if msg.params.isEmpty then
      sendError st fd 461 (str "TOPIC") (str "Not enough parameters")
    else
      let channelName := (msg.params[0]?).getD []
      match st.findChannel channelName with
      | none => sendError st fd 403 channelName (str "No such channel")
      | some chan =>
        if !chan.isMember fd then
          sendError st fd 442 channelName (str "You're not on that channel")
        else if msg.trailing.isEmpty then
          if chan.hasTopic then
            sendReplyTo st fd (':' :: serverName ++ str " 332 " ++ c.nickname
              ++ ' ' :: channelName ++ str " :" ++ chan.topic ++ ['\r', '\n'])
          else
            sendNumeric st fd 331 (channelName ++ str " :No topic is set")
        else
          if chan.topicProtected && !chan.isOperator fd then
            sendError st fd 482 channelName (str "You're not channel operator")
          else
            let newTopic := msg.trailing
            let st := updChan st channelName (fun ch => ch.setTopic newTopic)
            let pfx := c.nickname ++ '!' :: c.username ++ str "@localhost"
            match buildCommandMessage pfx (str "TOPIC")
                [channelName] newTopic with
            | .error _ => st
            | .ok tm =>
              match st.findChannel channelName with
              | none => st
              | some chan2 => broadcastToChannel st chan2.members tm (-1)

/-! ## MODE handling -/

/-- Decimal rendering of an int (std::ostringstream << int). -/
def intToStr (i : Int) : Str :=
  if i < 0 then '-' :: Nat.toDigits 10 i.natAbs else Nat.toDigits 10 i.natAbs

/-- The whitespace set of std::isspace in the C locale. -/
def isCppSpace (c : Char) : Bool :=
  c = ' ' || c = '\t' || c = '\n' || c = Char.ofNat 11 || c = Char.ofNat 12
    || c = '\r'

/-- std::istringstream extraction of an int (used by the MODE l case):
skip whitespace, read an optional sign and a run of decimal digits; fail
when no digit follows or the value overflows int, otherwise yield the value
and ignore any trailing junk. -/
def istreamReadInt (s : Str) : Option Int :=
  let s1 := s.dropWhile isCppSpace
  let sgnRest : Int × Str :=
    match s1 with
    | '+' :: r => (1, r)
    | '-' :: r => (-1, r)
    | r => (1, r)
  let digits := sgnRest.2.takeWhile Char.isDigit
  if digits.isEmpty then none
  else
    let v : Nat := digits.foldl (fun a c => a * 10 + (c.toNat - 48)) 0
    let iv : Int := sgnRest.1 * (v : Int)
    if iv < -2147483648 || 2147483647 < iv then none else some iv

/-- The accumulator of the character loop in handleUserMode and
handleChannelMode: server state, current plus-or-minus action, next positional
parameter index, the compact applied-mode string with its parameters, and
the action character last written into it. -/
structure ModeAcc where
  st : Server
  action : Char
  paramIndex : Nat
  applied : Str
  appliedParams : List Str
  currentAction : Char
deriving Repr

/-- The applied-modes recording step shared by every mode case: a sign
group header when the action changed, then the mode character. -/
def recordApplied (a : ModeAcc) (c : Char) : ModeAcc :=
  let a :=
    if a.currentAction ≠ a.action then
      { a with applied := a.applied ++ [a.action], currentAction := a.action }
    else a
  { a with applied := a.applied ++ [c] }

/-- One character of the mode string of handleChannelMode for the channel
with the given name (the C++ mutates the live Channel object through its
pointer, embedded as updates keyed by name). -/
def chanModeStep (fd : Int) (channelName : Str) (msg : Msg) (a : ModeAcc)
    (c : Char) : ModeAcc :=
  if c = '+' || c = '-' then { a with action := c }
  else
    let chan := (a.st.findChannel channelName).getD Channel.init
    if c = 'i' then
      let newState := a.action = '+'
      if chan.inviteOnly ≠ newState then
        let a := { a with
          st := updChan a.st channelName (fun ch => ch.setInviteOnly newState) }
        recordApplied a 'i'
      else a
    else if c = 't' then
      let newState := a.action = '+'
      if chan.topicProtected ≠ newState then
        let a := { a with
          st := updChan a.st channelName (fun ch => ch.setTopicProtected newState) }
        recordApplied a 't'
      else a
    else if c = 'k' then
      if a.action = '+' then
        if a.paramIndex < msg.params.length then
          let key := (msg.params[a.paramIndex]?).getD []
          let a := { a with
            paramIndex := a.paramIndex + 1,
            st := updChan a.st channelName (fun ch => ch.setKey key) }
          let a := recordApplied a 'k'
          { a with appliedParams := a.appliedParams ++ [key] }
        else a
      else
        let a := { a with
          st := updChan a.st channelName (fun ch => ch.removeKey) }
        recordApplied a 'k'
    else if c = 'o' then
      if a.paramIndex < msg.params.length then
        let targetNick := (msg.params[a.paramIndex]?).getD []
        let a := { a with paramIndex := a.paramIndex + 1 }
        match findMemberByNick a.st chan.members targetNick with
        | none => a
        | some targetFd =>
          if a.action = '+' then
            if !chan.isOperator targetFd then
              let a := { a with
                st := updChan a.st channelName (fun ch => ch.addOperator targetFd) }
              let a := recordApplied a 'o'
              { a with appliedParams := a.appliedParams ++ [targetNick] }
            else a
          else
            if chan.isOperator targetFd then
              let a := { a with
                st := updChan a.st channelName (fun ch => ch.removeOperator targetFd) }
              let a := recordApplied a 'o'
              { a with appliedParams := a.appliedParams ++ [targetNick] }
            else a
      else a
    else if c = 'l' then
      if a.action = '+' then
        if a.paramIndex < msg.params.length then
          let limitStr := (msg.params[a.paramIndex]?).getD []
          let a := { a with paramIndex := a.paramIndex + 1 }
          match istreamReadInt limitStr with
          | some newLimit =>
            if newLimit > 0 then
              let a := { a with
                st := updChan a.st channelName (fun ch => ch.setUserLimit newLimit) }
              let a := recordApplied a 'l'
              { a with appliedParams := a.appliedParams ++ [limitStr] }
            else a
          | none => a
        else a
      else
        let a := { a with
          st := updChan a.st channelName (fun ch => ch.setUserLimit 0) }
        recordApplied a 'l'
    else
      { a with st := sendError a.st fd 472 [c] (str "is unknown mode char to me") }

/-- CommandHandler::handleChannelMode. -/
def handleChannelMode (st : Server) (fd : Int) (msg : Msg)
    (channelName : Str) : Server :=
  match st.findChannel channelName with
  | none => sendError st fd 403 channelName (str "No such channel")
  | some chan =>
    if !chan.isMember fd then
      sendError st fd 442 channelName (str "You're not on that channel")
    else if msg.params.length = 1 && msg.trailing.isEmpty then
      let modes := ['+']
        ++ (if chan.inviteOnly then ['i'] else [])
        ++ (if chan.topicProtected then ['t'] else [])
        ++ (if chan.hasKey then ['k'] else [])
        ++ (if chan.userLimit > 0 then ['l'] else [])
      let modeParams :=
        (if chan.hasKey then ' ' :: chan.key else [])
        ++ (if chan.userLimit > 0 then ' ' :: intToStr chan.userLimit else [])
      match lookupA fd st.clients with
      | none => st
      | some c =>
        sendReplyTo st fd (':' :: serverName ++ str " 324 " ++ c.nickname
          ++ ' ' :: channelName ++ ' ' :: modes ++ modeParams ++ ['\r', '\n'])
    else if !chan.isOperator fd then
      sendError st fd 482 channelName (str "You're not channel operator")
    else
      let modeString := (msg.params[1]?).getD []
      let a0 : ModeAcc := ⟨st, '+', 2, [], [], Char.ofNat 0⟩
      let a := modeString.foldl (chanModeStep fd channelName msg) a0
      if !a.applied.isEmpty then
        match lookupA fd a.st.clients with
        | none => a.st
        | some c =>
          let pfx := c.nickname ++ '!' :: c.username ++ str "@localhost"
          match buildCommandMessage pfx (str "MODE")
              ([channelName, a.applied] ++ a.appliedParams) [] with
          | .error _ => a.st
          | .ok mm =>
            match a.st.findChannel channelName with
            | none => a.st
            | some chan2 => broadcastToChannel a.st chan2.members mm (-1)
      else a.st

/-- One character of the mode string of handleUserMode. -/
def userModeStep (fd : Int) (a : ModeAcc) (c : Char) : ModeAcc :=
  if c = '+' || c = '-' then { a with action := c }
  else
    let cl := (lookupA fd a.st.clients).getD (Client.init fd)
    if c = 'i' then
      let newState := a.action = '+'
      if cl.hasUserMode 'i' ≠ newState then
        let a := { a with
          st := updClient a.st fd (fun cl => cl.setUserModeC 'i' newState) }
        recordApplied a 'i'
      else a
    else if c = 'o' then
      if a.action = '-' then
        if cl.hasUserMode 'o' then
          let a := { a with
            st := updClient a.st fd (fun cl => cl.setUserModeC 'o' false) }
          recordApplied a 'o'
        else a
      else a
    else
      { a with st := sendError a.st fd 502 [] (str "Unknown MODE flag") }

/-- CommandHandler::handleUserMode. -/
def handleUserMode (st : Server) (fd : Int) (msg : Msg) (target : Str) :
    Server :=
  match lookupA fd st.clients with
  | none => st
  | some c =>
    if decide (target ≠ c.nickname) then
      sendError st fd 501 [] (str "Cannot change mode for other users")
    else if msg.params.length = 1 then
      let modes := if c.userModes.isEmpty then ['+'] else '+' :: c.userModes
      sendReplyTo st fd (':' :: serverName ++ str " 221 " ++ c.nickname
        ++ ' ' :: modes ++ ['\r', '\n'])
    else
      let modeString := (msg.params[1]?).getD []
      let a0 : ModeAcc := ⟨st, '+', 2, [], [], Char.ofNat 0⟩
      let a := modeString.foldl (userModeStep fd) a0
      if !a.applied.isEmpty then
        match lookupA fd a.st.clients with
        | none => a.st
        | some c2 =>
          sendReplyTo a.st fd (':' :: c2.nickname ++ str " MODE "
            ++ c2.nickname ++ str " :" ++ a.applied ++ ['\r', '\n'])
      else a.st

/-- CommandHandler::handleMode: dispatch on the target sigil. -/
def handleMode (st : Server) (fd : Int) (msg : Msg) : Server :=
  match lookupA fd st.clients with
  | none => st
  | some c =>
    if !c.registered then
      sendError st fd 451 [] (str "You have not registered")
    else if msg.params.isEmpty then
      sendError st fd 461 (str "MODE") (str "Not enough parameters")
    else
      let target := (msg.params[0]?).getD []
      if target.head? = some '#' || target.head? = some '&' then
        handleChannelMode st fd msg target
      else
        handleUserMode st fd msg target

/-- CommandHandler::handleCap: minimal capability negotiation. -/
def handleCap (st : Server) (fd : Int) (msg : Msg) : Server :=
  match lookupA fd st.clients with
  | none => st
  | some c =>
    if msg.params.isEmpty then st
    else
      let sub := (msg.params[0]?).getD []
      let who := if c.nickname.isEmpty then str "*" else c.nickname
      if sub = str "LS" then
        sendReplyTo st fd (str ":ircserv CAP " ++ who ++ str " LS :"
          ++ ['\r', '\n'])
      else if sub = str "END" then st
      else if sub = str "REQ" then
        sendReplyTo st fd (str ":ircserv CAP " ++ who ++ str " NAK :"
          ++ msg.trailing ++ ['\r', '\n'])
      else st

/-- One RPL_WHOREPLY line of handleWho. -/
def whoLine (requester : Client) (target : Str) (member : Client)
    (flags : Str) : Str :=
  ':' :: serverName ++ str " 352 " ++ requester.nickname ++ ' ' :: target
    ++ ' ' :: member.username ++ str " localhost " ++ serverName
    ++ ' ' :: member.nickname ++ ' ' :: flags ++ str " :0 "
    ++ member.realname ++ ['\r', '\n']

/-- CommandHandler::handleWho. -/
def handleWho (st : Server) (fd : Int) (msg : Msg) : Server :=
  match lookupA fd st.clients with
  | none => st
  | some c =>
    if !c.registered then
      sendError st fd 451 [] (str "You have not registered")
    else if msg.params.isEmpty then
      sendError st fd 461 (str "WHO") (str "Not enough parameters")
    else
      let target := (msg.params[0]?).getD []
      if target.head? = some '#' then
        match st.findChannel target with
        | none => sendNumeric st fd 315 (target ++ str " :End of WHO list")
        | some chan =>
          let st := chan.members.foldl
            (fun acc m =>
              match lookupA m acc.clients with
              | none => acc
              | some member =>
                let flags := if chan.isOperator member.fd
                  then str "H@" else str "H"
                sendReplyTo acc fd (whoLine c target member flags)) st
          sendNumeric st fd 315 (target ++ str " :End of WHO list")
      else
        match st.findClientByNickname target with
        | some tc =>
          let st :=
            if tc.registered then
              sendReplyTo st fd (whoLine c target tc (str "H"))
            else st
          sendNumeric st fd 315 (target ++ str " :End of WHO list")
        | none => sendNumeric st fd 315 (target ++ str " :End of WHO list")

/-- CommandHandler::handleCommand: parse (a MalformedMessage error is
logged and dropped), route on the command string, and reply 421 to
anything unknown. -/
def handleCommand (st : Server) (fd : Int) (raw : Str) : Server :=
  match parse raw with
  | none => st
  | some msg =>
    if msg.command = str "PASS" then handlePass st fd msg
    else if msg.command = str "NICK" then handleNick st fd msg
    else if msg.command = str "USER" then handleUser st fd msg
    else if msg.command = str "PING" then handlePing st fd msg
    else if msg.command = str "QUIT" then handleQuit st fd msg
    else if msg.command = str "PRIVMSG" then handlePrivmsg st fd msg
    else if msg.command = str "NOTICE" then handleNotice st fd msg
    else if msg.command = str "JOIN" then handleJoin st fd msg
    else if msg.command = str "PART" then handlePart st fd msg
    else if msg.command = str "KICK" then handleKick st fd msg
    else if msg.command = str "INVITE" then handleInvite st fd msg
    else if msg.command = str "TOPIC" then handleTopic st fd msg
    else if msg.command = str "MODE" then handleMode st fd msg
    else if msg.command = str "CAP" then handleCap st fd msg
    else if msg.command = str "WHO" then handleWho st fd msg
    else
      match lookupA fd st.clients with
      | none => st
      | some c =>
        match buildErrorReply serverName 421
            (if c.nickname.isEmpty then str "*" else c.nickname)
            msg.command (str "Unknown command") with
        | .error _ => st
        | .ok r => sendReplyTo st fd r

/-! ## Server::receiveData (src/src/network/Server.cpp) -/

/-- The input-buffer hard cap MAX_INBUF of Server::receiveData. -/
def MAX_INBUF : Nat := 8192

/-- Server::receiveData for one received chunk: enforce the 8 KiB cap
(overflow forces a disconnect before the data is stored), append the chunk,
then drain and dispatch every complete line in order, enabling POLLOUT for
the sender after each command that left data to send.  The drain is
expressed with drainLines; this matches the C++ while loop because no
handler reads or writes the sender's input buffer. -/
def receiveChunk (st : Server) (fd : Int) (data : Str) : Server :=
  match lookupA fd st.clients with
  | none => st
  | some c =>
    if c.inbuf.length + data.length > MAX_INBUF then
      disconnectClient st fd
    else
      let dl := drainLines (c.inbuf ++ data)
      let st := updClient st fd (fun c => { c with inbuf := dl.2 })
      dl.1.foldl
        (fun acc line =>
          let acc := handleCommand acc fd line
          match lookupA fd acc.clients with
          | some c2 =>
            if !c2.outbuf.isEmpty then enablePolloutForFD acc fd else acc
          | none => acc) st

/-- The transport-error path of Server::receiveData and Server::sendData: a
recv/send failure other than EAGAIN/EWOULDBLOCK logs and forcibly
disconnects the client. -/
def transportError (st : Server) (fd : Int) : Server :=
  disconnectClient st fd

/-! ## Server entry points and traces

The modeled entry points of the event loop: accepting a connection,
dispatching one framed command, receiving one chunk of bytes, and a
transport error.  A trace of these from the empty server reaches the states
the claims quantify over. -/

inductive Op where
  | accept (fd : Int)
  | command (fd : Int) (raw : Str)
  | recvChunk (fd : Int) (data : Str)
  | recvErr (fd : Int)
deriving Repr

def applyOp (st : Server) : Op → Server
  | .accept fd => acceptConn st fd
  | .command fd raw => handleCommand st fd raw
  | .recvChunk fd data => receiveChunk st fd data
  | .recvErr fd => transportError st fd

/-- The server right after Server::Server(port, password). -/
def initServer (pw : Str) : Server := ⟨[], [], [], pw⟩

def runOps (pw : Str) (ops : List Op) : Server :=
  ops.foldl applyOp (initServer pw)

/-! ## Observables and invariants used by the claims -/

/-- The POLLOUT bit of the first poll entry with the given id (none when
the id is not watched). -/
def polloutEnabled (st : Server) (fd : Int) : Option Bool :=
  (st.pollfds.find? (fun p => decide (p.fd = fd))).map Pollfd.pollout

/-- The Connection registration invariant of the specification:
registered iff authenticated with nickname and username set. -/
def regPred (c : Client) : Prop :=
  c.registered = (c.authenticated && !c.nickname.isEmpty && !c.username.isEmpty)

/-- The invariant over every connection in the Registry. -/
def regAll (st : Server) : Prop := ∀ p ∈ st.clients, regPred p.2

/-- registered never goes from true back to false for a surviving id. -/
def monoStep (st st' : Server) : Prop :=
  ∀ fd c c', lookupA fd st.clients = some c → lookupA fd st'.clients = some c' →
    c.registered = true → c'.registered = true

/-- Every channel in the Registry has at least one member. -/
def chansNonempty (st : Server) : Prop :=
  ∀ p ∈ st.channels, p.2.members ≠ []

/-- Every channel object in the Registry has an empty name field. -/
def chanNamesEmpty (st : Server) : Prop :=
  ∀ p ∈ st.channels, p.2.name = []

/-- The channel map never holds two entries under one name. -/
def chanKeysNodup (st : Server) : Prop :=
  (st.channels.map Prod.fst).Nodup

/-- The byte string sendWelcome appends to the registering client's outbuf:
the 001,002,003,004 replies in order, cut short at the first reply the
512-byte builder refuses. -/
def welcomeBytes (c : Client) : Str :=
  match buildNumericReply serverName 1 c.nickname (welcomeText1 c) with
  | .error _ => []
  | .ok r1 =>
    r1 ++
      match buildNumericReply serverName 2 c.nickname welcomeText2 with
      | .error _ => []
      | .ok r2 =>
        r2 ++
          match buildNumericReply serverName 3 c.nickname welcomeText3 with
          | .error _ => []
          | .ok r3 =>
            r3 ++
              match buildNumericReply serverName 4 c.nickname welcomeText4 with
              | .error _ => []
              | .ok r4 => r4

/-! ## The wire grammar of the specification

renderMsg is the one definition in this file written from the
specification rather than the source: it renders the wire grammar
"[:prefix ]COMMAND[ param]*[ :trailing]CRLF" of spec section 6, so that the
valid raw lines of the round-trip claim are exactly its outputs over valid
components. -/

/-- A prefix component: no space and no terminator byte inside. -/
def validPfx (p : Str) : Bool :=
  decide (' ' ∉ p) && decide ('\r' ∉ p) && decide ('\n' ∉ p)

/-- A command or middle-parameter token: nonempty, not starting with the
trailing introducer ':', with no space and no terminator byte. -/
def validTok (t : Str) : Bool :=
  !t.isEmpty && !(t.head? = some ':' : Bool) && decide (' ' ∉ t)
    && decide ('\r' ∉ t) && decide ('\n' ∉ t)

/-- A trailing component: spaces and colons allowed, no terminator byte. -/
def validTr (t : Str) : Bool :=
  decide ('\r' ∉ t) && decide ('\n' ∉ t)

/-- Modelled from the spec (section 6 wire protocol): one well-formed wire
message, with optional prefix and trailing. -/
def renderMsg (p? : Option Str) (cmd : Str) (params : List Str)
    (tr? : Option Str) : Str :=
  (match p? with
   | none => []
   | some p => ':' :: p ++ [' '])
  ++ cmd
  ++ params.flatMap (fun q => ' ' :: q)
  ++ (match tr? with
      | none => []
      | some t => ' ' :: ':' :: t)
  ++ ['\r', '\n']

/-- The structured message a well-formed wire message denotes (absent
prefix and trailing read back as empty strings). -/
def renderedMsg (p? : Option Str) (cmd : Str) (params : List Str)
    (tr? : Option Str) : Msg :=
  ⟨p?.getD [], cmd, params, tr?.getD []⟩

/-! ## Concrete scenario states shared by several evaluations

A small reachable server: alice (id 1) and bob (id 2), both registered,
both members of "#c" where alice is the operator; both ids watched for
POLLIN only; empty outbufs. -/

def aliceC : Client :=
  { fd := 1, inbuf := [], outbuf := [], nickname := str "alice",
    username := str "au", realname := str "Alice A",
    authenticated := true, registered := true, peerClosed := false,
    shouldDisconnect := false, quitReason := [], userModes := [] }

def bobC : Client :=
  { fd := 2, inbuf := [], outbuf := [], nickname := str "bob",
    username := str "bu", realname := str "Bob B",
    authenticated := true, registered := true, peerClosed := false,
    shouldDisconnect := false, quitReason := [], userModes := [] }

/-- "#c" as JOIN built it: members 1 and 2, operator 1, name empty. -/
def chanC : Channel :=
  { name := [], topic := [], key := [], members := [1, 2], operators := [1],
    invited := [], inviteOnly := false, topicProtected := false,
    userLimit := 0 }

def demoSt : Server :=
  { clients := [(1, aliceC), (2, bobC)],
    channels := [(str "#c", chanC)],
    pollfds := [⟨1, true, false⟩, ⟨2, true, false⟩],
    password := str "pw" }

/-- The same server with an ampersand channel "&r" (members 1 and 2,
operator 1) alongside "#c". -/
def demoAmpSt : Server :=
  { demoSt with channels := [(str "#c", chanC), (str "&r", chanC)] }

/-! ## Claim C1 -/

/-- C1: the claim states that after every dispatched command, every
connection whose outbuf was appended to has POLLOUT watching enabled,
including every recipient of a channel broadcast of every command,
NOTICE included.  The code violates this: handleNotice's channel branch
calls Channel::broadcast directly instead of the broadcastToChannel helper,
so dispatching "NOTICE #c :hi" from alice appends the notice to bob's
outbuf while bob's POLLOUT stays disabled; the same dispatch as PRIVMSG
does enable it. -/
theorem C1_notice_broadcast_leaves_pollout_disabled :
    (lookupA 2 (handleCommand demoSt 1 (str "NOTICE #c :hi\r\n")).clients).map
        Client.outbuf
      = some (str ":alice!au@localhost NOTICE #c :hi\r\n")
  ∧ polloutEnabled (handleCommand demoSt 1 (str "NOTICE #c :hi\r\n")) 2
      = some false
  ∧ polloutEnabled (handleCommand demoSt 1 (str "PRIVMSG #c :hi\r\n")) 2
      = some true := by decide

/-! ## Claim C2 -/

/-- C2: the claim states that a connection forcibly disconnected for an
input-buffer overflow (or transport error) is removed from the Registry and
thereby from every channel.  The code removes it from the clients map and
the poll list only: after an 8193-byte chunk overflows alice's inbuf cap,
her id 1 is gone from the Registry but still sits in the member map of
"#c" (a dangling Client* in the C++). -/
theorem C2_forced_disconnect_leaves_channel_membership :
    lookupA 1 (receiveChunk demoSt 1 (List.replicate 8193 'a')).clients = none
  ∧ ((receiveChunk demoSt 1 (List.replicate 8193 'a')).findChannel
        (str "#c")).map Channel.members = some [1, 2]
  ∧ lookupA 1 (transportError demoSt 1).clients = none
  ∧ ((transportError demoSt 1).findChannel (str "#c")).map Channel.members
      = some [1, 2] := by
  have hover : aliceC.inbuf.length + (List.replicate 8193 'a').length
      > MAX_INBUF := by
    rw [List.length_replicate, show aliceC.inbuf.length = 0 from rfl]
    decide
  have hstep : receiveChunk demoSt 1 (List.replicate 8193 'a')
      = disconnectClient demoSt 1 := by
    unfold receiveChunk
    split
    · next heq => exact absurd heq (by decide)
    · next c heq =>
      have hc : c = aliceC := by
        have h1 : lookupA (1 : Int) demoSt.clients = some aliceC := by decide
        rw [h1] at heq
        exact ((Option.some.injEq _ _).mp heq).symm
      subst hc
      rw [if_pos hover]
  rw [hstep]
  decide

/-! ## Claim C3: counterexample -/

/-- C3 as stated is false: the claim says a PRIVMSG target whose first
character is '#' or '&' routes to channel broadcast, but handlePrivmsg
tests only for '#'.  With channel "&r" existing and the sender a member,
"PRIVMSG &r :yo" falls into the nickname branch and earns a 401
no-such-nick error, and the other member of "&r" receives nothing. -/
theorem C3_ampersand_target_misrouted :
    (lookupA 1 (handleCommand demoAmpSt 1 (str "PRIVMSG &r :yo\r\n")).clients).map
        Client.outbuf
      = some (str ":ircserv 401 alice &r :No such nick/channel\r\n")
  ∧ (lookupA 2 (handleCommand demoAmpSt 1 (str "PRIVMSG &r :yo\r\n")).clients).map
        Client.outbuf
      = some [] := by decide

/-! ## Claim C4: counterexample -/

/-- C4 as stated is false: the claim says framing always splits at the
first line terminator, so inbuf "a\nb\r\n" would first yield "a".  The
code searches for "\r\n" before falling back to a bare '\n', so the first
extracted line is "a\nb" and the buffer is drained in one step. -/
theorem C4_crlf_preferred_over_earlier_lf :
    hasCompleteCmd (str "a\nb\r\n") = true
  ∧ extractNextCmd (str "a\nb\r\n") = (str "a\nb", [])
  ∧ drainLines (str "a\nb\r\n") = ([str "a\nb"], []) := by decide

/-! ## Claim C4: the framing as the code implements it -/

theorem isPfxOf_crlf_mem {l : Str} (h : isPfxOf ['\r', '\n'] l = true) :
    '\n' ∈ l := by
  match l with
  | [] => simp [isPfxOf] at h
  | [x] => simp [isPfxOf] at h
  | x :: y :: t =>
    simp only [isPfxOf, Bool.and_eq_true, decide_eq_true_eq] at h
    obtain ⟨-, hy, -⟩ := h
    simp [← hy]

theorem findSub_crlf_none {l : Str} (h : '\n' ∉ l) :
    findSub l ['\r', '\n'] = none := by
  induction l with
  | nil => rfl
  | cons x xs ih =>
    simp only [List.mem_cons, not_or] at h
    have hpfx : isPfxOf ['\r', '\n'] (x :: xs) = false := by
      by_contra hc
      have := isPfxOf_crlf_mem (by simpa using hc)
      simp only [List.mem_cons] at this
      rcases this with h1 | h1
      · exact h.1 h1
      · exact h.2 h1
    simp [findSub, hpfx, ih h.2]

theorem strFind_isSome {l : Str} {c : Char} (h : c ∈ l) :
    (strFind l c).isSome := by
  induction l with
  | nil => simp at h
  | cons x xs ih =>
    simp only [strFind]
    by_cases hx : x = c
    · simp [hx]
    · have hm : c ∈ xs := by
        rcases List.mem_cons.mp h with h1 | h1
        · exact absurd h1.symm hx
        · exact h1
      have := ih hm
      cases hs : strFind xs c with
      | none => rw [hs] at this; simp at this
      | some j => simp [hs, hx]

/-- The first "\r\n" of l ++ "\r\n" ++ rest sits right after l whenever l
holds no '\n'. -/
theorem findSub_crlf_append {l : Str} (rest : Str) (hl : '\n' ∉ l) :
    findSub (l ++ '\r' :: '\n' :: rest) ['\r', '\n'] = some l.length := by
  induction l with
  | nil => simp [findSub, isPfxOf]
  | cons x xs ih =>
    simp only [List.mem_cons, not_or] at hl
    have hpfx : isPfxOf ['\r', '\n'] (x :: (xs ++ '\r' :: '\n' :: rest)) = false := by
      by_cases hx : x = '\r'
      · subst hx
        cases xs with
        | nil => simp [isPfxOf]
        | cons y ys =>
          have hy : y ≠ '\n' := fun h => hl.2 (h ▸ List.mem_cons_self y ys)
          simp [isPfxOf, Ne.symm hy]
      · simp [isPfxOf, Ne.symm hx]
    simp [findSub, hpfx, ih hl.2]

/-- Extracting from l ++ "\r\n" ++ rest yields exactly l and rest when l
holds no '\n'. -/
theorem extractNextCmd_crlf {l : Str} (rest : Str) (hl : '\n' ∉ l) :
    extractNextCmd (l ++ '\r' :: '\n' :: rest) = (l, rest) := by
  unfold extractNextCmd
  rw [findSub_crlf_append rest hl]
  have htake : (l ++ '\r' :: '\n' :: rest).take l.length = l :=
    List.take_left l ('\r' :: '\n' :: rest)
  have hdrop : (l ++ '\r' :: '\n' :: rest).drop (l.length + 2) = rest := by
    have hre : l ++ '\r' :: '\n' :: rest = (l ++ ['\r', '\n']) ++ rest := by simp
    rw [hre]
    exact List.drop_left' (by simp)
  show ((l ++ '\r' :: '\n' :: rest).take l.length,
      (l ++ '\r' :: '\n' :: rest).drop (l.length + 2)) = (l, rest)
  rw [htake, hdrop]

theorem hasCompleteCmd_false {rest : Str} (h : '\n' ∉ rest) :
    hasCompleteCmd rest = false := by
  simp [hasCompleteCmd, findSub_crlf_none h, strFind_eq_none h]

theorem hasCompleteCmd_crlf {l : Str} (rest : Str) :
    hasCompleteCmd (l ++ '\r' :: '\n' :: rest) = true := by
  have h1 : (strFind (l ++ '\r' :: '\n' :: rest) '\n').isSome :=
    strFind_isSome (by simp)
  simp [hasCompleteCmd, h1]

/-- The first "\r\n" of l ++ "\r\n" ++ rest sits right after l whenever no
"\r\n" occurs inside l itself -- l may hold bare '\n' bytes. -/
theorem findSub_crlf_first (l rest : Str)
    (hl : findSub l ['\r', '\n'] = none) :
    findSub (l ++ '\r' :: '\n' :: rest) ['\r', '\n'] = some l.length := by
  induction l with
  | nil => simp [findSub, isPfxOf]
  | cons x xs ih =>
    by_cases hp : isPfxOf ['\r', '\n'] (x :: xs) = true
    · rw [show findSub (x :: xs) ['\r', '\n'] = some 0 from by
        simp [findSub, hp]] at hl
      exact Option.noConfusion hl
    · have hxs : findSub xs ['\r', '\n'] = none := by
        have h2 : (findSub xs ['\r', '\n']).map (· + 1) = none := by
          simpa [findSub, hp] using hl
        cases hfs : findSub xs ['\r', '\n'] with
        | none => rfl
        | some j =>
          rw [hfs] at h2
          exact Option.noConfusion h2
      have hp2 : isPfxOf ['\r', '\n'] (x :: (xs ++ '\r' :: '\n' :: rest))
          = false := by
        cases xs with
        | nil => simp [isPfxOf]
        | cons y ys =>
          have he : isPfxOf ['\r', '\n'] (x :: (y :: ys ++ '\r' :: '\n' :: rest))
              = isPfxOf ['\r', '\n'] (x :: y :: ys) := by
            simp [isPfxOf]
          rw [he]
          cases hb : isPfxOf ['\r', '\n'] (x :: y :: ys) with
          | false => rfl
          | true => exact absurd hb hp
      show findSub (x :: (xs ++ '\r' :: '\n' :: rest)) ['\r', '\n']
          = some (xs.length + 1)
      rw [show findSub (x :: (xs ++ '\r' :: '\n' :: rest)) ['\r', '\n']
          = (findSub (xs ++ '\r' :: '\n' :: rest) ['\r', '\n']).map (· + 1) from by
        simp [findSub, hp2]]
      rw [ih hxs]
      rfl

/-- A "\r\n" anywhere in the buffer is found by the substring search. -/
theorem findSub_crlf_isSome (a b : Str) :
    (findSub (a ++ '\r' :: '\n' :: b) ['\r', '\n']).isSome := by
  induction a with
  | nil => simp [findSub, isPfxOf]
  | cons x xs ih =>
    show (findSub (x :: (xs ++ '\r' :: '\n' :: b)) ['\r', '\n']).isSome
    by_cases hp : isPfxOf ['\r', '\n'] (x :: (xs ++ '\r' :: '\n' :: b)) = true
    · simp [findSub, hp]
    · rw [show findSub (x :: (xs ++ '\r' :: '\n' :: b)) ['\r', '\n']
          = (findSub (xs ++ '\r' :: '\n' :: b) ['\r', '\n']).map (· + 1) from by
        simp [findSub, hp]]
      cases hfs : findSub (xs ++ '\r' :: '\n' :: b) ['\r', '\n'] with
      | none =>
        rw [hfs] at ih
        simp at ih
      | some j => simp

/-- Extracting from l ++ "\r\n" ++ rest yields exactly l and rest whenever
no "\r\n" occurs earlier: the first "\r\n" wins even over a bare '\n'
inside l. -/
theorem extractNextCmd_first_crlf (l rest : Str)
    (hl : findSub l ['\r', '\n'] = none) :
    extractNextCmd (l ++ '\r' :: '\n' :: rest) = (l, rest) := by
  unfold extractNextCmd
  rw [findSub_crlf_first l rest hl]
  have htake : (l ++ '\r' :: '\n' :: rest).take l.length = l :=
    List.take_left l ('\r' :: '\n' :: rest)
  have hdrop : (l ++ '\r' :: '\n' :: rest).drop (l.length + 2) = rest := by
    have hre : l ++ '\r' :: '\n' :: rest = (l ++ ['\r', '\n']) ++ rest := by
      simp
    rw [hre]
    exact List.drop_left' (by simp)
  show ((l ++ '\r' :: '\n' :: rest).take l.length,
      (l ++ '\r' :: '\n' :: rest).drop (l.length + 2)) = (l, rest)
  rw [htake, hdrop]

theorem exists_concat_of_getLast (l : Str) (a : Char) :
    l.getLast? = some a → ∃ t : Str, l = t ++ [a] := by
  induction l using List.reverseRecOn with
  | nil =>
    intro h
    exact Option.noConfusion h
  | append_singleton t x _ =>
    intro h
    rw [List.getLast?_concat] at h
    exact ⟨t, by rw [Option.some.inj h]⟩

/-- The bare-'\n' fallback: when no "\r\n" occurs anywhere, the line is the
bytes before the first '\n', and the '\r'-trim can never fire (a line
ending in '\r' would have formed a "\r\n"). -/
theorem extractNextCmd_bare_lf (m rest : Str) (hm : '\n' ∉ m)
    (hcr : findSub (m ++ '\n' :: rest) ['\r', '\n'] = none) :
    extractNextCmd (m ++ '\n' :: rest) = (m, rest) := by
  unfold extractNextCmd
  rw [hcr, strFind_append_cons rest hm]
  have htake : (m ++ '\n' :: rest).take m.length = m :=
    List.take_left m ('\n' :: rest)
  have hnotr : ¬(m.getLast? = some '\r') := by
    intro h
    obtain ⟨t, ht⟩ := exists_concat_of_getLast m '\r' h
    rw [ht, show (t ++ ['\r']) ++ '\n' :: rest = t ++ '\r' :: '\n' :: rest from
      by simp] at hcr
    have hs := findSub_crlf_isSome t rest
    rw [hcr] at hs
    simp at hs
  have hdrop : (m ++ '\n' :: rest).drop (m.length + 1) = rest := by
    rw [show m ++ '\n' :: rest = (m ++ ['\n']) ++ rest from by simp]
    exact List.drop_left' (by simp)
  show ((if ((m ++ '\n' :: rest).take m.length).getLast? = some '\r'
      then ((m ++ '\n' :: rest).take m.length).dropLast
      else (m ++ '\n' :: rest).take m.length),
    (m ++ '\n' :: rest).drop (m.length + 1)) = (m, rest)
  rw [htake, if_neg hnotr, hdrop]

/-- The framing loop drains one line per "\r\n" terminator in order,
leaving the '\n'-free tail; the lines themselves only need to be free of
"\r\n", so they may contain bare '\n' bytes that the loop skips over in
favour of the terminator. -/
theorem drainLines_flatMap (lines : List Str) (tail : Str)
    (hl : ∀ x ∈ lines, findSub x ['\r', '\n'] = none) (ht : '\n' ∉ tail) :
    drainLines (lines.flatMap (fun x => x ++ ['\r', '\n']) ++ tail)
      = (lines, tail) := by
  induction lines with
  | nil =>
    rw [drainLines_eq]
    simp [hasCompleteCmd_false ht]
  | cons l ls ih =>
    have hassoc : (l :: ls).flatMap (fun x => x ++ ['\r', '\n']) ++ tail
        = l ++ '\r' :: '\n' :: (ls.flatMap (fun x => x ++ ['\r', '\n']) ++ tail) := by
      simp [List.flatMap_cons]
    rw [drainLines_eq, hassoc, hasCompleteCmd_crlf, if_pos rfl]
    rw [extractNextCmd_first_crlf _ _ (hl l (List.mem_cons_self l ls))]
    have := ih (fun x hx => hl x (List.mem_cons_of_mem l hx))
    simp only [this]

/-- C4 amended: for every buffer shape, the extraction takes the bytes
before the first "\r\n" whenever one occurs anywhere (even when a bare
'\n' comes earlier), falls back to the bytes before the first '\n' only
when no "\r\n" occurs at all (and then the extracted line cannot end in
'\r', so the trim is a no-op), and the framing loop dispatches one line
per "\r\n" terminator in order, leaving the unterminated tail in the
buffer. -/
theorem C4_framing_first_crlf_then_bare_lf (lines : List Str)
    (l rest1 m rest2 tail : Str)
    (hl : findSub l ['\r', '\n'] = none)
    (hm : '\n' ∉ m)
    (hm2 : findSub (m ++ '\n' :: rest2) ['\r', '\n'] = none)
    (hlines : ∀ x ∈ lines, findSub x ['\r', '\n'] = none)
    (htail : '\n' ∉ tail) :
    extractNextCmd (l ++ '\r' :: '\n' :: rest1) = (l, rest1)
    ∧ extractNextCmd (m ++ '\n' :: rest2) = (m, rest2)
    ∧ drainLines (lines.flatMap (fun x => x ++ ['\r', '\n']) ++ tail)
        = (lines, tail) :=
  ⟨extractNextCmd_first_crlf l rest1 hl,
   extractNextCmd_bare_lf m rest2 hm hm2,
   drainLines_flatMap lines tail hlines htail⟩

/-- Witness: a line containing a bare '\n' is split only at the "\r\n", a
CRLF-free buffer is split at its bare '\n' without trimming, and a burst
whose second line contains a bare '\n' drains in order. -/
theorem C4_framing_first_crlf_then_bare_lf_witness :
    (findSub (str "a\nb") ['\r', '\n'] = none
      ∧ '\n' ∉ str "cmd"
      ∧ findSub (str "cmd" ++ '\n' :: str "t") ['\r', '\n'] = none
      ∧ (∀ x ∈ [str "one", str "a\nb"], findSub x ['\r', '\n'] = none)
      ∧ '\n' ∉ str "par")
    ∧ (extractNextCmd (str "a\nb" ++ '\r' :: '\n' :: str "z")
          = (str "a\nb", str "z")
      ∧ extractNextCmd (str "cmd" ++ '\n' :: str "t") = (str "cmd", str "t")
      ∧ drainLines ([str "one", str "a\nb"].flatMap
            (fun x => x ++ ['\r', '\n']) ++ str "par")
          = ([str "one", str "a\nb"], str "par")) :=
  ⟨⟨by decide, by decide, by decide, by decide, by decide⟩,
   C4_framing_first_crlf_then_bare_lf [str "one", str "a\nb"]
     (str "a\nb") (str "z") (str "cmd") (str "t") (str "par")
     (by decide) (by decide) (by decide) (by decide) (by decide)⟩

/-! ## Registry bookkeeping lemmas -/

@[simp]
theorem lookupA_updateA_self {α β : Type} [DecidableEq α] (k : α) (f : β → β)
    (l : List (α × β)) : lookupA k (updateA k f l) = (lookupA k l).map f := by
  induction l with
  | nil => rfl
  | cons p rest ih =>
    by_cases hk : k = p.1
    · simp [updateA, lookupA, hk]
    · simp [updateA, lookupA, hk, ih]

theorem lookupA_updateA_ne {α β : Type} [DecidableEq α] {k k' : α} (f : β → β)
    (l : List (α × β)) (h : k ≠ k') :
    lookupA k (updateA k' f l) = lookupA k l := by
  induction l with
  | nil => rfl
  | cons p rest ih =>
    by_cases hk' : k' = p.1
    · subst hk'
      simp [updateA, lookupA, h, ih]
    · by_cases hk : k = p.1
      · simp [updateA, lookupA, hk, hk']
      · simp [updateA, lookupA, hk, hk', ih]

@[simp]
theorem updClient_channels (st : Server) (fd : Int) (f : Client → Client) :
    (updClient st fd f).channels = st.channels := rfl

@[simp]
theorem updClient_pollfds (st : Server) (fd : Int) (f : Client → Client) :
    (updClient st fd f).pollfds = st.pollfds := rfl

@[simp]
theorem updChan_clients (st : Server) (name : Str) (f : Channel → Channel) :
    (updChan st name f).clients = st.clients := rfl

@[simp]
theorem updChan_pollfds (st : Server) (name : Str) (f : Channel → Channel) :
    (updChan st name f).pollfds = st.pollfds := rfl

@[simp]
theorem appendOut_channels (st : Server) (fd : Int) (d : Str) :
    (appendOut st fd d).channels = st.channels := rfl

@[simp]
theorem enablePolloutForFD_clients (st : Server) (fd : Int) :
    (enablePolloutForFD st fd).clients = st.clients := rfl

@[simp]
theorem enablePolloutForFD_channels (st : Server) (fd : Int) :
    (enablePolloutForFD st fd).channels = st.channels := rfl

@[simp]
theorem sendReplyTo_channels (st : Server) (fd : Int) (r : Str) :
    (sendReplyTo st fd r).channels = st.channels := rfl

theorem sendError_channels (st : Server) (fd : Int) (code : Nat)
    (param message : Str) :
    (sendError st fd code param message).channels = st.channels := by
  unfold sendError
  split
  · rfl
  · split <;> (dsimp only; split <;> rfl)

theorem sendNumeric_channels (st : Server) (fd : Int) (code : Nat)
    (message : Str) :
    (sendNumeric st fd code message).channels = st.channels := by
  unfold sendNumeric
  split
  · rfl
  · split <;> rfl

theorem broadcastMembers_channels (ms : List Int) (data : Str) (ex : Int) :
    ∀ st : Server, (broadcastMembers st ms data ex).channels = st.channels := by
  induction ms with
  | nil => intro st; rfl
  | cons m rest ih =>
    intro st
    unfold broadcastMembers
    rw [List.foldl_cons]
    by_cases hm : m = ex
    · simp only [if_pos hm]
      exact ih st
    · simp only [if_neg hm]
      rw [show (List.foldl _ (appendOut st m data) rest)
          = broadcastMembers (appendOut st m data) rest data ex from rfl]
      rw [ih (appendOut st m data)]
      rfl

theorem pollFold_clients (ms : List Int) (ex : Int) :
    ∀ st : Server,
      (ms.foldl (fun acc m => if m = ex then acc else enablePolloutForFD acc m)
        st).clients = st.clients := by
  induction ms with
  | nil => intro st; rfl
  | cons m rest ih =>
    intro st
    rw [List.foldl_cons]
    by_cases hm : m = ex
    · simp only [if_pos hm]
      exact ih st
    · simp only [if_neg hm]
      rw [ih (enablePolloutForFD st m)]
      rfl

theorem pollFold_channels (ms : List Int) (ex : Int) :
    ∀ st : Server,
      (ms.foldl (fun acc m => if m = ex then acc else enablePolloutForFD acc m)
        st).channels = st.channels := by
  induction ms with
  | nil => intro st; rfl
  | cons m rest ih =>
    intro st
    rw [List.foldl_cons]
    by_cases hm : m = ex
    · simp only [if_pos hm]
      exact ih st
    · simp only [if_neg hm]
      rw [ih (enablePolloutForFD st m)]
      rfl

theorem broadcastToChannel_channels (st : Server) (ms : List Int) (data : Str)
    (ex : Int) : (broadcastToChannel st ms data ex).channels = st.channels := by
  unfold broadcastToChannel
  rw [pollFold_channels, broadcastMembers_channels]

theorem broadcastToChannel_findChannel (st : Server) (ms : List Int)
    (data : Str) (ex : Int) (name : Str) :
    (broadcastToChannel st ms data ex).findChannel name = st.findChannel name := by
  unfold Server.findChannel
  rw [broadcastToChannel_channels]

/-! ## Claim C8: counterexample -/

/-- C8's last clause is false as stated: "MODE #c -l" on a channel whose
user limit is already 0 changes no state, yet the code records 'l'
unconditionally in the minus branch and broadcasts the MODE notice, so a
character with no state change appears in the compact mode string. -/
theorem C8_minus_l_recorded_without_state_change :
    ((handleCommand demoSt 1 (str "MODE #c -l\r\n")).findChannel
        (str "#c")).map Channel.userLimit = some 0
  ∧ (lookupA 2 (handleCommand demoSt 1 (str "MODE #c -l\r\n")).clients).map
        Client.outbuf
      = some (str ":alice!au@localhost MODE #c -l\r\n") := by decide

/-! ## Claim C8: amended -/

theorem findChannel_updChan_self (st : Server) (name : Str) (f : Channel → Channel) :
    (updChan st name f).findChannel name = (st.findChannel name).map f := by
  unfold Server.findChannel updChan
  exact lookupA_updateA_self name f st.channels

/-- Helper: a "MODE chan +i" that finds invite-only already set leaves the
server untouched: no applied mode, no broadcast. -/
theorem handleChannelMode_repeat_i_noop (st : Server) (fd : Int) (name : Str)
    (ch : Channel) (hch : st.findChannel name = some ch)
    (hmem : ch.isMember fd = true) (hop : ch.isOperator fd = true)
    (hinv : ch.inviteOnly = true) :
    handleChannelMode st fd ⟨[], str "MODE", [name, str "+i"], []⟩ name = st := by
  have hfold : List.foldl
      (chanModeStep fd name ⟨[], str "MODE", [name, str "+i"], []⟩)
      ⟨st, '+', 2, [], [], Char.ofNat 0⟩ (([name, str "+i"][1]?).getD [])
      = ⟨st, '+', 2, [], [], Char.ofNat 0⟩ := by
    show List.foldl _ _ ['+', 'i'] = _
    rw [List.foldl_cons, List.foldl_cons, List.foldl_nil]
    rw [show chanModeStep fd name ⟨[], str "MODE", [name, str "+i"], []⟩
      ⟨st, '+', 2, [], [], Char.ofNat 0⟩ '+' = ⟨st, '+', 2, [], [], Char.ofNat 0⟩ from rfl]
    simp [chanModeStep, hch, hinv]
  unfold handleChannelMode
  rw [hch]
  simp only [hmem, hop, Bool.not_true, Bool.false_eq_true, if_false]
  simp only [hfold]
  simp

/-- Helper: likewise for "+t" with topic protection already set. -/
theorem handleChannelMode_repeat_t_noop (st : Server) (fd : Int) (name : Str)
    (ch : Channel) (hch : st.findChannel name = some ch)
    (hmem : ch.isMember fd = true) (hop : ch.isOperator fd = true)
    (ht : ch.topicProtected = true) :
    handleChannelMode st fd ⟨[], str "MODE", [name, str "+t"], []⟩ name = st := by
  have hfold : List.foldl
      (chanModeStep fd name ⟨[], str "MODE", [name, str "+t"], []⟩)
      ⟨st, '+', 2, [], [], Char.ofNat 0⟩ (([name, str "+t"][1]?).getD [])
      = ⟨st, '+', 2, [], [], Char.ofNat 0⟩ := by
    show List.foldl _ _ ['+', 't'] = _
    rw [List.foldl_cons, List.foldl_cons, List.foldl_nil]
    rw [show chanModeStep fd name ⟨[], str "MODE", [name, str "+t"], []⟩
      ⟨st, '+', 2, [], [], Char.ofNat 0⟩ '+' = ⟨st, '+', 2, [], [], Char.ofNat 0⟩ from rfl]
    simp [chanModeStep, hch, ht]
  unfold handleChannelMode
  rw [hch]
  simp only [hmem, hop, Bool.not_true, Bool.false_eq_true, if_false]
  simp only [hfold]
  simp

/-- Helper: likewise for "+o nick" when the target is already operator. -/
theorem handleChannelMode_repeat_o_noop (st : Server) (fd : Int) (name : Str)
    (ch : Channel) (nick : Str) (tfd : Int) (hch : st.findChannel name = some ch)
    (hmem : ch.isMember fd = true) (hop : ch.isOperator fd = true)
    (hfind : findMemberByNick st ch.members nick = some tfd)
    (hopt : ch.isOperator tfd = true) :
    handleChannelMode st fd ⟨[], str "MODE", [name, str "+o", nick], []⟩ name = st := by
  have hfold : List.foldl
      (chanModeStep fd name ⟨[], str "MODE", [name, str "+o", nick], []⟩)
      ⟨st, '+', 2, [], [], Char.ofNat 0⟩ (([name, str "+o", nick][1]?).getD [])
      = ⟨st, '+', 3, [], [], Char.ofNat 0⟩ := by
    show List.foldl _ _ ['+', 'o'] = _
    rw [List.foldl_cons, List.foldl_cons, List.foldl_nil]
    rw [show chanModeStep fd name ⟨[], str "MODE", [name, str "+o", nick], []⟩
      ⟨st, '+', 2, [], [], Char.ofNat 0⟩ '+' = ⟨st, '+', 2, [], [], Char.ofNat 0⟩ from rfl]
    simp [chanModeStep, hch, hfind, hopt]
  unfold handleChannelMode
  rw [hch]
  simp only [hmem, hop, Bool.not_true, Bool.false_eq_true, if_false]
  simp only [hfold]
  simp

/-- Helper: a first "+i" on a channel without invite-only sets the flag,
whatever the broadcast outcome. -/
theorem handleChannelMode_plus_i_sets (st : Server) (fd : Int) (name : Str)
    (ch : Channel) (hch : st.findChannel name = some ch)
    (hmem : ch.isMember fd = true) (hop : ch.isOperator fd = true)
    (hinv : ch.inviteOnly = false) :
    (handleChannelMode st fd ⟨[], str "MODE", [name, str "+i"], []⟩
        name).findChannel name = some (ch.setInviteOnly true) := by
  have hfold : List.foldl
      (chanModeStep fd name ⟨[], str "MODE", [name, str "+i"], []⟩)
      ⟨st, '+', 2, [], [], Char.ofNat 0⟩ (([name, str "+i"][1]?).getD [])
      = ⟨updChan st name (fun c => c.setInviteOnly true), '+', 2, ['+', 'i'],
          [], '+'⟩ := by
    show List.foldl _ _ ['+', 'i'] = _
    rw [List.foldl_cons, List.foldl_cons, List.foldl_nil]
    rw [show chanModeStep fd name ⟨[], str "MODE", [name, str "+i"], []⟩
      ⟨st, '+', 2, [], [], Char.ofNat 0⟩ '+' = ⟨st, '+', 2, [], [], Char.ofNat 0⟩ from rfl]
    simp [chanModeStep, hch, hinv, recordApplied]
  unfold handleChannelMode
  rw [hch]
  simp only [hmem, hop, Bool.not_true, Bool.false_eq_true, if_false,
    show (decide ([name, str "+i"].length = 1) && ([] : Str).isEmpty) = false from rfl]
  simp only [hfold]
  have hch1 : (updChan st name (fun c => c.setInviteOnly true)).findChannel name
      = some (ch.setInviteOnly true) := by
    rw [findChannel_updChan_self, hch]
    rfl
  simp only [List.isEmpty_cons, Bool.not_false, if_true]
  split
  · exact hch1
  · split
    · exact hch1
    · simp only [hch1, broadcastToChannel_findChannel]

/-- "#c" with invite-only already set, alice operator. -/
def chanInvC : Channel := { chanC with inviteOnly := true }

def demoInvSt : Server :=
  { demoSt with channels := [(str "#c", chanInvC)] }

/-- C8 amended claim theorem. -/
theorem C8_mode_change_records_gated (st : Server) (fd : Int) (name : Str)
    (ch : Channel) (hch : st.findChannel name = some ch)
    (hmem : ch.isMember fd = true) (hop : ch.isOperator fd = true) :
    (ch.inviteOnly = true →
      handleChannelMode st fd ⟨[], str "MODE", [name, str "+i"], []⟩ name = st)
  ∧ (ch.topicProtected = true →
      handleChannelMode st fd ⟨[], str "MODE", [name, str "+t"], []⟩ name = st)
  ∧ (∀ nick tfd, findMemberByNick st ch.members nick = some tfd →
      ch.isOperator tfd = true →
      handleChannelMode st fd ⟨[], str "MODE", [name, str "+o", nick], []⟩ name = st)
  ∧ handleChannelMode
      (handleChannelMode st fd ⟨[], str "MODE", [name, str "+i"], []⟩ name)
      fd ⟨[], str "MODE", [name, str "+i"], []⟩ name
    = handleChannelMode st fd ⟨[], str "MODE", [name, str "+i"], []⟩ name := by
  refine ⟨fun hinv => handleChannelMode_repeat_i_noop st fd name ch hch hmem hop hinv,
    fun ht => handleChannelMode_repeat_t_noop st fd name ch hch hmem hop ht,
    fun nick tfd hfind hopt =>
      handleChannelMode_repeat_o_noop st fd name ch nick tfd hch hmem hop hfind hopt,
    ?_⟩
  by_cases hinv : ch.inviteOnly = true
  · rw [handleChannelMode_repeat_i_noop st fd name ch hch hmem hop hinv]
    exact handleChannelMode_repeat_i_noop st fd name ch hch hmem hop hinv
  · have hinv' : ch.inviteOnly = false := by simpa using hinv
    have h2 := handleChannelMode_plus_i_sets st fd name ch hch hmem hop hinv'
    exact handleChannelMode_repeat_i_noop _ fd name (ch.setInviteOnly true)
      h2 hmem hop rfl

/-- Witness for C8: a second "+i" on the invite-only "#c" is a no-op. -/
theorem C8_mode_change_records_gated_witness :
    handleChannelMode demoInvSt 1 ⟨[], str "MODE", [str "#c", str "+i"], []⟩
      (str "#c") = demoInvSt :=
  (C8_mode_change_records_gated demoInvSt 1 (str "#c") chanInvC (by decide)
    (by decide) (by decide)).1 (by decide)

/-! ## Claim C9: counterexample -/

/-- C9 as stated is false for its "non-numeric" case: the limit parameter
"12abc" is not a number, yet istringstream extraction reads its leading
digits, so "MODE #c +l 12abc" sets the limit to 12 and broadcasts the
change with the raw parameter echoed. -/
theorem C9_nonnumeric_limit_prefix_accepted :
    ((handleCommand demoSt 1 (str "MODE #c +l 12abc\r\n")).findChannel
        (str "#c")).map Channel.userLimit = some 12
  ∧ (lookupA 2 (handleCommand demoSt 1 (str "MODE #c +l 12abc\r\n")).clients).map
        Client.outbuf
      = some (str ":alice!au@localhost MODE #c +l 12abc\r\n") := by decide

/-- C9 amended claim theorem: a "+l" whose parameter yields no positive
istream-parsed integer is silently ignored (no state change, no record, no
broadcast, no error reply: the whole command is the identity); one whose
leading integer is positive installs exactly that integer as the limit,
trailing junk notwithstanding. -/
theorem C9_limit_param_validation (st : Server) (fd : Int) (name p : Str)
    (ch : Channel) (hch : st.findChannel name = some ch)
    (hmem : ch.isMember fd = true) (hop : ch.isOperator fd = true) :
    ((∀ v, istreamReadInt p = some v → ¬v > 0) →
      handleChannelMode st fd ⟨[], str "MODE", [name, str "+l", p], []⟩ name = st)
  ∧ (∀ v, istreamReadInt p = some v → v > 0 →
      ((handleChannelMode st fd ⟨[], str "MODE", [name, str "+l", p], []⟩
          name).findChannel name).map Channel.userLimit = some v) := by
  constructor
  · intro hbad
    have hfold : List.foldl
        (chanModeStep fd name ⟨[], str "MODE", [name, str "+l", p], []⟩)
        ⟨st, '+', 2, [], [], Char.ofNat 0⟩ (([name, str "+l", p][1]?).getD [])
        = ⟨st, '+', 3, [], [], Char.ofNat 0⟩ := by
      show List.foldl _ _ ['+', 'l'] = _
      rw [List.foldl_cons, List.foldl_cons, List.foldl_nil]
      rw [show chanModeStep fd name ⟨[], str "MODE", [name, str "+l", p], []⟩
        ⟨st, '+', 2, [], [], Char.ofNat 0⟩ '+'
        = ⟨st, '+', 2, [], [], Char.ofNat 0⟩ from rfl]
      cases hi : istreamReadInt p with
      | none => simp [chanModeStep, hch, hi]
      | some v =>
        have hv := hbad v hi
        simp [chanModeStep, hch, hi, hv]
    unfold handleChannelMode
    rw [hch]
    simp only [hmem, hop, Bool.not_true, Bool.false_eq_true, if_false,
      show (decide ([name, str "+l", p].length = 1) && ([] : Str).isEmpty)
        = false from rfl]
    simp only [hfold]
    simp
  · intro v hi hv
    have hfold : List.foldl
        (chanModeStep fd name ⟨[], str "MODE", [name, str "+l", p], []⟩)
        ⟨st, '+', 2, [], [], Char.ofNat 0⟩ (([name, str "+l", p][1]?).getD [])
        = ⟨updChan st name (fun c => c.setUserLimit v), '+', 3, ['+', 'l'],
            [p], '+'⟩ := by
      show List.foldl _ _ ['+', 'l'] = _
      rw [List.foldl_cons, List.foldl_cons, List.foldl_nil]
      rw [show chanModeStep fd name ⟨[], str "MODE", [name, str "+l", p], []⟩
        ⟨st, '+', 2, [], [], Char.ofNat 0⟩ '+'
        = ⟨st, '+', 2, [], [], Char.ofNat 0⟩ from rfl]
      simp [chanModeStep, hch, hi, hv, recordApplied]
    unfold handleChannelMode
    rw [hch]
    simp only [hmem, hop, Bool.not_true, Bool.false_eq_true, if_false,
      show (decide ([name, str "+l", p].length = 1) && ([] : Str).isEmpty)
        = false from rfl]
    simp only [hfold]
    have hch1 : (updChan st name (fun c => c.setUserLimit v)).findChannel name
        = some (ch.setUserLimit v) := by
      rw [findChannel_updChan_self, hch]
      rfl
    simp only [List.isEmpty_cons, Bool.not_false, if_true]
    split
    · rw [hch1]
      rfl
    · split
      · rw [hch1]
        rfl
      · simp only [hch1, broadcastToChannel_findChannel]
        rfl

/-- Witness for C9: "+l abc" has no parsable integer and is a no-op. -/
theorem C9_limit_param_validation_witness :
    handleChannelMode demoSt 1 ⟨[], str "MODE", [str "#c", str "+l", str "abc"], []⟩
      (str "#c") = demoSt :=
  (C9_limit_param_validation demoSt 1 (str "#c") (str "abc") chanC (by decide)
    (by decide) (by decide)).1
    (fun v h => by
      rw [show istreamReadInt (str "abc") = none from rfl] at h
      exact Option.noConfusion h)


/-! ## Outbuf and POLLOUT effect lemmas for broadcasts -/

theorem lookupA_appendOut_self (st : Server) (fd : Int) (d : Str) :
    lookupA fd (appendOut st fd d).clients
      = (lookupA fd st.clients).map (fun c => { c with outbuf := c.outbuf ++ d }) := by
  unfold appendOut updClient
  exact lookupA_updateA_self fd _ st.clients

theorem lookupA_appendOut_ne (st : Server) {m fd : Int} (d : Str) (h : m ≠ fd) :
    lookupA m (appendOut st fd d).clients = lookupA m st.clients := by
  unfold appendOut updClient
  exact lookupA_updateA_ne _ st.clients h

theorem broadcastMembers_not_mem (ms : List Int) (d : Str) (ex : Int)
    {m : Int} (hm : m ∉ ms) :
    ∀ st : Server,
      lookupA m (broadcastMembers st ms d ex).clients = lookupA m st.clients := by
  induction ms with
  | nil => intro st; rfl
  | cons k rest ih =>
    intro st
    simp only [List.mem_cons, not_or] at hm
    unfold broadcastMembers
    rw [List.foldl_cons]
    by_cases hk : k = ex
    · simp only [if_pos hk]
      exact ih hm.2 st
    · simp only [if_neg hk]
      rw [show List.foldl _ (appendOut st k d) rest
          = broadcastMembers (appendOut st k d) rest d ex from rfl]
      rw [ih hm.2 (appendOut st k d)]
      exact lookupA_appendOut_ne st d hm.1

theorem broadcastMembers_mem (ms : List Int) (d : Str) (ex : Int)
    {m : Int} (hnd : ms.Nodup) (hm : m ∈ ms) (hne : m ≠ ex) :
    ∀ st : Server,
      lookupA m (broadcastMembers st ms d ex).clients
        = (lookupA m st.clients).map (fun c => { c with outbuf := c.outbuf ++ d }) := by
  induction ms with
  | nil => simp at hm
  | cons k rest ih =>
    intro st
    unfold broadcastMembers
    rw [List.foldl_cons]
    rcases List.mem_cons.mp hm with h1 | h1
    · subst h1
      have hnotin : m ∉ rest := (List.nodup_cons.mp hnd).1
      simp only [if_neg hne]
      rw [show List.foldl _ (appendOut st m d) rest
          = broadcastMembers (appendOut st m d) rest d ex from rfl]
      rw [broadcastMembers_not_mem rest d ex hnotin (appendOut st m d)]
      exact lookupA_appendOut_self st m d
    · have hrest := ih (List.nodup_cons.mp hnd).2 h1
      by_cases hk : k = ex
      · simp only [if_pos hk]
        exact hrest st
      · simp only [if_neg hk]
        rw [show List.foldl _ (appendOut st k d) rest
            = broadcastMembers (appendOut st k d) rest d ex from rfl]
        rw [hrest (appendOut st k d)]
        by_cases hmk : m = k
        · subst hmk
          exact absurd h1 (List.nodup_cons.mp hnd).1
        · rw [lookupA_appendOut_ne st d hmk]

theorem find_go_self (fd : Int) (l : List Pollfd) :
    ((enablePolloutForFD.go fd l).find? (fun p => decide (p.fd = fd))).map
        Pollfd.pollout
      = (l.find? (fun p => decide (p.fd = fd))).map (fun _ => true) := by
  induction l with
  | nil => rfl
  | cons p rest ih =>
    by_cases hp : p.fd = fd
    · simp [enablePolloutForFD.go, hp, List.find?]
    · have hd : (decide (p.fd = fd)) = false := by simp [hp]
      simp only [enablePolloutForFD.go, if_neg hp, List.find?, hd]
      exact ih

theorem find_go_ne {m fd : Int} (h : m ≠ fd) (l : List Pollfd) :
    (enablePolloutForFD.go fd l).find? (fun p => decide (p.fd = m))
      = l.find? (fun p => decide (p.fd = m)) := by
  induction l with
  | nil => rfl
  | cons p rest ih =>
    by_cases hp : p.fd = fd
    · have hd2 : (decide (fd = m)) = false := by
        simp only [decide_eq_false_iff_not]
        exact fun hfm => h hfm.symm
      simp [enablePolloutForFD.go, hp, List.find?, hd2]
    · simp only [enablePolloutForFD.go, if_neg hp, List.find?]
      cases hdm : decide (p.fd = m) with
      | true => simp
      | false => simpa using ih

theorem polloutEnabled_enable_self (st : Server) (fd : Int) :
    polloutEnabled (enablePolloutForFD st fd) fd
      = (polloutEnabled st fd).map (fun _ => true) := by
  unfold polloutEnabled enablePolloutForFD
  rw [Option.map_map]
  exact find_go_self fd st.pollfds

theorem polloutEnabled_enable_ne (st : Server) {m fd : Int} (h : m ≠ fd) :
    polloutEnabled (enablePolloutForFD st fd) m = polloutEnabled st m := by
  unfold polloutEnabled enablePolloutForFD
  rw [find_go_ne h st.pollfds]


theorem broadcastMembers_pollfds (ms : List Int) (d : Str) (ex : Int) :
    ∀ st : Server, (broadcastMembers st ms d ex).pollfds = st.pollfds := by
  induction ms with
  | nil => intro st; rfl
  | cons m rest ih =>
    intro st
    unfold broadcastMembers
    rw [List.foldl_cons]
    by_cases hm : m = ex
    · simp only [if_pos hm]
      exact ih st
    · simp only [if_neg hm]
      rw [show List.foldl _ (appendOut st m d) rest
          = broadcastMembers (appendOut st m d) rest d ex from rfl]
      rw [ih (appendOut st m d)]
      rfl

theorem pollFold_not_mem (ms : List Int) (ex : Int) {m : Int} (hm : m ∉ ms) :
    ∀ st : Server,
      polloutEnabled
        (ms.foldl (fun acc k => if k = ex then acc else enablePolloutForFD acc k) st) m
      = polloutEnabled st m := by
  induction ms with
  | nil => intro st; rfl
  | cons k rest ih =>
    intro st
    simp only [List.mem_cons, not_or] at hm
    rw [List.foldl_cons]
    by_cases hk : k = ex
    · simp only [if_pos hk]
      exact ih hm.2 st
    · simp only [if_neg hk]
      rw [ih hm.2 (enablePolloutForFD st k)]
      exact polloutEnabled_enable_ne st hm.1

theorem pollFold_mem (ms : List Int) (ex : Int) {m : Int}
    (hm : m ∈ ms) (hne : m ≠ ex) :
    ∀ st : Server, (polloutEnabled st m).isSome →
      polloutEnabled
        (ms.foldl (fun acc k => if k = ex then acc else enablePolloutForFD acc k) st) m
      = some true := by
  induction ms with
  | nil => simp at hm
  | cons k rest ih =>
    intro st hb
    obtain ⟨b, hb⟩ := Option.isSome_iff_exists.mp hb
    rw [List.foldl_cons]
    rcases List.mem_cons.mp hm with h1 | h1
    · subst h1
      simp only [if_neg hne]
      have henb : polloutEnabled (enablePolloutForFD st m) m = some true := by
        rw [polloutEnabled_enable_self, hb]
        rfl
      by_cases hmr : m ∈ rest
      · exact ih hmr (enablePolloutForFD st m) (by simp [henb])
      · rw [pollFold_not_mem rest ex hmr (enablePolloutForFD st m)]
        exact henb
    · by_cases hk : k = ex
      · simp only [if_pos hk]
        exact ih h1 st (by simp [hb])
      · simp only [if_neg hk]
        by_cases hmk : m = k
        · subst hmk
          have henb : polloutEnabled (enablePolloutForFD st m) m = some true := by
            rw [polloutEnabled_enable_self, hb]
            rfl
          exact ih h1 (enablePolloutForFD st m) (by simp [henb])
        · have hne2 := @polloutEnabled_enable_ne st m k hmk
          exact ih h1 (enablePolloutForFD st k) (by simp [hne2, hb])

/-- The outbuf effect of broadcastToChannel on a recipient. -/
theorem broadcastToChannel_outbuf (st : Server) (ms : List Int) (d : Str)
    (ex : Int) {m : Int} {cm : Client} (hnd : ms.Nodup) (hm : m ∈ ms)
    (hne : m ≠ ex) (hcm : lookupA m st.clients = some cm) :
    lookupA m (broadcastToChannel st ms d ex).clients
      = some { cm with outbuf := cm.outbuf ++ d } := by
  unfold broadcastToChannel
  rw [pollFold_clients]
  rw [broadcastMembers_mem ms d ex hnd hm hne st, hcm]
  rfl

/-- The write-interest effect of broadcastToChannel on a recipient. -/
theorem broadcastToChannel_pollout (st : Server) (ms : List Int) (d : Str)
    (ex : Int) {m : Int} {b : Bool} (hm : m ∈ ms) (hne : m ≠ ex)
    (hb : polloutEnabled st m = some b) :
    polloutEnabled (broadcastToChannel st ms d ex) m = some true := by
  unfold broadcastToChannel
  apply pollFold_mem ms ex hm hne
  have hbb : polloutEnabled (broadcastMembers st ms d ex) m = some b := by
    unfold polloutEnabled
    rw [broadcastMembers_pollfds]
    exact hb
  simp [hbb]


/-! ## Claim C3: amended -/

/-- C3 amended: for a registered sender, PRIVMSG with a target starting
with '#' routes to the channel: 403 when the channel is unknown, 404 when
the sender is not a member, otherwise the message is appended to every
other member's outbuf with write-interest enabled; any other target
(including '&'-prefixed ones) routes to the nickname owner: 401 when no
connection holds the nickname, otherwise a direct reply to that
connection.  NOTICE routes identically -- silent drop on unknown channel,
unknown nickname or non-membership, Channel::broadcast delivery to the
members' outbufs on a '#'-channel the sender belongs to, and a direct
reply to the nickname owner otherwise. -/
theorem C3_privmsg_routing (st : Server) (fd : Int) (target text : Str)
    (c : Client) (hc : lookupA fd st.clients = some c)
    (hreg : c.registered = true) (htext : text ≠ []) :
    ((target.head? = some '#') → st.findChannel target = none →
      handlePrivmsg st fd ⟨[], str "PRIVMSG", [target], text⟩
        = sendError st fd 403 target (str "No such channel"))
  ∧ ((target.head? = some '#') → ∀ ch, st.findChannel target = some ch →
      ch.isMember fd = false →
      handlePrivmsg st fd ⟨[], str "PRIVMSG", [target], text⟩
        = sendError st fd 404 target (str "Cannot send to channel"))
  ∧ ((target.head? = some '#') → ∀ ch, st.findChannel target = some ch →
      ch.isMember fd = true → ch.members.Nodup →
      ∀ pm, buildCommandMessage (c.nickname ++ '!' :: c.username ++ str "@localhost")
          (str "PRIVMSG") [target] text = .ok pm →
      ∀ m cm b, m ∈ ch.members → m ≠ fd → lookupA m st.clients = some cm →
        polloutEnabled st m = some b →
        lookupA m (handlePrivmsg st fd ⟨[], str "PRIVMSG", [target], text⟩).clients
            = some { cm with outbuf := cm.outbuf ++ pm }
        ∧ polloutEnabled (handlePrivmsg st fd ⟨[], str "PRIVMSG", [target], text⟩) m
            = some true)
  ∧ (¬(target.head? = some '#') → st.findClientByNickname target = none →
      handlePrivmsg st fd ⟨[], str "PRIVMSG", [target], text⟩
        = sendError st fd 401 target (str "No such nick/channel"))
  ∧ (¬(target.head? = some '#') → ∀ tc, st.findClientByNickname target = some tc →
      ∀ pm, buildCommandMessage (c.nickname ++ '!' :: c.username ++ str "@localhost")
          (str "PRIVMSG") [target] text = .ok pm →
      handlePrivmsg st fd ⟨[], str "PRIVMSG", [target], text⟩
        = sendReplyTo st tc.fd pm)
  ∧ ((target.head? = some '#') → st.findChannel target = none →
      handleNotice st fd ⟨[], str "NOTICE", [target], text⟩ = st)
  ∧ (¬(target.head? = some '#') → st.findClientByNickname target = none →
      handleNotice st fd ⟨[], str "NOTICE", [target], text⟩ = st)
  ∧ ((target.head? = some '#') → ∀ ch, st.findChannel target = some ch →
      ch.isMember fd = false →
      handleNotice st fd ⟨[], str "NOTICE", [target], text⟩ = st)
  ∧ ((target.head? = some '#') → ∀ ch, st.findChannel target = some ch →
      ch.isMember fd = true →
      ∀ nm, buildCommandMessage (c.nickname ++ '!' :: c.username ++ str "@localhost")
          (str "NOTICE") [target] text = .ok nm →
      handleNotice st fd ⟨[], str "NOTICE", [target], text⟩
          = broadcastMembers st ch.members nm fd
      ∧ (ch.members.Nodup → ∀ m cm, m ∈ ch.members → m ≠ fd →
          lookupA m st.clients = some cm →
          lookupA m (handleNotice st fd ⟨[], str "NOTICE", [target], text⟩).clients
            = some { cm with outbuf := cm.outbuf ++ nm }))
  ∧ (¬(target.head? = some '#') → ∀ tc, st.findClientByNickname target = some tc →
      ∀ nm, buildCommandMessage (c.nickname ++ '!' :: c.username ++ str "@localhost")
          (str "NOTICE") [target] text = .ok nm →
      handleNotice st fd ⟨[], str "NOTICE", [target], text⟩
        = sendReplyTo st tc.fd nm) := by
  have htxt : text.isEmpty = false := by
    cases text with
    | nil => exact absurd rfl htext
    | cons a l => rfl
  refine ⟨?_, ?_, ?_, ?_, ?_, ?_, ?_, ?_, ?_, ?_⟩
  · intro hhash hnone
    unfold handlePrivmsg
    rw [hc]
    simp only [hreg, Bool.not_true, Bool.false_eq_true, if_false,
      List.isEmpty_cons, htxt, List.getElem?_cons_zero, Option.getD_some,
      if_pos hhash, hnone]
  · intro hhash ch hsome hmem
    unfold handlePrivmsg
    rw [hc]
    simp only [hreg, Bool.not_true, Bool.false_eq_true, if_false,
      List.isEmpty_cons, htxt, List.getElem?_cons_zero, Option.getD_some,
      if_pos hhash, hsome, hmem, Bool.not_false, if_true]
  · intro hhash ch hsome hmem hnd pm hok m cm b hmmem hmne hcm hpoll
    have heval : handlePrivmsg st fd ⟨[], str "PRIVMSG", [target], text⟩
        = broadcastToChannel st ch.members pm fd := by
      unfold handlePrivmsg
      rw [hc]
      simp only [hreg, Bool.not_true, Bool.false_eq_true, if_false,
        List.isEmpty_cons, htxt, List.getElem?_cons_zero, Option.getD_some,
        if_pos hhash, hsome, hmem, Bool.not_true, Bool.false_eq_true, if_false,
        hok]
    rw [heval]
    exact ⟨broadcastToChannel_outbuf st ch.members pm fd hnd hmmem hmne hcm,
      broadcastToChannel_pollout st ch.members pm fd hmmem hmne hpoll⟩
  · intro hneq hnone
    unfold handlePrivmsg
    rw [hc]
    simp only [hreg, Bool.not_true, Bool.false_eq_true, if_false,
      List.isEmpty_cons, htxt, List.getElem?_cons_zero, Option.getD_some,
      if_neg hneq, hnone]
  · intro hneq tc hsome pm hok
    unfold handlePrivmsg
    rw [hc]
    simp only [hreg, Bool.not_true, Bool.false_eq_true, if_false,
      List.isEmpty_cons, htxt, List.getElem?_cons_zero, Option.getD_some,
      if_neg hneq, hsome, hok]
  · intro hhash hnone
    unfold handleNotice
    rw [hc]
    simp only [hreg, Bool.not_true, Bool.false_eq_true, if_false,
      List.isEmpty_cons, htxt, List.getElem?_cons_zero, Option.getD_some,
      if_pos hhash, hnone]
  · intro hneq hnone
    unfold handleNotice
    rw [hc]
    simp only [hreg, Bool.not_true, Bool.false_eq_true, if_false,
      List.isEmpty_cons, htxt, List.getElem?_cons_zero, Option.getD_some,
      if_neg hneq, hnone]
  · intro hhash ch hsome hmem
    unfold handleNotice
    rw [hc]
    simp only [hreg, Bool.not_true, Bool.false_eq_true, if_false,
      List.isEmpty_cons, htxt, List.getElem?_cons_zero, Option.getD_some,
      if_pos hhash, hsome, hmem, Bool.not_false, if_true]
  · intro hhash ch hsome hmem nm hok
    have heval : handleNotice st fd ⟨[], str "NOTICE", [target], text⟩
        = broadcastMembers st ch.members nm fd := by
      unfold handleNotice
      rw [hc]
      simp only [hreg, Bool.not_true, Bool.false_eq_true, if_false,
        List.isEmpty_cons, htxt, List.getElem?_cons_zero, Option.getD_some,
        if_pos hhash, hsome, hmem, Bool.not_true, Bool.false_eq_true, if_false,
        hok]
    refine ⟨heval, ?_⟩
    intro hnd m cm hmmem hmne hcm
    rw [heval, broadcastMembers_mem ch.members nm fd hnd hmmem hmne st, hcm]
    simp only [Option.map_some']
  · intro hneq tc hsome nm hok
    unfold handleNotice
    rw [hc]
    simp only [hreg, Bool.not_true, Bool.false_eq_true, if_false,
      List.isEmpty_cons, htxt, List.getElem?_cons_zero, Option.getD_some,
      if_neg hneq, hsome, hok]

/-- Witness for C3 amended: bob receives alice's PRIVMSG to "#c" with
write-interest enabled. -/
theorem C3_privmsg_routing_witness :
    lookupA 2 (handlePrivmsg demoSt 1 ⟨[], str "PRIVMSG", [str "#c"], str "hi"⟩).clients
      = some { bobC with
          outbuf := str ":alice!au@localhost PRIVMSG #c :hi" ++ ['\r', '\n'] }
  ∧ polloutEnabled (handlePrivmsg demoSt 1 ⟨[], str "PRIVMSG", [str "#c"], str "hi"⟩) 2
      = some true := by
  have h := (C3_privmsg_routing demoSt 1 (str "#c") (str "hi") aliceC
    (by decide) (by decide) (by decide)).2.2.1
    (by decide) chanC (by decide) (by decide) (by decide)
    (str ":alice!au@localhost PRIVMSG #c :hi" ++ ['\r', '\n'])
    (by rfl) 2 bobC false (by decide) (by decide) (by decide) (by decide)
  exact h


/-! ## Claim C5: parse/render lemmas -/

/-- The wire form of the parameter-and-trailing region. -/
def restStr (params : List Str) (tr? : Option Str) : Str :=
  params.flatMap (fun q => ' ' :: q)
    ++ (match tr? with
        | none => []
        | some t => ' ' :: ':' :: t)

theorem renderMsg_decomp (p? : Option Str) (cmd : Str) (params : List Str)
    (tr? : Option Str) :
    renderMsg p? cmd params tr?
      = ((match p? with
          | none => []
          | some p => ':' :: p ++ [' ']) ++ (cmd ++ restStr params tr?))
        ++ ['\r', '\n'] := by
  unfold renderMsg restStr
  simp [List.append_assoc]

theorem stripCRLF_append (x : Str) : stripCRLF (x ++ ['\r', '\n']) = x := by
  unfold stripCRLF
  have hlen : (x ++ ['\r', '\n']).length = x.length + 2 := by simp
  have h2 : ¬(x ++ ['\r', '\n']).length < 2 := by omega
  rw [if_neg h2]
  have hd : (x ++ ['\r', '\n']).drop ((x ++ ['\r', '\n']).length - 2)
      = ['\r', '\n'] := by
    rw [hlen, Nat.add_sub_cancel]
    exact List.drop_left x _
  rw [if_pos hd, hlen, Nat.add_sub_cancel]
  exact List.take_left x _

theorem extractPfx_absent (line : Str) (h : line.head? ≠ some ':') :
    extractPfx line = ([], line) := by
  unfold extractPfx
  rw [if_pos h]

theorem extractPfx_present (p rest : Str) (hp : ' ' ∉ p) :
    extractPfx (':' :: p ++ ' ' :: rest) = (p, rest) := by
  unfold extractPfx
  have hh : ¬((':' :: p ++ ' ' :: rest).head? ≠ some ':') := by simp
  rw [if_neg hh]
  have hsp : strFind (':' :: p ++ ' ' :: rest) ' ' = some (p.length + 1) := by
    have h0 := @strFind_append_cons (':' :: p) ' ' rest (by simp [hp])
    simpa using h0
  rw [hsp]
  show (((':' :: p ++ ' ' :: rest).drop 1).take (p.length + 1 - 1),
      (':' :: p ++ ' ' :: rest).drop (p.length + 1 + 1)) = (p, rest)
  have htake : ((':' :: p ++ ' ' :: rest).drop 1).take (p.length + 1 - 1) = p := by
    simp only [List.drop_one, Nat.add_sub_cancel]
    show (p ++ ' ' :: rest).take p.length = p
    exact List.take_left p _
  have hdrop : (':' :: p ++ ' ' :: rest).drop (p.length + 1 + 1) = rest := by
    show (':' :: p ++ ' ' :: rest).drop (p.length + 2) = rest
    have hre : ':' :: p ++ ' ' :: rest = ((':' :: p) ++ [' ']) ++ rest := by simp
    rw [hre]
    exact List.drop_left' (by simp)
  rw [htake, hdrop]

theorem extractCommand_nospace (cmd : Str) (hne : cmd ≠ []) (hsp : ' ' ∉ cmd) :
    extractCommand cmd = some (cmd, []) := by
  unfold extractCommand
  have h1 : cmd.isEmpty = false := by
    cases cmd with
    | nil => exact absurd rfl hne
    | cons a l => rfl
  rw [h1]
  rw [strFind_eq_none hsp]
  simp [h1]

theorem extractCommand_space (cmd rest : Str) (hne : cmd ≠ []) (hsp : ' ' ∉ cmd) :
    extractCommand (cmd ++ ' ' :: rest) = some (cmd, rest) := by
  unfold extractCommand
  have h1 : (cmd ++ ' ' :: rest).isEmpty = false := by
    cases cmd with
    | nil => rfl
    | cons a l => rfl
  rw [h1]
  rw [strFind_append_cons rest hsp]
  have htake : (cmd ++ ' ' :: rest).take cmd.length = cmd := List.take_left cmd _
  have hdrop : (cmd ++ ' ' :: rest).drop (cmd.length + 1) = rest := by
    have hre : cmd ++ ' ' :: rest = (cmd ++ [' ']) ++ rest := by simp
    rw [hre]
    exact List.drop_left' (by simp)
  have h2 : cmd.isEmpty = false := by
    cases cmd with
    | nil => exact absurd rfl hne
    | cons a l => rfl
  show (if ((cmd ++ ' ' :: rest).take cmd.length).isEmpty = true then none
      else some ((cmd ++ ' ' :: rest).take cmd.length,
        (cmd ++ ' ' :: rest).drop (cmd.length + 1))) = some (cmd, rest)
  rw [htake, hdrop, h2]
  simp

theorem extractParams_restStr :
    ∀ (params : List Str) (tr? : Option Str),
      (∀ q ∈ params, validTok q = true) →
      (restStr params tr? = [] ∧ params = [] ∧ tr? = none)
      ∨ (∃ tail, restStr params tr? = ' ' :: tail
          ∧ extractParams tail = (params, tr?.getD [])) := by
  intro params
  induction params with
  | nil =>
    intro tr? _
    cases tr? with
    | none => exact Or.inl ⟨rfl, rfl, rfl⟩
    | some t =>
      refine Or.inr ⟨':' :: t, rfl, ?_⟩
      rw [extractParams_cons]
      simp
  | cons p ps ih =>
    intro tr? hv
    have hvp : validTok p = true := hv p (List.mem_cons_self p ps)
    have hpne : p ≠ [] := by
      intro h
      rw [h] at hvp
      simp [validTok] at hvp
    have hpsp : ' ' ∉ p := by
      have h' := hvp
      unfold validTok at h'
      simp only [Bool.and_eq_true, decide_eq_true_eq] at h'
      exact h'.1.1.2
    have hphead : p.head? ≠ some ':' := by
      have h' := hvp
      unfold validTok at h'
      simp only [Bool.and_eq_true, Bool.not_eq_true'] at h'
      intro hh
      have := h'.1.1.1.2
      rw [hh] at this
      simp at this
    refine Or.inr ⟨p ++ restStr ps tr?, ?_, ?_⟩
    · show restStr (p :: ps) tr? = ' ' :: (p ++ restStr ps tr?)
      unfold restStr
      simp [List.flatMap_cons, List.append_assoc]
    · obtain ⟨c, p', rfl⟩ : ∃ c p', p = c :: p' := by
        cases p with
        | nil => exact absurd rfl hpne
        | cons c p' => exact ⟨c, p', rfl⟩
      have hc : ¬(c = ':') := by
        intro h
        exact hphead (by rw [h]; rfl)
      rcases ih tr? (fun q hq => hv q (List.mem_cons_of_mem _ hq)) with
        ⟨hre, hps, htr⟩ | ⟨tail', hre, hext⟩
      · subst hps
        subst htr
        rw [hre, List.append_nil]
        rw [extractParams_cons]
        rw [if_neg hc]
        rw [strFind_eq_none hpsp]
        rfl
      · rw [hre]
        have hshape : (c :: p') ++ ' ' :: tail' = c :: (p' ++ ' ' :: tail') := rfl
        rw [hshape]
        rw [extractParams_cons]
        rw [if_neg hc]
        rw [show (c :: (p' ++ ' ' :: tail')) = (c :: p') ++ ' ' :: tail' from rfl]
        rw [strFind_append_cons tail' hpsp]
        have htake : ((c :: p') ++ ' ' :: tail').take (c :: p').length = c :: p' :=
          List.take_left _ _
        have hdrop : ((c :: p') ++ ' ' :: tail').drop ((c :: p').length + 1) = tail' := by
          have hre2 : (c :: p') ++ ' ' :: tail' = ((c :: p') ++ [' ']) ++ tail' := by simp
          rw [hre2]
          exact List.drop_left' (by simp)
        show (((c :: p') ++ ' ' :: tail').take (c :: p').length
              :: (extractParams (((c :: p') ++ ' ' :: tail').drop ((c :: p').length + 1))).1,
            (extractParams (((c :: p') ++ ' ' :: tail').drop ((c :: p').length + 1))).2)
          = ((c :: p') :: ps, tr?.getD [])
        rw [htake, hdrop, hext]


theorem validTok_parts {t : Str} (h : validTok t = true) :
    t ≠ [] ∧ t.head? ≠ some ':' ∧ ' ' ∉ t := by
  unfold validTok at h
  simp only [Bool.and_eq_true, Bool.not_eq_true', decide_eq_true_eq] at h
  refine ⟨?_, ?_, h.1.1.2⟩
  · intro he
    rw [he] at h
    simp at h
  · intro hh
    have h2 := h.1.1.1.2
    rw [hh] at h2
    simp at h2

theorem parse_renderMsg (p? : Option Str) (cmd : Str) (params : List Str)
    (tr? : Option Str) (hp : ∀ p, p? = some p → ' ' ∉ p)
    (hcmd : validTok cmd = true)
    (hparams : ∀ q ∈ params, validTok q = true) :
    parse (renderMsg p? cmd params tr?)
      = some (renderedMsg p? cmd params tr?) := by
  obtain ⟨hne, hhead, hsp⟩ := validTok_parts hcmd
  unfold parse
  rw [renderMsg_decomp, stripCRLF_append]
  cases p? with
  | none =>
    simp only [List.nil_append]
    have hpfx : extractPfx (cmd ++ restStr params tr?)
        = ([], cmd ++ restStr params tr?) := by
      apply extractPfx_absent
      cases cmd with
      | nil => exact absurd rfl hne
      | cons c cs => simpa using hhead
    rw [hpfx]
    rcases extractParams_restStr params tr? hparams with
      ⟨hre, hps, htr⟩ | ⟨tail, hre, hext⟩
    · subst hps
      subst htr
      rw [hre, List.append_nil]
      rw [extractCommand_nospace cmd hne hsp]
      rfl
    · rw [hre]
      rw [extractCommand_space cmd tail hne hsp]
      show some ⟨[], cmd, (extractParams tail).1, (extractParams tail).2⟩
        = some (renderedMsg none cmd params tr?)
      rw [hext]
      rfl
  | some p =>
    have hassoc : (':' :: p ++ [' ']) ++ (cmd ++ restStr params tr?)
        = ':' :: p ++ ' ' :: (cmd ++ restStr params tr?) := by simp
    simp only [hassoc]
    rw [extractPfx_present p _ (hp p rfl)]
    rcases extractParams_restStr params tr? hparams with
      ⟨hre, hps, htr⟩ | ⟨tail, hre, hext⟩
    · subst hps
      subst htr
      rw [hre, List.append_nil]
      rw [extractCommand_nospace cmd hne hsp]
      rfl
    · rw [hre]
      rw [extractCommand_space cmd tail hne hsp]
      show some ⟨p, cmd, (extractParams tail).1, (extractParams tail).2⟩
        = some (renderedMsg (some p) cmd params tr?)
      rw [hext]
      rfl

/-- buildCommandMessage in terms of the rendered wire message: the prefix
is forced present and an empty trailing is dropped. -/
theorem buildCommandMessage_eq_render (pfx cmd : Str) (params : List Str)
    (trailing : Str) :
    buildCommandMessage pfx cmd params trailing
      = (if validateLength (renderMsg (some pfx) cmd params
            (if trailing.isEmpty then none else some trailing))
         then .ok (renderMsg (some pfx) cmd params
            (if trailing.isEmpty then none else some trailing))
         else .error ()) := by
  have hpay : ':' :: pfx ++ ' ' :: cmd ++ params.flatMap (fun p => ' ' :: p)
      ++ (if trailing.isEmpty then [] else ' ' :: ':' :: trailing)
      ++ ['\r', '\n']
      = renderMsg (some pfx) cmd params
          (if trailing.isEmpty then none else some trailing) := by
    by_cases ht : trailing.isEmpty <;> simp [renderMsg, ht, List.append_assoc]
  unfold buildCommandMessage
  simp only [hpay]

theorem buildCommandMessage_ok_render (pfx cmd : Str) (params : List Str)
    (trailing : Str) {s : Str}
    (h : buildCommandMessage pfx cmd params trailing = .ok s) :
    s = renderMsg (some pfx) cmd params
        (if trailing.isEmpty then none else some trailing) := by
  rw [buildCommandMessage_eq_render] at h
  by_cases ht : trailing.isEmpty
  · rw [if_pos ht] at h ⊢
    split at h
    · injection h with h
      exact h.symm
    · exact Except.noConfusion h
  · rw [if_neg ht] at h ⊢
    split at h
    · injection h with h
      exact h.symm
    · exact Except.noConfusion h


/-! ## Claim C5: amended theorem, witness and counterexample -/

/-- C5 amended: for every well-formed wire line (the spec grammar over
valid components) parsing succeeds with the denoted structured message,
and whenever the builder accepts the parsed fields (512-byte ceiling),
re-parsing its output restores exactly the same prefix, command, params
and trailing.  The ceiling proviso is necessary: see the counterexample
theorem for a valid 511-byte prefix-less line the builder rejects. -/
theorem C5_parse_build_roundtrip (p? : Option Str) (cmd : Str)
    (params : List Str) (tr? : Option Str)
    (hp : ∀ p, p? = some p → validPfx p = true)
    (hcmd : validTok cmd = true)
    (hparams : ∀ q ∈ params, validTok q = true)
    (htr : ∀ t, tr? = some t → validTr t = true) :
    parse (renderMsg p? cmd params tr?) = some (renderedMsg p? cmd params tr?)
  ∧ ∀ s, buildCommandMessage (renderedMsg p? cmd params tr?).pfx
        (renderedMsg p? cmd params tr?).command
        (renderedMsg p? cmd params tr?).params
        (renderedMsg p? cmd params tr?).trailing = .ok s →
      parse s = some (renderedMsg p? cmd params tr?) := by
  have hp' : ∀ p, p? = some p → ' ' ∉ p := by
    intro p hep
    have hv := hp p hep
    unfold validPfx at hv
    simp only [Bool.and_eq_true, decide_eq_true_eq] at hv
    exact hv.1.1
  have h1 := parse_renderMsg p? cmd params tr? hp' hcmd hparams
  refine ⟨h1, ?_⟩
  intro s hs
  simp only [renderedMsg] at hs
  have hs' := buildCommandMessage_ok_render _ _ _ _ hs
  subst hs'
  have h2 := parse_renderMsg (some (p?.getD [])) cmd params
      (if (tr?.getD []).isEmpty then none else some (tr?.getD []))
      (by
        intro p hep
        injection hep with hep
        subst hep
        cases hpq : p? with
        | none => simp
        | some q => exact hp' q hpq)
      hcmd hparams
  rw [h2]
  congr 1
  unfold renderedMsg
  cases tr? with
  | none => simp
  | some t =>
    by_cases ht : t.isEmpty
    · have : t = [] := by
        cases t with
        | nil => rfl
        | cons a l => simp at ht
      subst this
      simp
    · simp [ht]

/-- Witness: a prefixed PRIVMSG line round-trips through parse and the
builder unchanged. -/
theorem C5_parse_build_roundtrip_witness :
    parse (renderMsg (some (str "nick!u@h")) (str "PRIVMSG") [str "#chan"]
        (some (str "Hello there")))
      = some (renderedMsg (some (str "nick!u@h")) (str "PRIVMSG")
          [str "#chan"] (some (str "Hello there")))
  ∧ parse (str ":nick!u@h PRIVMSG #chan :Hello there" ++ ['\r', '\n'])
      = some (renderedMsg (some (str "nick!u@h")) (str "PRIVMSG")
          [str "#chan"] (some (str "Hello there"))) := by
  have h := C5_parse_build_roundtrip (some (str "nick!u@h")) (str "PRIVMSG")
    [str "#chan"] (some (str "Hello there"))
    (fun p hep => by cases hep; decide)
    (by decide)
    (fun q hq => by rw [List.mem_singleton.mp hq]; decide)
    (fun t hte => by cases hte; decide)
  exact ⟨h.1, h.2 (str ":nick!u@h PRIVMSG #chan :Hello there" ++ ['\r', '\n'])
    (by rfl)⟩

set_option maxRecDepth 8192 in
/-- C5 as stated is false at the 512-byte ceiling: this 511-byte raw line
(one 509-letter command, no prefix) is a well-formed wire message within
the 512-byte maximum and parses fine, but formatting the parse result
prepends ": " for the absent prefix, pushing the rebuilt message to 513
bytes, so the builder throws MessageTooLong instead of round-tripping. -/
theorem C5_roundtrip_fails_at_512_ceiling :
    (renderMsg none (List.replicate 509 'A') [] none).length ≤ 512
  ∧ validTok (List.replicate 509 'A') = true
  ∧ parse (renderMsg none (List.replicate 509 'A') [] none)
      = some ⟨[], List.replicate 509 'A', [], []⟩
  ∧ buildCommandMessage [] (List.replicate 509 'A') [] [] = .error () := by
  have hvt : validTok (List.replicate 509 'A') = true := by
    rw [show List.replicate 509 'A' = 'A' :: List.replicate 508 'A' from rfl]
    unfold validTok
    simp [List.mem_replicate]
  refine ⟨?_, hvt, ?_, ?_⟩
  · simp [renderMsg, List.length_replicate]
  · have h := parse_renderMsg none (List.replicate 509 'A') [] none
      (fun p hep => Option.noConfusion hep) hvt (fun q hq => absurd hq (List.not_mem_nil q))
    rw [h]
    rfl
  · rw [buildCommandMessage_eq_render]
    have hlen : validateLength (renderMsg (some []) (List.replicate 509 'A') []
        (if ([] : Str).isEmpty then none else some [])) = false := by
      unfold validateLength MAX_MESSAGE_LENGTH
      simp [renderMsg, List.length_replicate]
    rw [hlen]
    rfl

/-! ## Claim C7: a PART, KICK or QUIT that empties a channel removes it -/

theorem mem_eraseA {α β : Type} [DecidableEq α] {k : α} {p : α × β} :
    ∀ {l : List (α × β)}, p ∈ eraseA k l → p ∈ l
  | [], h => absurd h (List.not_mem_nil p)
  | (k', v) :: rest, h => by
    by_cases hk : k = k'
    · rw [eraseA, if_pos hk] at h
      exact List.mem_cons_of_mem _ h
    · rw [eraseA, if_neg hk] at h
      rcases List.mem_cons.1 h with h1 | h1
      · exact h1 ▸ List.mem_cons_self _ _
      · exact List.mem_cons_of_mem _ (mem_eraseA h1)

theorem mem_updateA {α β : Type} [DecidableEq α] {k : α} {f : β → β} {p : α × β} :
    ∀ {l : List (α × β)}, p ∈ updateA k f l →
      p ∈ l ∨ ∃ v, lookupA k l = some v ∧ p = (k, f v)
  | [], h => absurd h (List.not_mem_nil p)
  | (k', v) :: rest, h => by
    by_cases hk : k = k'
    · rw [updateA, if_pos hk] at h
      rcases List.mem_cons.1 h with h1 | h1
      · exact Or.inr ⟨v, by rw [lookupA, if_pos hk], by rw [h1, hk]⟩
      · exact Or.inl (List.mem_cons_of_mem _ h1)
    · rw [updateA, if_neg hk] at h
      rcases List.mem_cons.1 h with h1 | h1
      · exact Or.inl (h1 ▸ List.mem_cons_self _ _)
      · rcases mem_updateA h1 with h2 | ⟨w, hw1, hw2⟩
        · exact Or.inl (List.mem_cons_of_mem _ h2)
        · exact Or.inr ⟨w, by rw [lookupA, if_neg hk]; exact hw1, hw2⟩

theorem updateA_keys {α β : Type} [DecidableEq α] (k : α) (f : β → β) :
    ∀ l : List (α × β), (updateA k f l).map Prod.fst = l.map Prod.fst
  | [] => rfl
  | (k', v) :: rest => by
    by_cases hk : k = k'
    · simp only [updateA, if_pos hk, List.map_cons]
    · simp only [updateA, if_neg hk, List.map_cons, updateA_keys k f rest]

theorem eraseA_updateA {α β : Type} [DecidableEq α] (k : α) (f : β → β) :
    ∀ l : List (α × β), eraseA k (updateA k f l) = eraseA k l
  | [] => rfl
  | (k', v) :: rest => by
    by_cases hk : k = k'
    · simp only [updateA, eraseA, if_pos hk]
    · simp only [updateA, eraseA, if_neg hk, eraseA_updateA k f rest]

theorem eraseA_sublist {α β : Type} [DecidableEq α] (k : α) :
    ∀ l : List (α × β), List.Sublist (eraseA k l) l
  | [] => List.Sublist.slnil
  | (k', v) :: rest => by
    by_cases hk : k = k'
    · rw [eraseA, if_pos hk]
      exact (List.Sublist.refl rest).cons _
    · rw [eraseA, if_neg hk]
      exact (eraseA_sublist k rest).cons₂ _

theorem not_key_mem_eraseA {α β : Type} [DecidableEq α] {k : α} {p : α × β} :
    ∀ {l : List (α × β)}, (l.map Prod.fst).Nodup → p ∈ eraseA k l → p.1 ≠ k
  | [], _, h => absurd h (List.not_mem_nil p)
  | (k', v) :: rest, hnd, h => by
    rw [List.map_cons] at hnd
    rcases List.nodup_cons.1 hnd with ⟨hk', hrest⟩
    by_cases hk : k = k'
    · rw [eraseA, if_pos hk] at h
      intro hpk
      have hm : p.1 ∈ rest.map Prod.fst := List.mem_map_of_mem Prod.fst h
      exact hk' ((hpk.trans hk) ▸ hm)
    · rw [eraseA, if_neg hk] at h
      rcases List.mem_cons.1 h with h1 | h1
      · rw [h1]
        exact fun hh => hk hh.symm
      · exact not_key_mem_eraseA hrest h1

theorem lookupA_self_of_nodup {α β : Type} [DecidableEq α] {p : α × β} :
    ∀ {l : List (α × β)}, (l.map Prod.fst).Nodup → p ∈ l →
      lookupA p.1 l = some p.2
  | [], _, h => absurd h (List.not_mem_nil p)
  | (k', v) :: rest, hnd, h => by
    rw [List.map_cons] at hnd
    rcases List.nodup_cons.1 hnd with ⟨hk', hrest⟩
    rcases List.mem_cons.1 h with h1 | h1
    · rw [h1, lookupA, if_pos rfl]
    · have hne : p.1 ≠ k' := fun hh => by
        have hm : p.1 ∈ rest.map Prod.fst := List.mem_map_of_mem Prod.fst h1
        exact hk' (hh ▸ hm)
      rw [lookupA, if_neg hne, lookupA_self_of_nodup hrest h1]

theorem chansNonempty_of_channels_eq {st st' : Server}
    (h : st'.channels = st.channels) (hne : chansNonempty st) :
    chansNonempty st' := fun p hp => hne p (h ▸ hp)

/-- The shared tail of handlePart and handleKick: broadcast, strip the
member, then drop the channel exactly when the membership became empty. -/
theorem part_tail_nonempty (st : Server) (fd : Int) (name : Str)
    (chan : Channel) (pm : Str) (hchan : lookupA name st.channels = some chan)
    (hne : chansNonempty st) :
    chansNonempty
      (if (setErase fd chan.members).isEmpty then
        (updChan (broadcastToChannel st chan.members pm (-1)) name
          (fun ch => ch.removeMember fd)).removeChannel name
      else
        updChan (broadcastToChannel st chan.members pm (-1)) name
          (fun ch => ch.removeMember fd)) := by
  by_cases hE : (setErase fd chan.members).isEmpty = true
  · rw [if_pos hE]
    intro p hp
    have hp' : p ∈ eraseA name (updateA name (fun ch => ch.removeMember fd)
        (broadcastToChannel st chan.members pm (-1)).channels) := hp
    rw [broadcastToChannel_channels, eraseA_updateA] at hp'
    exact hne p (mem_eraseA hp')
  · rw [if_neg hE]
    intro p hp
    have hp' : p ∈ updateA name (fun ch => ch.removeMember fd)
        (broadcastToChannel st chan.members pm (-1)).channels := hp
    rw [broadcastToChannel_channels] at hp'
    rcases mem_updateA hp' with hmem | ⟨v, hv, hpv⟩
    · exact hne p hmem
    · have hvchan : v = chan := Option.some.inj (hv.symm.trans hchan)
      subst hvchan
      rw [hpv]
      intro h0
      apply hE
      have h0' : setErase fd v.members = [] := h0
      rw [h0']
      rfl

theorem handlePart_nonempty (st : Server) (fd : Int) (msg : Msg)
    (hne : chansNonempty st) : chansNonempty (handlePart st fd msg) := by
  unfold handlePart
  split
  · exact hne
  · split
    · exact chansNonempty_of_channels_eq (sendError_channels _ _ _ _ _) hne
    · split
      · exact chansNonempty_of_channels_eq (sendError_channels _ _ _ _ _) hne
      · try dsimp only
        split
        · exact chansNonempty_of_channels_eq (sendError_channels _ _ _ _ _) hne
        next chan hchan =>
          split
          · exact chansNonempty_of_channels_eq (sendError_channels _ _ _ _ _) hne
          · try dsimp only
            split
            · exact hne
            next pm hpm =>
              exact part_tail_nonempty st fd _ chan pm hchan hne

theorem handleKick_nonempty (st : Server) (fd : Int) (msg : Msg)
    (hne : chansNonempty st) : chansNonempty (handleKick st fd msg) := by
  unfold handleKick
  split
  · exact hne
  · split
    · exact chansNonempty_of_channels_eq (sendError_channels _ _ _ _ _) hne
    · split
      · exact chansNonempty_of_channels_eq (sendError_channels _ _ _ _ _) hne
      · try dsimp only
        split
        · exact chansNonempty_of_channels_eq (sendError_channels _ _ _ _ _) hne
        next chan hchan =>
          split
          · exact chansNonempty_of_channels_eq (sendError_channels _ _ _ _ _) hne
          · split
            · exact chansNonempty_of_channels_eq (sendError_channels _ _ _ _ _) hne
            · split
              · exact chansNonempty_of_channels_eq
                  (sendError_channels _ _ _ _ _) hne
              next targetFd htgt =>
                try dsimp only
                split
                · exact hne
                next km hkm =>
                  exact part_tail_nonempty st targetFd _ chan km hchan hne

/-- The per-channel step of handleQuit's membership sweep, named so the
fold can be reasoned about; it is definitionally the handler's lambda. -/
def quitStepF (fd : Int) (quitMsg : Str) (acc : Server × List Str)
    (nc : Str × Channel) : Server × List Str :=
  if nc.2.isMember fd then
    let st1 := broadcastToChannel acc.1 nc.2.members quitMsg (-1)
    let st1 := updChan st1 nc.1 (fun ch => ch.removeMember fd)
    let newMembers := setErase fd nc.2.members
    if newMembers.isEmpty then (st1, acc.2 ++ [nc.1]) else (st1, acc.2)
  else acc

/-- Invariant of the QUIT sweep: every channel seen so far is nonempty or
marked for removal, the key list never changes, and the iterated entries
stay in sync with the mutated registry as long as the keys are distinct. -/
theorem quitFold_inv (fd : Int) (quitMsg : Str) :
    ∀ (es : List (Str × Channel)) (acc : Server × List Str),
      (∀ p ∈ acc.1.channels, p.2.members ≠ [] ∨ p.1 ∈ acc.2) →
      (∀ p ∈ es, lookupA p.1 acc.1.channels = some p.2) →
      (es.map Prod.fst).Nodup →
      (∀ p ∈ (es.foldl (quitStepF fd quitMsg) acc).1.channels,
          p.2.members ≠ [] ∨ p.1 ∈ (es.foldl (quitStepF fd quitMsg) acc).2)
        ∧ (es.foldl (quitStepF fd quitMsg) acc).1.channels.map Prod.fst
            = acc.1.channels.map Prod.fst
  | [], acc, hinv, _, _ => ⟨hinv, rfl⟩
  | nc :: es, acc, hinv, hagree, hnd => by
    rw [List.map_cons] at hnd
    rcases List.nodup_cons.1 hnd with ⟨hkey, hnd'⟩
    rw [List.foldl_cons]
    by_cases hm : nc.2.isMember fd = true
    · have hstep : quitStepF fd quitMsg acc nc =
          (updChan (broadcastToChannel acc.1 nc.2.members quitMsg (-1)) nc.1
            (fun ch => ch.removeMember fd),
           if (setErase fd nc.2.members).isEmpty then acc.2 ++ [nc.1]
           else acc.2) := by
        unfold quitStepF
        rw [if_pos hm]
        dsimp only
        split
        next _hE => rfl
        next _hE => rfl
      rw [hstep]
      have hch : (updChan (broadcastToChannel acc.1 nc.2.members quitMsg (-1))
          nc.1 (fun ch => ch.removeMember fd)).channels
          = updateA nc.1 (fun ch => ch.removeMember fd) acc.1.channels := by
        show updateA nc.1 (fun ch => ch.removeMember fd)
            (broadcastToChannel acc.1 nc.2.members quitMsg (-1)).channels = _
        rw [broadcastToChannel_channels]
      have hinv' : ∀ p ∈ (updChan (broadcastToChannel acc.1 nc.2.members
            quitMsg (-1)) nc.1 (fun ch => ch.removeMember fd),
          if (setErase fd nc.2.members).isEmpty then acc.2 ++ [nc.1]
          else acc.2).1.channels,
          p.2.members ≠ [] ∨ p.1 ∈ (updChan (broadcastToChannel acc.1
            nc.2.members quitMsg (-1)) nc.1 (fun ch => ch.removeMember fd),
          if (setErase fd nc.2.members).isEmpty then acc.2 ++ [nc.1]
          else acc.2).2 := by
        intro p hp
        dsimp only at hp ⊢
        rw [hch] at hp
        rcases mem_updateA hp with hmem | ⟨v, hv, hpv⟩
        · rcases hinv p hmem with h | h
          · exact Or.inl h
          · refine Or.inr ?_
            split
            · exact List.mem_append_left _ h
            · exact h
        · have hvnc : v = nc.2 :=
            Option.some.inj (hv.symm.trans (hagree nc (List.mem_cons_self nc es)))
          subst hvnc
          by_cases hE : (setErase fd nc.2.members).isEmpty = true
          · refine Or.inr ?_
            rw [if_pos hE, hpv]
            exact List.mem_append_right _ (List.mem_cons_self _ _)
          · refine Or.inl ?_
            rw [hpv]
            intro h0
            apply hE
            have h0' : setErase fd nc.2.members = [] := h0
            rw [h0']
            rfl
      have hagree' : ∀ q ∈ es, lookupA q.1 (updChan (broadcastToChannel acc.1
            nc.2.members quitMsg (-1)) nc.1 (fun ch => ch.removeMember fd),
          if (setErase fd nc.2.members).isEmpty then acc.2 ++ [nc.1]
          else acc.2).1.channels = some q.2 := by
        intro q hq
        dsimp only
        rw [hch]
        have hqk : q.1 ≠ nc.1 := fun hh => by
          have hmm : q.1 ∈ es.map Prod.fst := List.mem_map_of_mem Prod.fst hq
          exact hkey (hh ▸ hmm)
        rw [lookupA_updateA_ne _ _ hqk]
        exact hagree q (List.mem_cons_of_mem _ hq)
      have main := quitFold_inv fd quitMsg es _ hinv' hagree' hnd'
      refine ⟨main.1, ?_⟩
      rw [main.2]
      dsimp only
      rw [hch, updateA_keys]
    · have hstep : quitStepF fd quitMsg acc nc = acc := by
        unfold quitStepF
        rw [if_neg hm]
      rw [hstep]
      exact quitFold_inv fd quitMsg es acc hinv
        (fun q hq => hagree q (List.mem_cons_of_mem _ hq)) hnd'

/-- The removal sweep that follows: erasing every marked name leaves only
nonempty channels, when the names were the marked ones and keys distinct. -/
theorem removeFold_nonempty :
    ∀ (rem : List Str) (st : Server),
      (st.channels.map Prod.fst).Nodup →
      (∀ p ∈ st.channels, p.2.members ≠ [] ∨ p.1 ∈ rem) →
      chansNonempty (rem.foldl (fun s n => s.removeChannel n) st)
  | [], st, _, hinv => by
    intro p hp
    rcases hinv p hp with h | h
    · exact h
    · exact absurd h (List.not_mem_nil _)
  | n :: rest, st, hnd, hinv => by
    rw [List.foldl_cons]
    have hnd2 : ((st.removeChannel n).channels.map Prod.fst).Nodup := by
      show ((eraseA n st.channels).map Prod.fst).Nodup
      exact List.Nodup.sublist ((eraseA_sublist n st.channels).map Prod.fst) hnd
    apply removeFold_nonempty rest (st.removeChannel n) hnd2
    intro p hp
    have hp' : p ∈ eraseA n st.channels := hp
    rcases hinv p (mem_eraseA hp') with h | h
    · exact Or.inl h
    · rcases List.mem_cons.1 h with h1 | h1
      · exact absurd h1 (not_key_mem_eraseA hnd hp')
      · exact Or.inr h1

theorem handleQuit_nonempty (st : Server) (fd : Int) (msg : Msg)
    (hnd : chanKeysNodup st) (hne : chansNonempty st) :
    chansNonempty (handleQuit st fd msg) := by
  unfold handleQuit
  split
  · exact hne
  next c _hc =>
    dsimp only
    split
    · split
      · exact hne
      next quitMsg hq =>
        apply chansNonempty_of_channels_eq (updClient_channels _ _ _)
        show chansNonempty
          ((st.channels.foldl (quitStepF fd quitMsg) (st, [])).2.foldl
            (fun s n => s.removeChannel n)
            (st.channels.foldl (quitStepF fd quitMsg) (st, [])).1)
        have main := quitFold_inv fd quitMsg st.channels (st, [])
          (fun p hp => Or.inl (hne p hp))
          (fun p hp => lookupA_self_of_nodup hnd hp)
          hnd
        exact removeFold_nonempty _ _ (by rw [main.2]; exact hnd) main.1
    · exact chansNonempty_of_channels_eq (updClient_channels _ _ _) hne

/-- C7: whenever a PART, KICK or QUIT command removes a channel's last
member, the same command also removes the channel from the Registry: on
any server state whose channel names are distinct (as std::map keys are)
and whose channels all have at least one member, dispatching any PART,
KICK or QUIT leaves no zero-member channel behind. -/
theorem C7_last_member_removal_erases_channel (st : Server) (fd : Int)
    (msg : Msg) (hnd : chanKeysNodup st) (hne : chansNonempty st) :
    chansNonempty (handlePart st fd msg)
      ∧ chansNonempty (handleKick st fd msg)
      ∧ chansNonempty (handleQuit st fd msg) :=
  ⟨handlePart_nonempty st fd msg hne, handleKick_nonempty st fd msg hne,
    handleQuit_nonempty st fd msg hnd hne⟩

theorem C7_last_member_removal_erases_channel_witness :
    chanKeysNodup demoSt ∧ chansNonempty demoSt ∧
      (chansNonempty (handlePart demoSt 1 ⟨[], str "PART", [str "#c"], []⟩)
        ∧ chansNonempty (handleKick demoSt 1 ⟨[], str "PART", [str "#c"], []⟩)
        ∧ chansNonempty (handleQuit demoSt 1 ⟨[], str "PART", [str "#c"], []⟩)) :=
  ⟨by show (demoSt.channels.map Prod.fst).Nodup; decide,
    by show ∀ p ∈ demoSt.channels, p.2.members ≠ []; decide,
    C7_last_member_removal_erases_channel demoSt 1
      ⟨[], str "PART", [str "#c"], []⟩
      (by show (demoSt.channels.map Prod.fst).Nodup; decide)
      (by show ∀ p ∈ demoSt.channels, p.2.members ≠ []; decide)⟩

/-! ## Claim C10: the name field of Registry channels stays empty

The only ways the channel map ever changes are Server::createChannel
(which emplaces a default-constructed Channel), mutations through a
Channel pointer (none of which assign m_name), and map erasure.  The
relation chanNamesFrom tracks this: every channel value after a step has
an empty name or the name of some channel value before the step. -/

theorem lookupA_mem {α β : Type} [DecidableEq α] {k : α} {v : β} :
    ∀ {l : List (α × β)}, lookupA k l = some v → (k, v) ∈ l
  | [], h => Option.noConfusion h
  | (k', w) :: rest, h => by
    by_cases hk : k = k'
    · rw [lookupA, if_pos hk] at h
      cases hk
      cases Option.some.inj h
      exact List.mem_cons_self _ _
    · rw [lookupA, if_neg hk] at h
      exact List.mem_cons_of_mem _ (lookupA_mem h)

/-- Every channel value of st' takes its name from st (or is freshly
default-constructed with an empty name). -/
def chanNamesFrom (st st' : Server) : Prop :=
  ∀ p ∈ st'.channels, p.2.name = [] ∨ ∃ q ∈ st.channels, p.2.name = q.2.name

theorem chanNamesFrom_refl (st : Server) : chanNamesFrom st st :=
  fun p hp => Or.inr ⟨p, hp, rfl⟩

theorem chanNamesFrom_trans {a b c : Server} (h1 : chanNamesFrom a b)
    (h2 : chanNamesFrom b c) : chanNamesFrom a c := by
  intro p hp
  rcases h2 p hp with h | ⟨q, hq, he⟩
  · exact Or.inl h
  · rcases h1 q hq with h | ⟨r, hr, he2⟩
    · exact Or.inl (he.trans h)
    · exact Or.inr ⟨r, hr, he.trans he2⟩

theorem chanNamesFrom_of_channels_eq {st st' : Server}
    (h : st'.channels = st.channels) : chanNamesFrom st st' :=
  fun p hp => Or.inr ⟨p, h ▸ hp, rfl⟩

theorem chanNamesEmpty_of_from {st st' : Server} (h : chanNamesFrom st st')
    (he : chanNamesEmpty st) : chanNamesEmpty st' := by
  intro p hp
  rcases h p hp with h1 | ⟨q, hq, he2⟩
  · exact h1
  · exact he2.trans (he q hq)

theorem chanNamesFrom_updChan (st : Server) (name : Str)
    (f : Channel → Channel) (hf : ∀ ch, (f ch).name = ch.name) :
    chanNamesFrom st (updChan st name f) := by
  intro p hp
  have hp' : p ∈ updateA name f st.channels := hp
  rcases mem_updateA hp' with hmem | ⟨v, hv, hpv⟩
  · exact Or.inr ⟨p, hmem, rfl⟩
  · refine Or.inr ⟨(name, v), lookupA_mem hv, ?_⟩
    rw [hpv]
    exact hf v

theorem chanNamesFrom_createChannel (st : Server) (name : Str) :
    chanNamesFrom st (st.createChannel name) := by
  intro p hp
  cases hluk : lookupA name st.channels with
  | some c =>
    have hst : st.createChannel name = st := by
      unfold Server.createChannel
      rw [hluk]
    rw [hst] at hp
    exact Or.inr ⟨p, hp, rfl⟩
  | none =>
    have hc : (st.createChannel name).channels
        = st.channels ++ [(name, Channel.init)] := by
      unfold Server.createChannel
      rw [hluk]
    rw [hc] at hp
    rcases List.mem_append.1 hp with h1 | h1
    · exact Or.inr ⟨p, h1, rfl⟩
    · have h2 := List.mem_singleton.1 h1
      exact Or.inl (by rw [h2]; rfl)

theorem chanNamesFrom_removeChannel (st : Server) (name : Str) :
    chanNamesFrom st (st.removeChannel name) :=
  fun p hp =>
    Or.inr ⟨p, mem_eraseA (show p ∈ eraseA name st.channels from hp), rfl⟩

theorem recordApplied_st (a : ModeAcc) (c : Char) :
    (recordApplied a c).st = a.st := by
  unfold recordApplied
  dsimp only
  split <;> rfl

theorem sendWelcome_channels (st : Server) (fd : Int) :
    (sendWelcome st fd).channels = st.channels := by
  unfold sendWelcome
  split
  · rfl
  · split
    · rfl
    · try dsimp only
      split
      · simp only [sendReplyTo_channels]
      · try dsimp only
        split
        · simp only [sendReplyTo_channels]
        · try dsimp only
          split
          · simp only [sendReplyTo_channels]
          · simp only [sendReplyTo_channels]

theorem checkRegistration_channels (st : Server) (fd : Int) :
    (checkRegistration st fd).channels = st.channels := by
  unfold checkRegistration
  split
  · rfl
  · split
    · rw [sendWelcome_channels]
      rfl
    · rfl

theorem handlePass_channels (st : Server) (fd : Int) (msg : Msg) :
    (handlePass st fd msg).channels = st.channels := by
  unfold handlePass
  split
  · rfl
  · split
    · exact sendError_channels _ _ _ _ _
    · split
      · exact sendError_channels _ _ _ _ _
      · try dsimp only
        split
        · rw [checkRegistration_channels]
          rfl
        · exact sendError_channels _ _ _ _ _

theorem handleUser_channels (st : Server) (fd : Int) (msg : Msg) :
    (handleUser st fd msg).channels = st.channels := by
  unfold handleUser
  split
  · rfl
  · split
    · exact sendError_channels _ _ _ _ _
    · split
      · exact sendError_channels _ _ _ _ _
      · try dsimp only
        rw [checkRegistration_channels]
        rfl

theorem handlePing_channels (st : Server) (fd : Int) (msg : Msg) :
    (handlePing st fd msg).channels = st.channels := by
  unfold handlePing
  split
  · rfl
  · split
    · exact sendError_channels _ _ _ _ _
    · try dsimp only
      split
      · rfl
      · exact sendReplyTo_channels _ _ _

theorem handleCap_channels (st : Server) (fd : Int) (msg : Msg) :
    (handleCap st fd msg).channels = st.channels := by
  unfold handleCap
  split
  · rfl
  · split
    · rfl
    · try dsimp only
      split
      · exact sendReplyTo_channels _ _ _
      · split
        · rfl
        · split
          · exact sendReplyTo_channels _ _ _
          · rfl

theorem handlePrivmsg_channels (st : Server) (fd : Int) (msg : Msg) :
    (handlePrivmsg st fd msg).channels = st.channels := by
  unfold handlePrivmsg
  split
  · rfl
  · split
    · exact sendError_channels _ _ _ _ _
    · split
      · exact sendError_channels _ _ _ _ _
      · split
        · exact sendError_channels _ _ _ _ _
        · try dsimp only
          split
          · split
            · exact sendError_channels _ _ _ _ _
            · split
              · exact sendError_channels _ _ _ _ _
              · split
                · rfl
                · exact broadcastToChannel_channels _ _ _ _
          · split
            · exact sendError_channels _ _ _ _ _
            · split
              · rfl
              · exact sendReplyTo_channels _ _ _

theorem handleNotice_channels (st : Server) (fd : Int) (msg : Msg) :
    (handleNotice st fd msg).channels = st.channels := by
  unfold handleNotice
  split
  · rfl
  · split
    · rfl
    · split
      · rfl
      · split
        · rfl
        · try dsimp only
          split
          · split
            · rfl
            · split
              · rfl
              · split
                · rfl
                · exact broadcastMembers_channels _ _ _ _
          · split
            · rfl
            · split
              · rfl
              · exact sendReplyTo_channels _ _ _

theorem nickFold_channels (fd : Int) (m : Str) :
    ∀ (es : List (Str × Channel)) (s : Server),
      (es.foldl
        (fun acc nc =>
          if nc.2.isMember fd then broadcastToChannel acc nc.2.members m fd
          else acc) s).channels = s.channels
  | [], _ => rfl
  | nc :: es, s => by
    rw [List.foldl_cons, nickFold_channels fd m es]
    split
    · exact broadcastToChannel_channels _ _ _ _
    · rfl

theorem handleNick_channels (st : Server) (fd : Int) (msg : Msg) :
    (handleNick st fd msg).channels = st.channels := by
  unfold handleNick
  split
  · rfl
  · split
    · exact sendError_channels _ _ _ _ _
    · try dsimp only
      split
      · exact sendError_channels _ _ _ _ _
      · split
        · exact sendError_channels _ _ _ _ _
        · rw [checkRegistration_channels]
          split
          · rw [nickFold_channels]
            simp only [sendReplyTo_channels, updClient_channels]
          · rfl

theorem whoFold_channels (fd : Int) (c : Client) (target : Str)
    (chan : Channel) :
    ∀ (ms : List Int) (s : Server),
      (ms.foldl
        (fun acc m =>
          match lookupA m acc.clients with
          | none => acc
          | some member =>
            sendReplyTo acc fd (whoLine c target member
              (if chan.isOperator member.fd then str "H@" else str "H"))) s
        ).channels = s.channels
  | [], _ => rfl
  | m :: ms, s => by
    rw [List.foldl_cons, whoFold_channels fd c target chan ms]
    split
    · rfl
    · exact sendReplyTo_channels _ _ _

theorem handleWho_channels (st : Server) (fd : Int) (msg : Msg) :
    (handleWho st fd msg).channels = st.channels := by
  unfold handleWho
  split
  · rfl
  · split
    · exact sendError_channels _ _ _ _ _
    · split
      · exact sendError_channels _ _ _ _ _
      · try dsimp only
        split
        · split
          · exact sendNumeric_channels _ _ _ _
          next chan _ =>
            rw [sendNumeric_channels]
            exact whoFold_channels fd _ _ chan chan.members st
        · split
          next tc _ =>
            rw [sendNumeric_channels]
            split
            · exact sendReplyTo_channels _ _ _
            · rfl
          · exact sendNumeric_channels _ _ _ _

theorem userModeStep_channels (fd : Int) (a : ModeAcc) (c : Char) :
    (userModeStep fd a c).st.channels = a.st.channels := by
  unfold userModeStep
  split
  · rfl
  · try dsimp only
    split
    · split
      · rw [recordApplied_st]; rfl
      · rfl
    · split
      · split
        · split
          · rw [recordApplied_st]; rfl
          · rfl
        · rfl
      · exact sendError_channels _ _ _ _ _

theorem userModeFold_channels (fd : Int) :
    ∀ (cs : Str) (a : ModeAcc),
      ((cs.foldl (userModeStep fd) a).st).channels = a.st.channels
  | [], _ => rfl
  | c :: cs, a => by
    rw [List.foldl_cons, userModeFold_channels fd cs, userModeStep_channels]

theorem handleUserMode_channels (st : Server) (fd : Int) (msg : Msg)
    (target : Str) :
    (handleUserMode st fd msg target).channels = st.channels := by
  unfold handleUserMode
  split
  · rfl
  · split
    · exact sendError_channels _ _ _ _ _
    · split
      · exact sendReplyTo_channels _ _ _
      · try dsimp only
        split
        · split
          · exact userModeFold_channels fd _ _
          · rw [sendReplyTo_channels]
            exact userModeFold_channels fd _ _
        · exact userModeFold_channels fd _ _

theorem joinSteps_namesFrom (st : Server) (fd : Int) (channelName : Str)
    (c : Client) : chanNamesFrom st (joinSteps st fd channelName c) := by
  have h2 : chanNamesFrom st
      (updChan (updChan st channelName (fun ch => ch.addMember fd)) channelName
        (fun ch => if ch.isInvited fd then ch.removeInvited fd else ch)) := by
    refine chanNamesFrom_trans (chanNamesFrom_updChan _ _ _ ?_)
      (chanNamesFrom_updChan _ _ _ ?_)
    · intro ch
      rfl
    · intro ch
      dsimp only
      split <;> rfl
  unfold joinSteps
  try dsimp only
  split
  · exact h2
  · split
    · exact h2
    · refine chanNamesFrom_trans h2 (chanNamesFrom_of_channels_eq ?_)
      split
      · simp only [sendReplyTo_channels, broadcastToChannel_channels]
      · simp only [sendReplyTo_channels, broadcastToChannel_channels]

theorem handleJoin_namesFrom (st : Server) (fd : Int) (msg : Msg) :
    chanNamesFrom st (handleJoin st fd msg) := by
  unfold handleJoin
  split
  · exact chanNamesFrom_refl _
  · split
    · exact chanNamesFrom_of_channels_eq (sendError_channels _ _ _ _ _)
    · split
      · exact chanNamesFrom_of_channels_eq (sendError_channels _ _ _ _ _)
      · try dsimp only
        split
        · exact chanNamesFrom_of_channels_eq (sendError_channels _ _ _ _ _)
        · split
          · refine chanNamesFrom_trans
              (chanNamesFrom_trans (chanNamesFrom_createChannel _ _)
                (chanNamesFrom_updChan _ _ _ ?_))
              (joinSteps_namesFrom _ _ _ _)
            intro ch
            rfl
          · split
            · exact chanNamesFrom_of_channels_eq (sendError_channels _ _ _ _ _)
            · split
              · exact chanNamesFrom_of_channels_eq (sendError_channels _ _ _ _ _)
              · split
                · exact chanNamesFrom_of_channels_eq
                    (sendError_channels _ _ _ _ _)
                · exact joinSteps_namesFrom _ _ _ _

theorem part_tail_namesFrom (st : Server) (fd : Int) (name : Str)
    (ms : List Int) (pm : Str) (b : Bool) :
    chanNamesFrom st
      (if b then
        (updChan (broadcastToChannel st ms pm (-1)) name
          (fun ch => ch.removeMember fd)).removeChannel name
      else
        updChan (broadcastToChannel st ms pm (-1)) name
          (fun ch => ch.removeMember fd)) := by
  have h1 : chanNamesFrom st (updChan (broadcastToChannel st ms pm (-1)) name
      (fun ch => ch.removeMember fd)) := by
    refine chanNamesFrom_trans
      (chanNamesFrom_of_channels_eq (broadcastToChannel_channels _ _ _ _))
      (chanNamesFrom_updChan _ _ _ ?_)
    intro ch
    rfl
  split
  · exact chanNamesFrom_trans h1 (chanNamesFrom_removeChannel _ _)
  · exact h1

theorem handlePart_namesFrom (st : Server) (fd : Int) (msg : Msg) :
    chanNamesFrom st (handlePart st fd msg) := by
  unfold handlePart
  split
  · exact chanNamesFrom_refl _
  · split
    · exact chanNamesFrom_of_channels_eq (sendError_channels _ _ _ _ _)
    · split
      · exact chanNamesFrom_of_channels_eq (sendError_channels _ _ _ _ _)
      · try dsimp only
        split
        · exact chanNamesFrom_of_channels_eq (sendError_channels _ _ _ _ _)
        · split
          · exact chanNamesFrom_of_channels_eq (sendError_channels _ _ _ _ _)
          · try dsimp only
            split
            · exact chanNamesFrom_refl _
            · exact part_tail_namesFrom _ _ _ _ _ _

theorem handleKick_namesFrom (st : Server) (fd : Int) (msg : Msg) :
    chanNamesFrom st (handleKick st fd msg) := by
  unfold handleKick
  split
  · exact chanNamesFrom_refl _
  · split
    · exact chanNamesFrom_of_channels_eq (sendError_channels _ _ _ _ _)
    · split
      · exact chanNamesFrom_of_channels_eq (sendError_channels _ _ _ _ _)
      · try dsimp only
        split
        · exact chanNamesFrom_of_channels_eq (sendError_channels _ _ _ _ _)
        · split
          · exact chanNamesFrom_of_channels_eq (sendError_channels _ _ _ _ _)
          · split
            · exact chanNamesFrom_of_channels_eq (sendError_channels _ _ _ _ _)
            · split
              · exact chanNamesFrom_of_channels_eq
                  (sendError_channels _ _ _ _ _)
              · try dsimp only
                split
                · exact chanNamesFrom_refl _
                · exact part_tail_namesFrom _ _ _ _ _ _

theorem handleInvite_namesFrom (st : Server) (fd : Int) (msg : Msg) :
    chanNamesFrom st (handleInvite st fd msg) := by
  unfold handleInvite
  split
  · exact chanNamesFrom_refl _
  · split
    · exact chanNamesFrom_of_channels_eq (sendError_channels _ _ _ _ _)
    · split
      · exact chanNamesFrom_of_channels_eq (sendError_channels _ _ _ _ _)
      · try dsimp only
        split
        · exact chanNamesFrom_of_channels_eq (sendError_channels _ _ _ _ _)
        · split
          · exact chanNamesFrom_of_channels_eq (sendError_channels _ _ _ _ _)
          · split
            · exact chanNamesFrom_of_channels_eq (sendError_channels _ _ _ _ _)
            · try dsimp only
              split
              · exact chanNamesFrom_of_channels_eq
                  (sendError_channels _ _ _ _ _)
              next targetFd _ =>
                split
                · exact chanNamesFrom_of_channels_eq
                    (sendError_channels _ _ _ _ _)
                · refine chanNamesFrom_trans
                    (chanNamesFrom_updChan st (msg.params[1]?.getD [])
                      (fun ch => ch.addInvited targetFd) (fun ch => rfl))
                    (chanNamesFrom_of_channels_eq ?_)
                  split
                  · rfl
                  · rw [sendNumeric_channels, sendReplyTo_channels]

theorem handleTopic_namesFrom (st : Server) (fd : Int) (msg : Msg) :
    chanNamesFrom st (handleTopic st fd msg) := by
  unfold handleTopic
  split
  · exact chanNamesFrom_refl _
  · split
    · exact chanNamesFrom_of_channels_eq (sendError_channels _ _ _ _ _)
    · split
      · exact chanNamesFrom_of_channels_eq (sendError_channels _ _ _ _ _)
      · try dsimp only
        split
        · exact chanNamesFrom_of_channels_eq (sendError_channels _ _ _ _ _)
        · split
          · exact chanNamesFrom_of_channels_eq (sendError_channels _ _ _ _ _)
          · split
            · split
              · exact chanNamesFrom_of_channels_eq (sendReplyTo_channels _ _ _)
              · exact chanNamesFrom_of_channels_eq
                  (sendNumeric_channels _ _ _ _)
            · split
              · exact chanNamesFrom_of_channels_eq
                  (sendError_channels _ _ _ _ _)
              · refine chanNamesFrom_trans
                  (chanNamesFrom_updChan st (msg.params[0]?.getD [])
                    (fun ch => ch.setTopic msg.trailing) (fun ch => rfl))
                  (chanNamesFrom_of_channels_eq ?_)
                split
                · rfl
                · split
                  · rfl
                  · exact broadcastToChannel_channels _ _ _ _

theorem chanModeStep_namesFrom (fd : Int) (channelName : Str) (msg : Msg)
    (a : ModeAcc) (c : Char) :
    chanNamesFrom a.st (chanModeStep fd channelName msg a c).st := by
  unfold chanModeStep
  by_cases hpm : (decide (c = '+') || decide (c = '-')) = true
  · rw [if_pos hpm]
    exact chanNamesFrom_refl _
  · rw [if_neg hpm]
    try dsimp only
    generalize (a.st.findChannel channelName).getD Channel.init = chanv
    split
    · split
      · rw [recordApplied_st]
        refine chanNamesFrom_updChan _ _ _ ?_
        intro ch
        rfl
      · exact chanNamesFrom_refl _
    · split
      · split
        · rw [recordApplied_st]
          refine chanNamesFrom_updChan _ _ _ ?_
          intro ch
          rfl
        · exact chanNamesFrom_refl _
      · split
        · split
          · split
            · try dsimp only
              rw [recordApplied_st]
              refine chanNamesFrom_updChan _ _ _ ?_
              intro ch
              rfl
            · exact chanNamesFrom_refl _
          · rw [recordApplied_st]
            refine chanNamesFrom_updChan _ _ _ ?_
            intro ch
            rfl
        · split
          · split
            · try dsimp only
              split
              · exact chanNamesFrom_refl _
              · split
                · split
                  · try dsimp only
                    rw [recordApplied_st]
                    refine chanNamesFrom_updChan _ _ _ ?_
                    intro ch
                    rfl
                  · exact chanNamesFrom_refl _
                · split
                  · try dsimp only
                    rw [recordApplied_st]
                    refine chanNamesFrom_updChan _ _ _ ?_
                    intro ch
                    rfl
                  · exact chanNamesFrom_refl _
            · exact chanNamesFrom_refl _
          · split
            · split
              · split
                · try dsimp only
                  split
                  · split
                    · try dsimp only
                      rw [recordApplied_st]
                      refine chanNamesFrom_updChan _ _ _ ?_
                      intro ch
                      rfl
                    · exact chanNamesFrom_refl _
                  · exact chanNamesFrom_refl _
                · exact chanNamesFrom_refl _
              · rw [recordApplied_st]
                refine chanNamesFrom_updChan _ _ _ ?_
                intro ch
                rfl
            · exact chanNamesFrom_of_channels_eq (sendError_channels _ _ _ _ _)

theorem chanModeFold_namesFrom (fd : Int) (channelName : Str) (msg : Msg) :
    ∀ (cs : Str) (a : ModeAcc),
      chanNamesFrom a.st ((cs.foldl (chanModeStep fd channelName msg) a).st)
  | [], _ => chanNamesFrom_refl _
  | c :: cs, a => by
    rw [List.foldl_cons]
    exact chanNamesFrom_trans (chanModeStep_namesFrom fd channelName msg a c)
      (chanModeFold_namesFrom fd channelName msg cs _)

theorem handleChannelMode_namesFrom (st : Server) (fd : Int) (msg : Msg)
    (channelName : Str) :
    chanNamesFrom st (handleChannelMode st fd msg channelName) := by
  unfold handleChannelMode
  split
  · exact chanNamesFrom_of_channels_eq (sendError_channels _ _ _ _ _)
  · split
    · exact chanNamesFrom_of_channels_eq (sendError_channels _ _ _ _ _)
    · split
      · try dsimp only
        split
        · exact chanNamesFrom_refl _
        · exact chanNamesFrom_of_channels_eq (sendReplyTo_channels _ _ _)
      · split
        · exact chanNamesFrom_of_channels_eq (sendError_channels _ _ _ _ _)
        · try dsimp only
          split
          · split
            · exact chanModeFold_namesFrom fd _ msg _ _
            · split
              · exact chanModeFold_namesFrom fd _ msg _ _
              · split
                · exact chanModeFold_namesFrom fd _ msg _ _
                · exact chanNamesFrom_trans
                    (chanModeFold_namesFrom fd _ msg _ _)
                    (chanNamesFrom_of_channels_eq
                      (broadcastToChannel_channels _ _ _ _))
          · exact chanModeFold_namesFrom fd _ msg _ _

theorem handleMode_namesFrom (st : Server) (fd : Int) (msg : Msg) :
    chanNamesFrom st (handleMode st fd msg) := by
  unfold handleMode
  split
  · exact chanNamesFrom_refl _
  · split
    · exact chanNamesFrom_of_channels_eq (sendError_channels _ _ _ _ _)
    · split
      · exact chanNamesFrom_of_channels_eq (sendError_channels _ _ _ _ _)
      · try dsimp only
        split
        · exact handleChannelMode_namesFrom _ _ _ _
        · exact chanNamesFrom_of_channels_eq (handleUserMode_channels _ _ _ _)

theorem quitFold_namesFrom (fd : Int) (quitMsg : Str) :
    ∀ (es : List (Str × Channel)) (acc : Server × List Str),
      chanNamesFrom acc.1 (es.foldl (quitStepF fd quitMsg) acc).1
  | [], _ => chanNamesFrom_refl _
  | nc :: es, acc => by
    rw [List.foldl_cons]
    refine chanNamesFrom_trans ?_ (quitFold_namesFrom fd quitMsg es _)
    unfold quitStepF
    split
    · try dsimp only
      split
      · refine chanNamesFrom_trans
          (chanNamesFrom_of_channels_eq (broadcastToChannel_channels _ _ _ _))
          (chanNamesFrom_updChan _ _ _ ?_)
        intro ch
        rfl
      · refine chanNamesFrom_trans
          (chanNamesFrom_of_channels_eq (broadcastToChannel_channels _ _ _ _))
          (chanNamesFrom_updChan _ _ _ ?_)
        intro ch
        rfl
    · exact chanNamesFrom_refl _

theorem removeFold_namesFrom :
    ∀ (rem : List Str) (st : Server),
      chanNamesFrom st (rem.foldl (fun s n => s.removeChannel n) st)
  | [], _ => chanNamesFrom_refl _
  | n :: rest, st => by
    rw [List.foldl_cons]
    exact chanNamesFrom_trans (chanNamesFrom_removeChannel st n)
      (removeFold_namesFrom rest _)

theorem handleQuit_namesFrom (st : Server) (fd : Int) (msg : Msg) :
    chanNamesFrom st (handleQuit st fd msg) := by
  unfold handleQuit
  split
  · exact chanNamesFrom_refl _
  · try dsimp only
    split
    · split
      · exact chanNamesFrom_refl _
      next quitMsg hq =>
        refine chanNamesFrom_trans ?_
          (chanNamesFrom_of_channels_eq (updClient_channels _ _ _))
        show chanNamesFrom st
          ((st.channels.foldl (quitStepF fd quitMsg) (st, [])).2.foldl
            (fun s n => s.removeChannel n)
            (st.channels.foldl (quitStepF fd quitMsg) (st, [])).1)
        exact chanNamesFrom_trans
          (quitFold_namesFrom fd quitMsg st.channels (st, []))
          (removeFold_namesFrom _ _)
    · exact chanNamesFrom_of_channels_eq (updClient_channels _ _ _)

theorem handleCommand_namesFrom (st : Server) (fd : Int) (raw : Str) :
    chanNamesFrom st (handleCommand st fd raw) := by
  unfold handleCommand
  split
  · exact chanNamesFrom_refl _
  next msg _ =>
    by_cases h0 : msg.command = str "PASS"
    · rw [if_pos h0]
      exact chanNamesFrom_of_channels_eq (handlePass_channels _ _ _)
    rw [if_neg h0]
    by_cases h1 : msg.command = str "NICK"
    · rw [if_pos h1]
      exact chanNamesFrom_of_channels_eq (handleNick_channels _ _ _)
    rw [if_neg h1]
    by_cases h2 : msg.command = str "USER"
    · rw [if_pos h2]
      exact chanNamesFrom_of_channels_eq (handleUser_channels _ _ _)
    rw [if_neg h2]
    by_cases h3 : msg.command = str "PING"
    · rw [if_pos h3]
      exact chanNamesFrom_of_channels_eq (handlePing_channels _ _ _)
    rw [if_neg h3]
    by_cases h4 : msg.command = str "QUIT"
    · rw [if_pos h4]
      exact handleQuit_namesFrom _ _ _
    rw [if_neg h4]
    by_cases h5 : msg.command = str "PRIVMSG"
    · rw [if_pos h5]
      exact chanNamesFrom_of_channels_eq (handlePrivmsg_channels _ _ _)
    rw [if_neg h5]
    by_cases h6 : msg.command = str "NOTICE"
    · rw [if_pos h6]
      exact chanNamesFrom_of_channels_eq (handleNotice_channels _ _ _)
    rw [if_neg h6]
    by_cases h7 : msg.command = str "JOIN"
    · rw [if_pos h7]
      exact handleJoin_namesFrom _ _ _
    rw [if_neg h7]
    by_cases h8 : msg.command = str "PART"
    · rw [if_pos h8]
      exact handlePart_namesFrom _ _ _
    rw [if_neg h8]
    by_cases h9 : msg.command = str "KICK"
    · rw [if_pos h9]
      exact handleKick_namesFrom _ _ _
    rw [if_neg h9]
    by_cases h10 : msg.command = str "INVITE"
    · rw [if_pos h10]
      exact handleInvite_namesFrom _ _ _
    rw [if_neg h10]
    by_cases h11 : msg.command = str "TOPIC"
    · rw [if_pos h11]
      exact handleTopic_namesFrom _ _ _
    rw [if_neg h11]
    by_cases h12 : msg.command = str "MODE"
    · rw [if_pos h12]
      exact handleMode_namesFrom _ _ _
    rw [if_neg h12]
    by_cases h13 : msg.command = str "CAP"
    · rw [if_pos h13]
      exact chanNamesFrom_of_channels_eq (handleCap_channels _ _ _)
    rw [if_neg h13]
    by_cases h14 : msg.command = str "WHO"
    · rw [if_pos h14]
      exact chanNamesFrom_of_channels_eq (handleWho_channels _ _ _)
    rw [if_neg h14]
    split
    · exact chanNamesFrom_refl _
    · split
      · exact chanNamesFrom_refl _
      · exact chanNamesFrom_of_channels_eq (sendReplyTo_channels _ _ _)

theorem recvFold_namesFrom (fd : Int) :
    ∀ (lines : List Str) (s : Server),
      chanNamesFrom s
        (lines.foldl
          (fun acc line =>
            let acc := handleCommand acc fd line
            match lookupA fd acc.clients with
            | some c2 =>
              if !c2.outbuf.isEmpty then enablePolloutForFD acc fd else acc
            | none => acc) s)
  | [], _ => chanNamesFrom_refl _
  | line :: ls, s => by
    rw [List.foldl_cons]
    refine chanNamesFrom_trans ?_ (recvFold_namesFrom fd ls _)
    try dsimp only
    refine chanNamesFrom_trans (handleCommand_namesFrom s fd line) ?_
    split
    · split
      · exact chanNamesFrom_of_channels_eq (enablePolloutForFD_channels _ _)
      · exact chanNamesFrom_refl _
    · exact chanNamesFrom_refl _

theorem receiveChunk_namesFrom (st : Server) (fd : Int) (data : Str) :
    chanNamesFrom st (receiveChunk st fd data) := by
  unfold receiveChunk
  split
  · exact chanNamesFrom_refl _
  · split
    · exact chanNamesFrom_of_channels_eq rfl
    · try dsimp only
      refine chanNamesFrom_trans ?_ (recvFold_namesFrom fd _ _)
      exact chanNamesFrom_of_channels_eq (updClient_channels _ _ _)

theorem applyOp_namesFrom (st : Server) (op : Op) :
    chanNamesFrom st (applyOp st op) := by
  cases op with
  | accept fd => exact chanNamesFrom_of_channels_eq rfl
  | command fd raw => exact handleCommand_namesFrom st fd raw
  | recvChunk fd data => exact receiveChunk_namesFrom st fd data
  | recvErr fd => exact chanNamesFrom_of_channels_eq rfl

theorem chanNamesEmpty_foldl :
    ∀ (ops : List Op) (st : Server), chanNamesEmpty st →
      chanNamesEmpty (ops.foldl applyOp st)
  | [], _, h => h
  | op :: ops, st, h => by
    rw [List.foldl_cons]
    exact chanNamesEmpty_foldl ops _
      (chanNamesEmpty_of_from (applyOp_namesFrom st op) h)

/-- C10: in every server state reachable by any trace of accepted
connections, dispatched commands, received chunks and transport errors,
every Channel object held by the Registry has an empty name field
(Channel::getName would return ""): channels are created only by
Server::createChannel's default construction under the map key, and no
mutation ever assigns the name. -/
theorem C10_registry_channel_names_stay_empty (pw : Str) (ops : List Op) :
    chanNamesEmpty (runOps pw ops) :=
  chanNamesEmpty_foldl ops (initServer pw)
    (fun p hp => absurd hp (List.not_mem_nil p))

/-! ## Claim C6: the registration invariant and the welcome burst -/

theorem mem_updateA_nodup {α β : Type} [DecidableEq α] {k : α} {f : β → β}
    {p : α × β} :
    ∀ {l : List (α × β)}, (l.map Prod.fst).Nodup → p ∈ updateA k f l →
      (p ∈ l ∧ p.1 ≠ k) ∨ ∃ v, lookupA k l = some v ∧ p = (k, f v)
  | [], _, h => absurd h (List.not_mem_nil p)
  | (k', v) :: rest, hnd, h => by
    rw [List.map_cons] at hnd
    rcases List.nodup_cons.1 hnd with ⟨hk', hrest⟩
    by_cases hk : k = k'
    · rw [updateA, if_pos hk] at h
      rcases List.mem_cons.1 h with h1 | h1
      · exact Or.inr ⟨v, by rw [lookupA, if_pos hk], by rw [h1, hk]⟩
      · refine Or.inl ⟨List.mem_cons_of_mem _ h1, ?_⟩
        intro hpk
        have hm : p.1 ∈ rest.map Prod.fst := List.mem_map_of_mem Prod.fst h1
        exact hk' ((hpk.trans hk) ▸ hm)
    · rw [updateA, if_neg hk] at h
      rcases List.mem_cons.1 h with h1 | h1
      · refine Or.inl ⟨h1 ▸ List.mem_cons_self _ _, ?_⟩
        rw [h1]
        exact fun hh => hk hh.symm
      · rcases mem_updateA_nodup hrest h1 with ⟨h2, hne⟩ | ⟨w, hw1, hw2⟩
        · exact Or.inl ⟨List.mem_cons_of_mem _ h2, hne⟩
        · exact Or.inr ⟨w, by rw [lookupA, if_neg hk]; exact hw1, hw2⟩

theorem regAll_of_clients_eq {st st' : Server} (h : st'.clients = st.clients)
    (hr : regAll st) : regAll st' := fun p hp => hr p (h ▸ hp)

theorem regAll_appendOut (st : Server) (fd : Int) (d : Str) (h : regAll st) :
    regAll (appendOut st fd d) := by
  intro p hp
  have hp' : p ∈ updateA fd (fun c => { c with outbuf := c.outbuf ++ d })
      st.clients := hp
  rcases mem_updateA hp' with hm | ⟨v, hv, hpv⟩
  · exact h p hm
  · have hr := h (fd, v) (lookupA_mem hv)
    rw [hpv]
    exact hr

theorem regAll_sendReplyTo (st : Server) (fd : Int) (r : Str) (h : regAll st) :
    regAll (sendReplyTo st fd r) :=
  regAll_of_clients_eq (enablePolloutForFD_clients _ _)
    (regAll_appendOut st fd r h)

theorem foldl_regAll {γ : Type} (f : Server → γ → Server)
    (hf : ∀ s x, regAll s → regAll (f s x)) :
    ∀ (xs : List γ) (s : Server), regAll s → regAll (xs.foldl f s)
  | [], _, h => h
  | x :: xs, s, h => by
    rw [List.foldl_cons]
    exact foldl_regAll f hf xs (f s x) (hf s x h)

theorem regAll_broadcastMembers (st : Server) (ms : List Int) (d : Str)
    (ex : Int) (h : regAll st) : regAll (broadcastMembers st ms d ex) := by
  unfold broadcastMembers
  refine foldl_regAll _ ?_ ms st h
  intro s m hs
  split
  · exact hs
  · exact regAll_appendOut s m d hs

theorem regAll_broadcastToChannel (st : Server) (ms : List Int) (d : Str)
    (ex : Int) (h : regAll st) : regAll (broadcastToChannel st ms d ex) := by
  unfold broadcastToChannel
  exact regAll_of_clients_eq (pollFold_clients ms ex _)
    (regAll_broadcastMembers st ms d ex h)

theorem regAll_sendError (st : Server) (fd : Int) (code : Nat)
    (param m : Str) (h : regAll st) : regAll (sendError st fd code param m) := by
  unfold sendError
  split
  · exact h
  · try dsimp only
    split
    · exact h
    · exact regAll_sendReplyTo _ _ _ h

theorem regAll_sendNumeric (st : Server) (fd : Int) (code : Nat) (m : Str)
    (h : regAll st) : regAll (sendNumeric st fd code m) := by
  unfold sendNumeric
  split
  · exact h
  · split
    · exact h
    · exact regAll_sendReplyTo _ _ _ h

theorem regAll_sendWelcome (st : Server) (fd : Int) (h : regAll st) :
    regAll (sendWelcome st fd) := by
  unfold sendWelcome
  split
  · exact h
  · split
    · exact h
    · try dsimp only
      split
      · exact regAll_sendReplyTo _ _ _ h
      · try dsimp only
        split
        · exact regAll_sendReplyTo _ _ _ (regAll_sendReplyTo _ _ _ h)
        · try dsimp only
          split
          · exact regAll_sendReplyTo _ _ _
              (regAll_sendReplyTo _ _ _ (regAll_sendReplyTo _ _ _ h))
          · exact regAll_sendReplyTo _ _ _ (regAll_sendReplyTo _ _ _
              (regAll_sendReplyTo _ _ _ (regAll_sendReplyTo _ _ _ h)))

theorem appendOut_ckeys (st : Server) (fd : Int) (d : Str) :
    (appendOut st fd d).clients.map Prod.fst = st.clients.map Prod.fst :=
  updateA_keys _ _ _

theorem sendReplyTo_ckeys (st : Server) (fd : Int) (r : Str) :
    (sendReplyTo st fd r).clients.map Prod.fst = st.clients.map Prod.fst := by
  show ((enablePolloutForFD (appendOut st fd r) fd).clients).map Prod.fst = _
  rw [enablePolloutForFD_clients]
  exact appendOut_ckeys _ _ _

theorem broadcastMembers_ckeys (ms : List Int) (d : Str) (ex : Int) :
    ∀ st : Server, (broadcastMembers st ms d ex).clients.map Prod.fst
      = st.clients.map Prod.fst := by
  induction ms with
  | nil => intro st; rfl
  | cons m rest ih =>
    intro st
    unfold broadcastMembers
    rw [List.foldl_cons]
    by_cases hm : m = ex
    · simp only [if_pos hm]
      exact ih st
    · simp only [if_neg hm]
      rw [show (List.foldl _ (appendOut st m d) rest)
          = broadcastMembers (appendOut st m d) rest d ex from rfl]
      rw [ih (appendOut st m d)]
      exact appendOut_ckeys _ _ _

theorem broadcastToChannel_ckeys (st : Server) (ms : List Int) (d : Str)
    (ex : Int) : (broadcastToChannel st ms d ex).clients.map Prod.fst
      = st.clients.map Prod.fst := by
  unfold broadcastToChannel
  rw [pollFold_clients]
  exact broadcastMembers_ckeys ms d ex st

theorem nickFold_ckeys (fd : Int) (m : Str) :
    ∀ (es : List (Str × Channel)) (s : Server),
      ((es.foldl
        (fun acc nc =>
          if nc.2.isMember fd then broadcastToChannel acc nc.2.members m fd
          else acc) s)).clients.map Prod.fst = s.clients.map Prod.fst
  | [], _ => rfl
  | nc :: es, s => by
    rw [List.foldl_cons, nickFold_ckeys fd m es]
    split
    · exact broadcastToChannel_ckeys _ _ _ _
    · rfl

theorem nickFold_regAll (fd : Int) (m : Str) (es : List (Str × Channel))
    (s : Server) (h : regAll s) :
    regAll (es.foldl
      (fun acc nc =>
        if nc.2.isMember fd then broadcastToChannel acc nc.2.members m fd
        else acc) s) := by
  refine foldl_regAll _ ?_ es s h
  intro s2 nc hs
  split
  · exact regAll_broadcastToChannel _ _ _ _ hs
  · exact hs

/-- The registration check block restores the invariant: every other entry
already satisfies it, and the checked connection either satisfies it or is
still unregistered. -/
theorem regAll_checkRegistration (st : Server) (fd : Int)
    (hnd : (st.clients.map Prod.fst).Nodup)
    (hother : ∀ p ∈ st.clients, p.1 ≠ fd → regPred p.2)
    (hfd : ∀ c, lookupA fd st.clients = some c →
      regPred c ∨ c.registered = false) :
    regAll (checkRegistration st fd) := by
  unfold checkRegistration
  split
  next hluk =>
    intro p hp
    by_cases hpf : p.1 = fd
    · have hlp := lookupA_self_of_nodup hnd hp
      rw [hpf] at hlp
      exact Option.noConfusion (hlp.symm.trans hluk)
    · exact hother p hp hpf
  next c hluk =>
    split
    next hcond =>
      apply regAll_sendWelcome
      intro p hp
      have hp' : p ∈ updateA fd (fun c => { c with registered := true })
          st.clients := hp
      rcases mem_updateA_nodup hnd hp' with ⟨hm, hne⟩ | ⟨v, hv, hpv⟩
      · exact hother p hm hne
      · have hvc : v = c := Option.some.inj (hv.symm.trans hluk)
        rw [hpv, hvc]
        show true = (c.authenticated && !c.nickname.isEmpty
          && !c.username.isEmpty)
        rw [hcond.symm]
        -- hcond : (!c.registered && auth && nick && user) = true forces
        -- registered = false, so the lhs conjunct is the constant true
        have h1 : c.registered = false := by
          simp only [Bool.and_eq_true] at hcond
          have h4 := hcond.1.1.1
          cases hb : c.registered
          · rfl
          · rw [hb] at h4
            exact absurd h4 (by decide)
        rw [h1]
        rfl
    next hcond =>
      intro p hp
      by_cases hpf : p.1 = fd
      · have hlp := lookupA_self_of_nodup hnd hp
        rw [hpf] at hlp
        have hpc : p.2 = c := Option.some.inj (hlp.symm.trans hluk)
        rcases hfd c hluk with h | h
        · rw [hpc]
          exact h
        · rw [hpc]
          have hrhs : (c.authenticated && !c.nickname.isEmpty
              && !c.username.isEmpty) = false := by
            cases hb : (c.authenticated && !c.nickname.isEmpty
              && !c.username.isEmpty) with
            | false => rfl
            | true =>
              exact absurd
                (by simp only [h, Bool.not_false, Bool.true_and]; exact hb)
                hcond
          show c.registered = (c.authenticated && !c.nickname.isEmpty
            && !c.username.isEmpty)
          rw [h, hrhs]
      · exact hother p hp hpf

/-- Every connection's stored Client after the step is an image of the one
before it under a function that never clears the registered flag.  This is
the shape of every mutation the PASS, NICK and USER handlers perform. -/
def liftsReg (st st' : Server) : Prop :=
  ∀ fd : Int, ∃ g : Client → Client,
    lookupA fd st'.clients = (lookupA fd st.clients).map g
      ∧ ∀ v : Client, v.registered = true → (g v).registered = true

theorem liftsReg_refl (st : Server) : liftsReg st st :=
  fun fd => ⟨id, by cases lookupA fd st.clients <;> rfl, fun _ h => h⟩

theorem liftsReg_trans {a b c : Server} (h1 : liftsReg a b)
    (h2 : liftsReg b c) : liftsReg a c := by
  intro fd
  obtain ⟨g1, hg1, hm1⟩ := h1 fd
  obtain ⟨g2, hg2, hm2⟩ := h2 fd
  refine ⟨g2 ∘ g1, ?_, fun v hv => hm2 _ (hm1 v hv)⟩
  rw [hg2, hg1, Option.map_map]

theorem liftsReg_of_clients_eq {st st' : Server}
    (h : st'.clients = st.clients) : liftsReg st st' :=
  fun fd => ⟨id, by rw [h]; cases lookupA fd st.clients <;> rfl, fun _ h => h⟩

theorem liftsReg_updClient (st : Server) (fd : Int) (f : Client → Client)
    (hf : ∀ v, v.registered = true → (f v).registered = true) :
    liftsReg st (updClient st fd f) := by
  intro fd'
  by_cases he : fd' = fd
  · subst he
    exact ⟨f, lookupA_updateA_self _ _ _, hf⟩
  · refine ⟨id, ?_, fun _ h => h⟩
    rw [show (updClient st fd f).clients = updateA fd f st.clients from rfl,
      lookupA_updateA_ne _ _ he]
    cases lookupA fd' st.clients <;> rfl

theorem liftsReg_appendOut (st : Server) (fd : Int) (d : Str) :
    liftsReg st (appendOut st fd d) :=
  liftsReg_updClient st fd _ (fun _ h => h)

theorem liftsReg_sendReplyTo (st : Server) (fd : Int) (r : Str) :
    liftsReg st (sendReplyTo st fd r) :=
  liftsReg_trans (liftsReg_appendOut st fd r)
    (liftsReg_of_clients_eq (enablePolloutForFD_clients _ _))

theorem liftsReg_foldl {γ : Type} (f : Server → γ → Server)
    (hf : ∀ s x, liftsReg s (f s x)) :
    ∀ (xs : List γ) (s : Server), liftsReg s (xs.foldl f s)
  | [], s => liftsReg_refl s
  | x :: xs, s => by
    rw [List.foldl_cons]
    exact liftsReg_trans (hf s x) (liftsReg_foldl f hf xs (f s x))

theorem liftsReg_broadcastMembers (st : Server) (ms : List Int) (d : Str)
    (ex : Int) : liftsReg st (broadcastMembers st ms d ex) := by
  unfold broadcastMembers
  refine liftsReg_foldl _ ?_ ms st
  intro s m
  split
  · exact liftsReg_refl s
  · exact liftsReg_appendOut s m d

theorem liftsReg_broadcastToChannel (st : Server) (ms : List Int) (d : Str)
    (ex : Int) : liftsReg st (broadcastToChannel st ms d ex) := by
  unfold broadcastToChannel
  exact liftsReg_trans (liftsReg_broadcastMembers st ms d ex)
    (liftsReg_of_clients_eq (pollFold_clients ms ex _))

theorem liftsReg_sendError (st : Server) (fd : Int) (code : Nat)
    (param m : Str) : liftsReg st (sendError st fd code param m) := by
  unfold sendError
  split
  · exact liftsReg_refl _
  · try dsimp only
    split
    · exact liftsReg_refl _
    · exact liftsReg_sendReplyTo _ _ _

theorem liftsReg_sendWelcome (st : Server) (fd : Int) :
    liftsReg st (sendWelcome st fd) := by
  unfold sendWelcome
  split
  · exact liftsReg_refl _
  · split
    · exact liftsReg_refl _
    · try dsimp only
      split
      · exact liftsReg_sendReplyTo _ _ _
      · try dsimp only
        split
        · exact liftsReg_trans (liftsReg_sendReplyTo _ _ _)
            (liftsReg_sendReplyTo _ _ _)
        · try dsimp only
          split
          · exact liftsReg_trans (liftsReg_trans (liftsReg_sendReplyTo _ _ _)
              (liftsReg_sendReplyTo _ _ _)) (liftsReg_sendReplyTo _ _ _)
          · exact liftsReg_trans (liftsReg_trans (liftsReg_trans
              (liftsReg_sendReplyTo _ _ _) (liftsReg_sendReplyTo _ _ _))
              (liftsReg_sendReplyTo _ _ _)) (liftsReg_sendReplyTo _ _ _)

theorem liftsReg_checkRegistration (st : Server) (fd : Int) :
    liftsReg st (checkRegistration st fd) := by
  unfold checkRegistration
  split
  · exact liftsReg_refl _
  · split
    · exact liftsReg_trans (liftsReg_updClient st fd _ (fun v _ => rfl))
        (liftsReg_sendWelcome _ _)
    · exact liftsReg_refl _

theorem liftsReg_handlePass (st : Server) (fd : Int) (msg : Msg) :
    liftsReg st (handlePass st fd msg) := by
  unfold handlePass
  split
  · exact liftsReg_refl _
  · split
    · exact liftsReg_sendError _ _ _ _ _
    · split
      · exact liftsReg_sendError _ _ _ _ _
      · try dsimp only
        split
        · refine liftsReg_trans ?_ (liftsReg_checkRegistration _ _)
          refine liftsReg_updClient st fd _ ?_
          exact fun v h => h
        · exact liftsReg_sendError _ _ _ _ _

theorem liftsReg_handleNick (st : Server) (fd : Int) (msg : Msg) :
    liftsReg st (handleNick st fd msg) := by
  unfold handleNick
  split
  · exact liftsReg_refl _
  · split
    · exact liftsReg_sendError _ _ _ _ _
    · try dsimp only
      split
      · exact liftsReg_sendError _ _ _ _ _
      · split
        · exact liftsReg_sendError _ _ _ _ _
        · refine liftsReg_trans ?_ (liftsReg_checkRegistration _ _)
          split
          · refine liftsReg_trans ?_ (liftsReg_foldl _ ?_ _ _)
            · refine liftsReg_trans ?_ (liftsReg_sendReplyTo _ _ _)
              refine liftsReg_updClient st fd _ ?_
              exact fun v h => h
            · intro s nc
              split
              · exact liftsReg_broadcastToChannel _ _ _ _
              · exact liftsReg_refl _
          · refine liftsReg_updClient st fd _ ?_
            exact fun v h => h

theorem liftsReg_handleUser (st : Server) (fd : Int) (msg : Msg) :
    liftsReg st (handleUser st fd msg) := by
  unfold handleUser
  split
  · exact liftsReg_refl _
  · split
    · exact liftsReg_sendError _ _ _ _ _
    · split
      · exact liftsReg_sendError _ _ _ _ _
      · try dsimp only
        refine liftsReg_trans ?_ (liftsReg_checkRegistration _ _)
        refine liftsReg_updClient st fd _ ?_
        exact fun v h => h

theorem monoStep_of_liftsReg {st st' : Server} (h : liftsReg st st') :
    monoStep st st' := by
  intro fd c c' hc hc' hr
  obtain ⟨g, hg, hm⟩ := h fd
  rw [hc] at hg
  have hgc : g c = c' := Option.some.inj (hg.symm.trans hc')
  rw [← hgc]
  exact hm c hr

theorem updClient_ckeys (st : Server) (fd : Int) (f : Client → Client) :
    (updClient st fd f).clients.map Prod.fst = st.clients.map Prod.fst :=
  updateA_keys _ _ _

theorem isValidNickname_isEmpty {n : Str} (h : isValidNickname n = true) :
    n.isEmpty = false := by
  cases hn : n.isEmpty with
  | false => rfl
  | true =>
    unfold isValidNickname at h
    rw [hn] at h
    simp at h

theorem bnot_not_eq_true {b : Bool} (h : ¬((!b) = true)) : b = true := by
  cases hb : b
  · rw [hb] at h
    exact absurd rfl h
  · rfl

theorem regPred_set_nickname {c : Client} {n : Str} (h : regPred c)
    (hr : c.registered = true) (hn : n.isEmpty = false) :
    regPred { c with nickname := n } := by
  show c.registered = (c.authenticated && !n.isEmpty && !c.username.isEmpty)
  have h2 : (c.authenticated && !c.nickname.isEmpty
      && !c.username.isEmpty) = true := by
    rw [← h]
    exact hr
  simp only [Bool.and_eq_true] at h2
  rw [hn, hr, h2.1.1, h2.2]
  rfl

theorem registered_lookup_updClient {st : Server} {fd : Int}
    {f : Client → Client} {c c' : Client}
    (hc : lookupA fd st.clients = some c)
    (hc' : lookupA fd (updClient st fd f).clients = some c')
    (hf : ∀ v, (f v).registered = v.registered) :
    c'.registered = c.registered := by
  have h2 := lookupA_updateA_self fd f st.clients
  rw [hc] at h2
  have h3 : c' = f c := Option.some.inj (hc'.symm.trans h2)
  rw [h3, hf]

theorem regAll_handlePass (st : Server) (fd : Int) (msg : Msg)
    (hnd : (st.clients.map Prod.fst).Nodup) (hreg : regAll st) :
    regAll (handlePass st fd msg) := by
  unfold handlePass
  split
  · exact hreg
  next c hc =>
    split
    next hregd => exact regAll_sendError _ _ _ _ _ hreg
    next hregd =>
      split
      · exact regAll_sendError _ _ _ _ _ hreg
      · try dsimp only
        split
        · refine regAll_checkRegistration _ _ ?_ ?_ ?_
          · rw [updClient_ckeys]
            exact hnd
          · intro p hp hne
            rcases mem_updateA hp with hm | ⟨v, hv, hpv⟩
            · exact hreg p hm
            · exact absurd (by rw [hpv]) hne
          · intro c' hc'
            right
            rw [registered_lookup_updClient hc hc' (fun v => rfl)]
            cases hb : c.registered
            · rfl
            · exact absurd hb hregd
        · exact regAll_sendError _ _ _ _ _ hreg

theorem regAll_handleUser (st : Server) (fd : Int) (msg : Msg)
    (hnd : (st.clients.map Prod.fst).Nodup) (hreg : regAll st) :
    regAll (handleUser st fd msg) := by
  unfold handleUser
  split
  · exact hreg
  next c hc =>
    split
    next hregd => exact regAll_sendError _ _ _ _ _ hreg
    next hregd =>
      split
      · exact regAll_sendError _ _ _ _ _ hreg
      · try dsimp only
        refine regAll_checkRegistration _ _ ?_ ?_ ?_
        · rw [updClient_ckeys]
          exact hnd
        · intro p hp hne
          rcases mem_updateA hp with hm | ⟨v, hv, hpv⟩
          · exact hreg p hm
          · exact absurd (by rw [hpv]) hne
        · intro c' hc'
          right
          rw [registered_lookup_updClient hc hc' (fun v => rfl)]
          cases hb : c.registered
          · rfl
          · exact absurd hb hregd

theorem regAll_handleNick (st : Server) (fd : Int) (msg : Msg)
    (hnd : (st.clients.map Prod.fst).Nodup) (hreg : regAll st) :
    regAll (handleNick st fd msg) := by
  unfold handleNick
  split
  · exact hreg
  next c hc =>
    split
    · exact regAll_sendError _ _ _ _ _ hreg
    · try dsimp only
      split
      next hvalid => exact regAll_sendError _ _ _ _ _ hreg
      next hvalid =>
        split
        · exact regAll_sendError _ _ _ _ _ hreg
        · split
          next hcreg =>
            refine regAll_checkRegistration _ _ ?_ ?_ ?_
            · rw [nickFold_ckeys, sendReplyTo_ckeys, updClient_ckeys]
              exact hnd
            · intro p hp _
              refine nickFold_regAll fd _ _ _ ?_ p hp
              refine regAll_sendReplyTo _ _ _ ?_
              intro q hq
              rcases mem_updateA hq with hm | ⟨v, hv, hpv⟩
              · exact hreg q hm
              · have hvc : v = c := Option.some.inj (hv.symm.trans hc)
                rw [hpv, hvc]
                exact regPred_set_nickname (hreg (fd, c) (lookupA_mem hc))
                  hcreg (isValidNickname_isEmpty (bnot_not_eq_true hvalid))
            · intro c' hc'
              refine Or.inl (nickFold_regAll fd _ _ _ ?_ (fd, c')
                (lookupA_mem hc'))
              refine regAll_sendReplyTo _ _ _ ?_
              intro q hq
              rcases mem_updateA hq with hm | ⟨v, hv, hpv⟩
              · exact hreg q hm
              · have hvc : v = c := Option.some.inj (hv.symm.trans hc)
                rw [hpv, hvc]
                exact regPred_set_nickname (hreg (fd, c) (lookupA_mem hc))
                  hcreg (isValidNickname_isEmpty (bnot_not_eq_true hvalid))
          next hcreg =>
            refine regAll_checkRegistration _ _ ?_ ?_ ?_
            · rw [updClient_ckeys]
              exact hnd
            · intro p hp hne
              rcases mem_updateA hp with hm | ⟨v, hv, hpv⟩
              · exact hreg p hm
              · exact absurd (by rw [hpv]) hne
            · intro c' hc'
              right
              rw [registered_lookup_updClient hc hc' (fun v => rfl)]
              cases hb : c.registered
              · rfl
              · exact absurd hb hcreg

theorem sendReplyTo_lookup (st : Server) (fd : Int) (r : Str) :
    lookupA fd (sendReplyTo st fd r).clients
      = (lookupA fd st.clients).map
          (fun c => { c with outbuf := c.outbuf ++ r }) := by
  show lookupA fd (enablePolloutForFD (appendOut st fd r) fd).clients = _
  rw [enablePolloutForFD_clients]
  exact lookupA_appendOut_self st fd r

/-- sendWelcome appends exactly welcomeBytes to the target's outbuf: the
replies 001..004 in order, truncated at the first one the 512-byte
builder refuses. -/
theorem sendWelcome_lookup (st : Server) (fd : Int) (c : Client)
    (hc : lookupA fd st.clients = some c) :
    lookupA fd (sendWelcome st fd).clients
      = some { c with outbuf := c.outbuf ++ welcomeBytes c } := by
  unfold sendWelcome
  rw [hc]
  try dsimp only
  unfold welcomeBytes
  split
  next hb1 =>
    rw [List.append_nil]
    exact hc
  next r1 hb1 =>
    try dsimp only
    split
    next hb2 =>
      rw [sendReplyTo_lookup, hc]
      simp only [Option.map_some', List.append_nil]
    next r2 hb2 =>
      try dsimp only
      split
      next hb3 =>
        rw [sendReplyTo_lookup, sendReplyTo_lookup, hc]
        simp only [Option.map_some', List.append_nil, List.append_assoc]
      next r3 hb3 =>
        try dsimp only
        split
        next hb4 =>
          rw [sendReplyTo_lookup, sendReplyTo_lookup, sendReplyTo_lookup, hc]
          simp only [Option.map_some', List.append_nil, List.append_assoc]
        next r4 hb4 =>
          rw [sendReplyTo_lookup, sendReplyTo_lookup, sendReplyTo_lookup,
            sendReplyTo_lookup, hc]
          simp only [Option.map_some', List.append_assoc]

/-- The registration check on an unregistered connection: when the three
conditions hold it marks the client registered and appends the (possibly
truncated) welcome burst; otherwise it changes nothing. -/
theorem checkRegistration_lookup (st : Server) (fd : Int) (c : Client)
    (hc : lookupA fd st.clients = some c) (hr : c.registered = false) :
    lookupA fd (checkRegistration st fd).clients
      = if c.authenticated && !c.nickname.isEmpty && !c.username.isEmpty then
          some { c with
            registered := true,
            outbuf := c.outbuf ++ welcomeBytes { c with registered := true } }
        else some c := by
  unfold checkRegistration
  rw [hc]
  try dsimp only
  rw [hr]
  simp only [Bool.not_false, Bool.true_and]
  by_cases hA : (c.authenticated && !c.nickname.isEmpty
      && !c.username.isEmpty) = true
  · rw [if_pos hA, if_pos hA]
    have h1 : lookupA fd (updClient st fd
        (fun c => { c with registered := true })).clients
        = some { c with registered := true } := by
      have h2 := lookupA_updateA_self fd
        (fun c => { c with registered := true }) st.clients
      rw [hc] at h2
      exact h2
    rw [sendWelcome_lookup _ _ _ h1]
  · rw [if_neg hA, if_neg hA]
    exact hc

/-- C6: after each PASS, NICK or USER command the registration invariant
(registered iff authenticated with nickname and username both set) holds
for every connection in the Registry, the registered flag never reverts,
and the false-to-true transition performed by the registration check
appends exactly the welcome burst bytes to that connection's output
buffer -- the 001..004 replies in order, cut short at the first reply the
512-byte builder refuses. -/
theorem C6_registration_invariant_and_burst (st : Server) (fd : Int)
    (msg : Msg) (hnd : (st.clients.map Prod.fst).Nodup) (hreg : regAll st) :
    (regAll (handlePass st fd msg) ∧ regAll (handleNick st fd msg)
        ∧ regAll (handleUser st fd msg))
      ∧ (monoStep st (handlePass st fd msg)
        ∧ monoStep st (handleNick st fd msg)
        ∧ monoStep st (handleUser st fd msg))
      ∧ (∀ c, lookupA fd st.clients = some c → c.registered = false →
          lookupA fd (checkRegistration st fd).clients
            = if c.authenticated && !c.nickname.isEmpty
                && !c.username.isEmpty then
                some { c with
                  registered := true,
                  outbuf := c.outbuf
                    ++ welcomeBytes { c with registered := true } }
              else some c) :=
  ⟨⟨regAll_handlePass st fd msg hnd hreg, regAll_handleNick st fd msg hnd hreg,
    regAll_handleUser st fd msg hnd hreg⟩,
   ⟨monoStep_of_liftsReg (liftsReg_handlePass st fd msg),
    monoStep_of_liftsReg (liftsReg_handleNick st fd msg),
    monoStep_of_liftsReg (liftsReg_handleUser st fd msg)⟩,
   fun c hc hr => checkRegistration_lookup st fd c hc hr⟩

def c6Msg : Msg := ⟨[], str "PASS", [str "pw"], []⟩

theorem C6_registration_invariant_and_burst_witness :
    (demoSt.clients.map Prod.fst).Nodup ∧ regAll demoSt ∧
      ((regAll (handlePass demoSt 1 c6Msg) ∧ regAll (handleNick demoSt 1 c6Msg)
          ∧ regAll (handleUser demoSt 1 c6Msg))
        ∧ (monoStep demoSt (handlePass demoSt 1 c6Msg)
          ∧ monoStep demoSt (handleNick demoSt 1 c6Msg)
          ∧ monoStep demoSt (handleUser demoSt 1 c6Msg))
        ∧ (∀ c, lookupA 1 demoSt.clients = some c → c.registered = false →
            lookupA 1 (checkRegistration demoSt 1).clients
              = if c.authenticated && !c.nickname.isEmpty
                  && !c.username.isEmpty then
                  some { c with
                    registered := true,
                    outbuf := c.outbuf
                      ++ welcomeBytes { c with registered := true } }
                else some c)) :=
  ⟨by decide,
   by
     show ∀ p ∈ demoSt.clients, p.2.registered = (p.2.authenticated
       && !p.2.nickname.isEmpty && !p.2.username.isEmpty)
     decide,
   C6_registration_invariant_and_burst demoSt 1 c6Msg (by decide)
     (by
       show ∀ p ∈ demoSt.clients, p.2.registered = (p.2.authenticated
         && !p.2.nickname.isEmpty && !p.2.username.isEmpty)
       decide)⟩

/-- A 460-byte username: long enough that the 001 reply built for it
exceeds the 512-byte builder ceiling. -/
def longUser : Str := List.replicate 460 'u'

/-- An authenticated connection with a nickname but no username yet. -/
def c6C : Client :=
  { fd := 1, inbuf := [], outbuf := [], nickname := str "alice",
    username := [], realname := [], authenticated := true,
    registered := false, peerClosed := false, shouldDisconnect := false,
    quitReason := [], userModes := [] }

def c6St : Server :=
  { clients := [(1, c6C)], channels := [], pollfds := [⟨1, true, false⟩],
    password := str "pw" }

set_option maxRecDepth 8192 in
/-- C6 counterexample: a USER command whose username makes the 001 reply
exceed 512 bytes flips registered to true while the builder's length
error aborts the whole welcome burst, so no 001..004 reply is queued at
the transition. -/
theorem C6_long_username_registers_without_burst :
    (lookupA 1 (handleUser c6St 1
        ⟨[], str "USER", [longUser, str "0", str "*"],
          str "Real Name"⟩).clients).map
        (fun c => (c.registered, c.outbuf))
      = some (true, []) := by decide

end IRC
